import Mathlib

/-!
Verification of the OCR field-extraction engine.

A shallow embedding, in Lean 4, of the core string/merge/geometry routines of
the OCR repository (`src/services/parsers.py`, `src/services/ocr_merge.py`,
`src/services/extractor.py`), together with theorems settling the frozen
claims about its specification.

Strings are modelled as Lean `String`/`List Char`; Python dictionaries as
ordered association lists (`List (String × String)`) with first-occurrence
lookup; Python floats as rationals (`ℚ` — the geometry code only compares,
swaps and clamps, so no rounding is involved); regular-expression searches as
hand-written leftmost-match scanners over character lists, one per concrete
pattern appearing in the sources.
-/

namespace OCRSpec

/-- Python whitespace: the code points accepted by `str.strip()` and matched
by `\s` in `re` on `str` inputs (ASCII whitespace, the C1 controls 28–31,
NEL, NBSP, and the Unicode space separators). -/
def isPyWs (c : Char) : Bool :=
  c.toNat = 32 || (9 ≤ c.toNat && c.toNat ≤ 13) ||
  (28 ≤ c.toNat && c.toNat ≤ 31) || c.toNat = 133 || c.toNat = 160 ||
  c.toNat = 5760 || (8192 ≤ c.toNat && c.toNat ≤ 8202) ||
  c.toNat = 8232 || c.toNat = 8233 || c.toNat = 8239 || c.toNat = 8287 ||
  c.toNat = 12288

/-- Regex word character (`\b` boundaries). The scanners below are only ever
run on `unidecode`d (hence ASCII) text, where `\w` is `[A-Za-z0-9_]`. -/
def isWordChar (c : Char) : Bool :=
  (65 ≤ c.toNat && c.toNat ≤ 90) || (97 ≤ c.toNat && c.toNat ≤ 122) ||
  (48 ≤ c.toNat && c.toNat ≤ 57) || c.toNat = 95

/-- ASCII digit. -/
def isDigitC (c : Char) : Bool := 48 ≤ c.toNat && c.toNat ≤ 57

/-- ASCII upper-case letter. -/
def isUpperAZ (c : Char) : Bool := 65 ≤ c.toNat && c.toNat ≤ 90

/-- Character class `[A-Z0-9]`. -/
def isAZ09 (c : Char) : Bool := isUpperAZ c || isDigitC c

/-- Modelled from the external `unidecode` collaborator (`parsers._norm`,
`extractor._norm_text` call `unidecode(s)` before upper-casing): ASCII code
points pass through unchanged, the Spanish diacritics and the en dash that
this repository's documents use transliterate as `unidecode` does, and any
other character is dropped.  Only the fact that the output is ASCII matters
for the theorems below, and that is true of the real library as well. -/
def unidecodeTable : List (Char × Char) :=
  [('Á', 'A'), ('É', 'E'), ('Í', 'I'), ('Ó', 'O'), ('Ú', 'U'), ('Ü', 'U'),
   ('Ñ', 'N'), ('á', 'a'), ('é', 'e'), ('í', 'i'), ('ó', 'o'), ('ú', 'u'),
   ('ü', 'u'), ('ñ', 'n'), ('–', '-')]

def unidecodeChar (c : Char) : List Char :=
  if c.toNat < 128 then [c]
  else
    match unidecodeTable.find? (fun p => p.1 = c) with
    | some p => [p.2]
    | none => []

def unidecodeL (l : List Char) : List Char := (l.map unidecodeChar).flatten

/-- Python `str.upper()` restricted to ASCII (every use in the embedded code
is applied to `unidecode` output or to values compared against ASCII data). -/
def pyUpperChar (c : Char) : Char :=
  if 97 ≤ c.toNat && c.toNat ≤ 122 then Char.ofNat (c.toNat - 32) else c

/-- Maximal non-whitespace runs of a character list (`cur` accumulates the
run currently being read). -/
def wordsAux : List Char → List Char → List (List Char)
  | [], cur => if cur.isEmpty then [] else [cur]
  | c :: cs, cur =>
    if isPyWs c then
      if cur.isEmpty then wordsAux cs [] else cur :: wordsAux cs []
    else wordsAux cs (cur ++ [c])

/-- Python `s.split()`: maximal whitespace-free runs. -/
def pyWordsL (l : List Char) : List (List Char) := wordsAux l []

/-- Join words with single spaces. -/
def joinWords : List (List Char) → List Char
  | [] => []
  | [w] => w
  | w :: ws => w ++ ' ' :: joinWords ws

/-- `re.sub(r"\s+", " ", s).strip()`: every maximal whitespace run becomes a
single space and the ends are trimmed — i.e. split into words, join with
single spaces. -/
def collapseWs (l : List Char) : List Char := joinWords (pyWordsL l)

/-- `parsers._norm` / `extractor._norm_text`:
`unidecode(s or "").upper()`, then whitespace-run collapse and trim. -/
def pyNormL (l : List Char) : List Char := collapseWs ((unidecodeL l).map pyUpperChar)

def pyNorm (s : String) : String := ⟨pyNormL s.data⟩

/-- Python `str.strip()` (no arguments): trim leading and trailing whitespace. -/
def pyStripL (l : List Char) : List Char :=
  ((l.dropWhile isPyWs).reverse.dropWhile isPyWs).reverse

def pyStrip (s : String) : String := ⟨pyStripL s.data⟩

def pyUpper (s : String) : String := ⟨s.data.map pyUpperChar⟩

/-! ## Fixed points of whitespace collapsing -/

/-- No two adjacent whitespace characters. -/
def noWsRun : List Char → Bool
  | [] => true
  | [_] => true
  | a :: b :: r => (!(isPyWs a && isPyWs b)) && noWsRun (b :: r)

def headNonWs : List Char → Bool
  | [] => true
  | c :: _ => !isPyWs c

def lastNonWs (l : List Char) : Bool :=
  match l.getLast? with
  | none => true
  | some c => !isPyWs c

def wsOnlySpace (l : List Char) : Bool := l.all (fun c => !isPyWs c || c = ' ')

/-- A string is already in collapsed form: single interior spaces only. -/
def isCollapsedL (l : List Char) : Bool :=
  headNonWs l && lastNonWs l && noWsRun l && wsOnlySpace l

/-! ## Python dictionaries as ordered association lists -/

/-- Python `dict[str, str]`: insertion-ordered, unique keys (uniqueness is a
hypothesis where a theorem needs it). -/
abbrev FieldMap := List (String × String)

/-- `d.get(k)`. -/
def dget : FieldMap → String → Option String
  | [], _ => none
  | p :: rest, k => if p.1 = k then some p.2 else dget rest k

/-- `d[k] = v`: replace in place, preserving position, else append. -/
def dset : FieldMap → String → String → FieldMap
  | [], k, v => [(k, v)]
  | p :: rest, k, v => if p.1 = k then (k, v) :: rest else p :: dset rest k v

/-- `d.setdefault(k, "")`. -/
def dsetdefault (m : FieldMap) (k : String) : FieldMap :=
  if (dget m k).isSome then m else m ++ [(k, "")]

/-- `d.update(other)`. -/
def dupdate (m other : FieldMap) : FieldMap :=
  other.foldl (fun acc p => dset acc p.1 p.2) m

/-- `for k in ks: d.setdefault(k, "")`. -/
def dsetdefaults (m : FieldMap) (ks : List String) : FieldMap :=
  ks.foldl dsetdefault m

/-! ## The merge engine (`src/services/ocr_merge.py`) -/

/-- The validation patterns `smart_merge_fields` passes to `_choose`, one
constructor per regex literal of `ocr_merge.py`: `curp` is `CURP_REGEX`,
`year` is `YEAR_REGEX`, `date` is `DATE_REGEX`, `vig` is `VIG_REGEX`,
`seccion` is `SECCION_REGEX`, `sexo` is `SEXO_REGEX`, and `clave` is the
inline elector-key regex of the `clave_elector` call.  The selection logic
of `_choose` is independent of the regex semantics, so the merge embedding
is parameterised by a matcher `search : Pat → String → Bool` standing for
`re.search`; the Field-Cleaner section below provides concrete scanners. -/
inductive Pat where
  | curp
  | year
  | date
  | vig
  | seccion
  | sexo
  | clave
deriving DecidableEq, Repr

/-- One entry of the `decisions` audit list. -/
structure Decision where
  field : String
  chosen_from : String
  value : String
deriving DecidableEq, Repr

/-- `ocr_merge._ok`: empty values never validate; without a pattern any
non-empty value does; with a pattern the upper-cased value must match. -/
def reOk (search : Pat → String → Bool) (pat : Option Pat) (val : String) :
    Bool :=
  if val = "" then false
  else
    match pat with
    | none => true
    | some p => search p (pyUpper val)

/-- The `(src, val)` pair chosen by `ocr_merge._choose` from the stripped
template/auto/text values `t`, `a`, `x`. -/
def chooseRes (search : Pat → String → Bool) (pat : Option Pat)
    (t a x : String) : String × String :=
  match pat with
  | some _ =>
    if reOk search pat t then ("template", t)
    else if reOk search pat a then ("auto", a)
    else if reOk search pat x then ("text", x)
    else if t ≠ "" then ("template", t)
    else if a ≠ "" then ("auto", a)
    else if x ≠ "" then ("text", x)
    else ("none", "")
  | none =>
    if t ≠ "" then ("template", t)
    else if a ≠ "" then ("auto", a)
    else ("text", x)

/-- `ocr_merge._choose`: resolve one field and record the decision. -/
def choose (search : Pat → String → Bool) (name : String) (pat : Option Pat)
    (ftpl fauto ftext : FieldMap) (st : FieldMap × List Decision) :
    FieldMap × List Decision :=
  let t := pyStrip ((dget ftpl name).getD "")
  let a := pyStrip ((dget fauto name).getD "")
  let x := pyStrip ((dget ftext name).getD "")
  let sv := chooseRes search pat t a x
  (dset st.1 name sv.2, st.2 ++ [⟨name, sv.1, sv.2⟩])

/-- The `(field, pattern)` sequence of `_choose` calls in the `"ine"` branch
of `smart_merge_fields`. -/
def ineSpec : List (String × Option Pat) :=
  [("nombre", none), ("sexo", some .sexo), ("domicilio", none),
   ("clave_elector", some .clave), ("curp", some .curp),
   ("anio_registro", some .year), ("fecha_nacimiento", some .date),
   ("seccion", some .seccion), ("vigencia", some .vig)]

/-- The `(field, pattern)` sequence of the `"curp"` branch. -/
def curpSpec : List (String × Option Pat) :=
  [("curp", some .curp), ("nombre", none), ("entidad_registro", none)]

/-- The `(field, pattern)` list iterated in the `"acta"` branch. -/
def actaSpec : List (String × Option Pat) :=
  [("curp", some .curp), ("entidad_registro", none),
   ("municipio_registro", none), ("nombres", none),
   ("primer_apellido", none), ("segundo_apellido", none),
   ("sexo", some .sexo), ("fecha_nacimiento", some .date),
   ("lugar_nacimiento", none)]

/-- The `_choose` schedule per document type (empty for `"otros"`, which is
handled by the key-union loop, and for unknown types). -/
def mergeSpec (tipo : String) : List (String × Option Pat) :=
  if tipo = "ine" then ineSpec
  else if tipo = "curp" then curpSpec
  else if tipo = "acta" then actaSpec
  else []

/-- `expected_keys_map` of `smart_merge_fields`. -/
def expectedKeys (tipo : String) : List String :=
  if tipo = "ine" then
    ["nombre", "sexo", "domicilio", "clave_elector", "curp", "anio_registro",
     "fecha_nacimiento", "seccion", "vigencia"]
  else if tipo = "curp" then ["curp", "nombre", "entidad_registro"]
  else if tipo = "acta" then
    ["curp", "entidad_registro", "municipio_registro", "nombres",
     "primer_apellido", "segundo_apellido", "sexo", "fecha_nacimiento",
     "lugar_nacimiento"]
  else if tipo = "otros" then
    ["titulo", "fecha_documento", "rfc_detectado", "curp_detectada", "folio",
     "emisor"]
  else []

/-- The sequence of `_choose` calls of a fixed-field branch. -/
def chooseAll (search : Pat → String → Bool)
    (specs : List (String × Option Pat)) (ftpl fauto ftext : FieldMap)
    (st : FieldMap × List Decision) : FieldMap × List Decision :=
  specs.foldl (fun acc p => choose search p.1 p.2 ftpl fauto ftext acc) st

/-- The provenance recorded for a key in the `"otros"` branch: determined by
key membership (`k in fields_text`, …), not by value emptiness. -/
def otrosSrc (ftpl fauto ftext : FieldMap) (k : String) : String :=
  if (dget ftext k).isSome then "text"
  else if (dget fauto k).isSome then "auto"
  else if (dget ftpl k).isSome then "template"
  else "none"

/-- One iteration of the `"otros"` loop: `fields[k] = v` plus its decision. -/
def otrosStep (ftpl fauto ftext : FieldMap) (st : FieldMap × List Decision)
    (p : String × String) : FieldMap × List Decision :=
  (dset st.1 p.1 p.2, st.2 ++ [⟨p.1, otrosSrc ftpl fauto ftext p.1, p.2⟩])

/-- The `"otros"` branch: merge by key union (template, then auto, then text
overwriting), then record one decision per merged key. -/
def otrosMerge (ftpl fauto ftext : FieldMap) : FieldMap × List Decision :=
  let merged := dupdate (dupdate (dupdate [] ftpl) fauto) ftext
  merged.foldl (otrosStep ftpl fauto ftext) ([], [])

/-- The per-type branch of `smart_merge_fields` (before the `setdefault`
loop): the `fields`/`decisions` state after the `if`/`elif` chain. -/
def mergeSt (search : Pat → String → Bool) (tipo : String)
    (ftpl fauto ftext : FieldMap) : FieldMap × List Decision :=
  if tipo = "ine" then chooseAll search ineSpec ftpl fauto ftext ([], [])
  else if tipo = "curp" then chooseAll search curpSpec ftpl fauto ftext ([], [])
  else if tipo = "acta" then chooseAll search actaSpec ftpl fauto ftext ([], [])
  else if tipo = "otros" then otrosMerge ftpl fauto ftext
  else ([], [])

/-- `ocr_merge.smart_merge_fields`: the branch above, then
`fields.setdefault(k, "")` for every declared key of the type. -/
def smartMergeFields (search : Pat → String → Bool) (tipo : String)
    (ftpl fauto ftext : FieldMap) : FieldMap × List Decision :=
  let st := mergeSt search tipo ftpl fauto ftext
  (dsetdefaults st.1 (expectedKeys tipo), st.2)

/-! ## Leftmost-match scanners for the concrete regexes

Each regex literal of the sources becomes a deterministic scanner.
A fragment consumes a prefix of the input and returns `(consumed, rest)`;
a matcher additionally knows whether the character before the current
position is a word character (for `\b`).  `reSearch` tries every position
left to right, exactly like `re.search`. -/

def fragLit (lit : List Char) (s : List Char) :
    Option (List Char × List Char) :=
  if lit.isPrefixOf s then some (lit, s.drop lit.length) else none

/-- Exactly `n` characters of class `p` (`{n}` counted class). -/
def fragTakeCnt (p : Char → Bool) (n : Nat) (s : List Char) :
    Option (List Char × List Char) :=
  let u := s.take n
  if u.length = n && u.all p then some (u, s.drop n) else none

def fragSeq (f g : List Char → Option (List Char × List Char))
    (s : List Char) : Option (List Char × List Char) :=
  match f s with
  | none => none
  | some (u, r) =>
    match g r with
    | none => none
    | some (v, r2) => some (u ++ v, r2)

/-- Ordered alternation of literals (used only where the alternatives are
mutually exclusive on any fixed input, so no backtracking is lost). -/
def fragAlts (lits : List (List Char)) (s : List Char) :
    Option (List Char × List Char) :=
  match lits.find? (fun lit => lit.isPrefixOf s) with
  | some lit => some (lit, s.drop lit.length)
  | none => none

/-- Trailing `\b`: next character absent or not a word character (every
embedded pattern ends in a word character). -/
def boundaryOkAfter (rest : List Char) : Bool :=
  match rest with
  | [] => true
  | c :: _ => !isWordChar c

/-- `(19|20)\d{2}`. -/
def year4Frag (s : List Char) : Option (List Char × List Char) :=
  fragSeq (fragAlts [['1', '9'], ['2', '0']]) (fragTakeCnt isDigitC 2) s

/-- Wraps a fragment with a leading and a trailing `\b` (every such pattern
starts and ends with word characters, so the leading boundary is just
"previous character is not a word character"). -/
def matchBFrag (f : List Char → Option (List Char × List Char))
    (prevW : Bool) (s : List Char) : Option (List Char × List Char) :=
  if prevW then none
  else
    match f s with
    | some (u, r) => if boundaryOkAfter r then some (u, r) else none
    | none => none

/-- `YEAR_REGEX` at one position. -/
def matchYear : Bool → List Char → Option (List Char × List Char) :=
  matchBFrag year4Frag

/-- `\d{2}[\/\-]\d{2}[\/\-](19|20)\d{2}` (DATE_REGEX without its
boundaries). -/
def dateFrag : List Char → Option (List Char × List Char) :=
  fragSeq (fragTakeCnt isDigitC 2)
    (fragSeq (fragAlts [['/'], ['-']])
      (fragSeq (fragTakeCnt isDigitC 2)
        (fragSeq (fragAlts [['/'], ['-']]) year4Frag)))

/-- `DATE_REGEX = \b\d{2}[\/\-]\d{2}[\/\-](19|20)\d{2}\b` at one position. -/
def matchDate : Bool → List Char → Option (List Char × List Char) :=
  matchBFrag dateFrag

/-- `SEXO_REGEX = \b(H|M|HOMBRE|MUJER)\b` at one position: the trailing
boundary can reject one alternative and accept a later one, so the boundary
check is part of the alternative selection. -/
def matchSexo (prevW : Bool) (s : List Char) :
    Option (List Char × List Char) :=
  if prevW then none
  else
    match [['H'], ['M'], ['H', 'O', 'M', 'B', 'R', 'E'],
        ['M', 'U', 'J', 'E', 'R']].find?
        (fun lit => lit.isPrefixOf s && boundaryOkAfter (s.drop lit.length)) with
    | some lit => some (lit, s.drop lit.length)
    | none => none

/-- `SECCION_REGEX = \b\d{1,5}\b` at one position: with greedy backtracking
this matches exactly when the maximal digit run here has length 1–5 and is
followed by a boundary (shorter counts always end inside the run). -/
def matchSeccion (prevW : Bool) (s : List Char) :
    Option (List Char × List Char) :=
  if prevW then none
  else
    let run := s.takeWhile isDigitC
    if 1 ≤ run.length && run.length ≤ 5 &&
        boundaryOkAfter (s.drop run.length) then
      some (run, s.drop run.length)
    else none

/-- `\b[A-Z0-9]{8,20}\b` (the elector-key pattern) at one position: matches
exactly when the maximal `[A-Z0-9]` run here has length 8–20 and is followed
by a boundary. -/
def matchClave (prevW : Bool) (s : List Char) :
    Option (List Char × List Char) :=
  if prevW then none
  else
    let run := s.takeWhile isAZ09
    if 8 ≤ run.length && run.length ≤ 20 &&
        boundaryOkAfter (s.drop run.length) then
      some (run, s.drop run.length)
    else none

/-- The 34 two-letter state codes of `CURP_REGEX`, in source order. -/
def stateCodeList : List (List Char) :=
  [['A', 'S'], ['B', 'C'], ['B', 'S'], ['C', 'C'], ['C', 'S'], ['C', 'H'],
   ['C', 'L'], ['C', 'M'], ['C', 'O'], ['D', 'F'], ['D', 'G'], ['G', 'J'],
   ['G', 'T'], ['G', 'R'], ['H', 'G'], ['J', 'C'], ['M', 'C'], ['M', 'N'],
   ['M', 'S'], ['N', 'T'], ['N', 'L'], ['O', 'C'], ['P', 'L'], ['Q', 'T'],
   ['Q', 'R'], ['S', 'P'], ['S', 'L'], ['S', 'R'], ['T', 'C'], ['T', 'S'],
   ['T', 'L'], ['V', 'Z'], ['Y', 'N'], ['Z', 'S'], ['N', 'E']]

/-- `CURP_REGEX = [A-Z]{4}\d{6}[HM](state)[A-Z]{3}[0-9A-Z]\d` (no word
boundaries) at one position. -/
def curpFrag (s : List Char) : Option (List Char × List Char) :=
  fragSeq (fragTakeCnt isUpperAZ 4)
    (fragSeq (fragTakeCnt isDigitC 6)
      (fragSeq (fragAlts [['H'], ['M']])
        (fragSeq (fragAlts stateCodeList)
          (fragSeq (fragTakeCnt isUpperAZ 3)
            (fragSeq (fragTakeCnt isAZ09 1) (fragTakeCnt isDigitC 1)))))) s

def matchCurp (_ : Bool) (s : List Char) : Option (List Char × List Char) :=
  curpFrag s

/-- `VIG_REGEX = \b(19|20)\d{2}(?:\s*[-–]\s*(19|20)\d{2})?\b` at one
position: greedy, so the optional range part is tried first; `\s*` runs are
maximal (whitespace is never a dash, so no shorter run can succeed). -/
def matchVig (prevW : Bool) (s : List Char) :
    Option (List Char × List Char) :=
  if prevW then none
  else
    match year4Frag s with
    | none => none
    | some (y1, r1) =>
      let w1 := r1.takeWhile isPyWs
      let long :=
        match r1.drop w1.length with
        | d :: r2 =>
          if d = '-' || d.toNat = 8211 then
            let w2 := r2.takeWhile isPyWs
            match year4Frag (r2.drop w2.length) with
            | some (y2, r3) =>
              if boundaryOkAfter r3 then
                some (y1 ++ w1 ++ d :: (w2 ++ y2), r3)
              else none
            | none => none
          else none
        | [] => none
      match long with
      | some res => some res
      | none => if boundaryOkAfter r1 then some (y1, r1) else none

/-- `re.search`: try each position left to right, tracking whether the
previous character is a word character. -/
def reSearchAux (m : Bool → List Char → Option (List Char × List Char)) :
    Bool → List Char → Option (List Char)
  | prevW, [] => (m prevW []).map Prod.fst
  | prevW, c :: cs =>
    match m prevW (c :: cs) with
    | some (u, _) => some u
    | none => reSearchAux m (isWordChar c) cs

def reSearch (m : Bool → List Char → Option (List Char × List Char))
    (s : List Char) : Option (List Char) :=
  reSearchAux m false s

/-- The scanner for each `Pat` constructor. -/
def patMatcher : Pat → (Bool → List Char → Option (List Char × List Char))
  | .curp => matchCurp
  | .year => matchYear
  | .date => matchDate
  | .vig => matchVig
  | .seccion => matchSeccion
  | .sexo => matchSexo
  | .clave => matchClave

/-- `bool(re.search(pat, s))` for the merge patterns. -/
def pySearch (p : Pat) (s : String) : Bool :=
  (reSearch (patMatcher p) s.data).isSome

/-- The decision `_choose` records for field `name`. -/
def chooseDecision (search : Pat → String → Bool) (name : String)
    (pat : Option Pat) (ftpl fauto ftext : FieldMap) : Decision :=
  let t := pyStrip ((dget ftpl name).getD "")
  let a := pyStrip ((dget fauto name).getD "")
  let x := pyStrip ((dget ftext name).getD "")
  ⟨name, (chooseRes search pat t a x).1, (chooseRes search pat t a x).2⟩

/-! ## The geometry coercer (`parsers._coerce_geom`) -/

/-- A Python value reaching `_coerce_geom`.  `num q` models any scalar
`float()` accepts (ints and floats; also numeric strings, a distinction that
never changes the result); `other` any scalar `float()` rejects; `list`
covers lists and tuples; `dict` keeps the corner keys `x0`,`y0`,`x1`,`y1`
that `_coerce_geom` reads, with `none` for an absent key or an uncoercible
value (the per-corner defaults coincide).  Numbers are rationals: the
function only compares, swaps and clamps, so no floating-point rounding is
involved. -/
inductive PyGeom where
  | num (q : ℚ)
  | other
  | list (xs : List PyGeom)
  | dict (x0 y0 x1 y1 : Option ℚ)

/-- `_to_float(v, d)`. -/
def toFloatD (v : PyGeom) (d : ℚ) : ℚ :=
  match v with
  | .num q => q
  | _ => d

mutual

/-- The flat list of `float()`-coercible leaves collected by the `_flatten`
plus `_to_float` loop (dicts are atoms there and are skipped). -/
def flatNums : PyGeom → List ℚ
  | .num q => [q]
  | .other => []
  | .dict _ _ _ _ => []
  | .list xs => flatNumsList xs

def flatNumsList : List PyGeom → List ℚ
  | [] => []
  | g :: gs => flatNums g ++ flatNumsList gs

end

mutual

/-- Number of numeric leaves of the input (dict corner values included). -/
def numericLeaves : PyGeom → Nat
  | .num _ => 1
  | .other => 0
  | .dict x0 y0 x1 y1 =>
      (if x0.isSome then 1 else 0) + (if y0.isSome then 1 else 0) +
      (if x1.isSome then 1 else 0) + (if y1.isSome then 1 else 0)
  | .list xs => numericLeavesList xs

def numericLeavesList : List PyGeom → Nat
  | [] => 0
  | g :: gs => numericLeaves g + numericLeavesList gs

end

/-- Branch of line 40: a flat sequence of exactly four numbers. -/
def shape40? : List PyGeom → Option (ℚ × ℚ × ℚ × ℚ)
  | [.num a, .num b, .num c, .num d] => some (a, b, c, d)
  | _ => none

/-- Branch of line 42: two point pairs, with per-coordinate defaults. -/
def shape42? : List PyGeom → Option (ℚ × ℚ × ℚ × ℚ)
  | [.list [p00, p01], .list [p10, p11]] =>
      some (toFloatD p00 0, toFloatD p01 0, toFloatD p10 1, toFloatD p11 1)
  | _ => none

/-- `(x0, y0, x1, y1)` before endpoint swapping and clamping. -/
def coerceRaw : PyGeom → ℚ × ℚ × ℚ × ℚ
  | .dict gx0 gy0 gx1 gy1 => (gx0.getD 0, gy0.getD 0, gx1.getD 1, gy1.getD 1)
  | .list xs =>
    (match shape40? xs with
     | some r => r
     | none =>
       match shape42? xs with
       | some r => r
       | none =>
         match flatNums (.list xs) with
         | a :: b :: c :: d :: _ => (a, b, c, d)
         | _ => (0, 0, 1, 1))
  | _ => (0, 0, 1, 1)

def clamp01 (q : ℚ) : ℚ := max 0 (min 1 q)

/-- `parsers._coerce_geom`: shape dispatch, endpoint auto-correction, and
clamping to the unit square. -/
def coerceGeom (g : PyGeom) : ℚ × ℚ × ℚ × ℚ :=
  let r := coerceRaw g
  let xm := if r.1 ≤ r.2.2.1 then (r.1, r.2.2.1) else (r.2.2.1, r.1)
  let ym := if r.2.1 ≤ r.2.2.2 then (r.2.1, r.2.2.2) else (r.2.2.2, r.2.1)
  (clamp01 xm.1, clamp01 ym.1, clamp01 xm.2, clamp01 ym.2)

mutual

theorem flatNums_length_le : ∀ g : PyGeom, (flatNums g).length ≤ numericLeaves g
  | .num q => by simp [flatNums, numericLeaves]
  | .other => by simp [flatNums, numericLeaves]
  | .dict a b c d => by simp [flatNums, numericLeaves]
  | .list xs => by
      simp only [flatNums, numericLeaves]
      exact flatNumsList_length_le xs

theorem flatNumsList_length_le :
    ∀ gs : List PyGeom, (flatNumsList gs).length ≤ numericLeavesList gs
  | [] => by simp [flatNumsList, numericLeavesList]
  | g :: gs => by
      simp only [flatNumsList, numericLeavesList, List.length_append]
      have h1 := flatNums_length_le g
      have h2 := flatNumsList_length_le gs
      omega

end

/-! ## `parsers.extract_fields` and its missing return (C2) -/

/-- One OCR word of the export tree (`{"value": ..., "geometry": ...}`). -/
structure WordJson where
  value : String
  geometry : Option PyGeom

structure LineJson where
  words : List WordJson

structure BlockJson where
  lines : List LineJson

structure PageJson where
  blocks : List BlockJson

/-- The `export` argument of `extract_fields`: `pyNone` is Python `None`
(the default); `pyDict truthy pages` a dict, `truthy` being its Python
truthiness (`{}` is falsy, any dict with a key — e.g. `{"pages": []}` — is
truthy) and `pages` the value of `export.get("pages", [])`. -/
inductive PyExport where
  | pyNone
  | pyDict (truthy : Bool) (pages : List PageJson)

/-- `parsers.extract_fields` (lines 305–478).  `out` is initialised to `{}`
and returned at line 312 when the export is falsy.  When the export is
truthy, the function builds layout lines, label anchors and field values
into the local `out` — but the body ends at line 478 without any further
`return` statement, so every truthy-export path falls off the end of the
function and returns Python `None` (modelled `none`); the extraction
pipeline only mutates the local `out`, which is then discarded, so it
cannot affect the returned value. -/
def extractFields (tipoDocumento rawText : String) (exp : PyExport) :
    Option FieldMap :=
  match exp with
  | .pyNone => some []
  | .pyDict truthy _pages => if truthy then none else some []

/-! ## The Field Cleaner (`src/services/extractor.py`) -/

/-- `extractor.LABEL_PREFIXES[tipo].get(k, [])` (`.get` of a missing key
yields `[]`). -/
def labelPrefixes (tipo k : String) : List String :=
  if tipo = "acta" then
    if k = "nombres" then ["NOMBRE", "NOMBRE S", "NOMBRES"]
    else if k = "primer_apellido" then ["PRIMER APELLIDO", "APELLIDO PATERNO"]
    else if k = "segundo_apellido" then ["SEGUNDO APELLIDO", "APELLIDO MATERNO"]
    else if k = "entidad_registro" then ["ENTIDAD DE REGISTRO"]
    else if k = "municipio_registro" then ["MUNICIPIO DE REGISTRO"]
    else if k = "lugar_nacimiento" then ["LUGAR DE NACIMIENTO"]
    else []
  else if tipo = "curp" then
    if k = "nombre" then ["NOMBRE", "NOMBRE S", "NOMBRES"]
    else if k = "entidad_registro" then ["ENTIDAD DE REGISTRO", "LUGAR DE REGISTRO"]
    else []
  else if tipo = "ine" then
    if k = "nombre" then ["NOMBRE"]
    else if k = "domicilio" then ["DOMICILIO"]
    else if k = "clave_elector" then ["CLAVE DE ELECTOR", "CLAVE DE  ELECTOR"]
    else if k = "fecha_nacimiento" then ["FECHA DE NACIMIENTO", "FECHA DENACIMIENTO"]
    else if k = "vigencia" then ["VIGENCIA"]
    else if k = "seccion" then ["SECCION", "SECCIÓN"]
    else []
  else []

/-- `extractor._strip_any_prefix`: normalize, then remove the first matching
normalized label alias (at most one) and strip. -/
def stripAnyLabel (s : String) (ps : List String) : String :=
  let t := (pyNorm s).data
  match ps.find? (fun p => (pyNorm p).data.isPrefixOf t) with
  | some p => ⟨pyStripL (t.drop (pyNorm p).data.length)⟩
  | none => ⟨t⟩

/-- `extractor._pick_first_regex`: `m.group(0)` of the first match of the
pattern in the normalized text, else `""`. -/
def pickFirstRegex (m : Bool → List Char → Option (List Char × List Char))
    (s : String) : String :=
  match reSearch m (pyNorm s).data with
  | some u => ⟨u⟩
  | none => ""

/-- `extractor._pick_first_regex_any` — textually the same function as
`_pick_first_regex`. -/
def pickFirstRegexAny (m : Bool → List Char → Option (List Char × List Char))
    (s : String) : String :=
  match reSearch m (pyNorm s).data with
  | some u => ⟨u⟩
  | none => ""

/-- `extractor._clean_ine_sexo`: first SEXO_REGEX match collapsed to `M`/`H`,
else `""`. -/
def cleanIneSexo (s : String) : String :=
  match reSearch matchSexo (pyNorm s).data with
  | none => ""
  | some u =>
    match u with
    | 'M' :: _ => "M"
    | _ => "H"

/-- `extractor._only_letters_spaces`:
`re.sub(r"[^A-ZÑÁÉÍÓÚÜ ]+", " ", _norm_text(s))` then whitespace collapse
and strip.  After `_norm_text` the text is ASCII, so the accented letters of
the class cannot occur; replacing each disallowed run by one space followed
by `\s+`-collapsing equals replacing each disallowed character by a space
and collapsing. -/
def onlyLettersSpaces (s : String) : String :=
  ⟨collapseWs ((pyNorm s).data.map
    (fun c => if isUpperAZ c || c = ' ' then c else ' '))⟩

/-- `extractor.ESTADOS` (also `parsers._ESTADOS`). -/
def ESTADOS : List String :=
  ["AGUASCALIENTES", "BAJA CALIFORNIA", "BAJA CALIFORNIA SUR", "CAMPECHE",
   "COAHUILA", "COLIMA", "CHIAPAS", "CHIHUAHUA", "CIUDAD DE MEXICO",
   "DURANGO", "GUANAJUATO", "GUERRERO", "HIDALGO", "JALISCO", "MEXICO",
   "MICHOACAN", "MORELOS", "NAYARIT", "NUEVO LEON", "OAXACA", "PUEBLA",
   "QUERETARO", "QUINTANA ROO", "SAN LUIS POTOSI", "SINALOA", "SONORA",
   "TABASCO", "TAMAULIPAS", "TLAXCALA", "VERACRUZ", "YUCATAN", "ZACATECAS"]

/-- `parts[i:i+n]` for `i in range(len(parts)-n+1)`. -/
def windows {α : Type} (n : Nat) : List α → List (List α)
  | [] => if n = 0 then [[]] else []
  | x :: xs =>
    if n ≤ (x :: xs).length then (x :: xs).take n :: windows n xs else []

/-- `extractor._pick_first_state_in_text`: scan token windows of width 3,
then 2, then 1 over the letters-only text; first window found in the state
catalog wins. -/
def pickFirstStateInText (s : String) : String :=
  let parts := pyWordsL (onlyLettersSpaces s).data
  let cands := (windows 3 parts ++ windows 2 parts ++ windows 1 parts).map
    (fun w => joinWords w)
  match cands.find? (fun c => ESTADOS.contains ⟨c⟩) with
  | some c => ⟨c⟩
  | none => ""

mutual

/-- `re.sub(r"\s{2,}", " ", s)`: whitespace runs of length at least two
become a single space; an isolated whitespace character stays verbatim. -/
def sub2A : List Char → List Char
  | [] => []
  | c :: cs =>
    if isPyWs c then
      match cs with
      | [] => [c]
      | d :: ds => if isPyWs d then ' ' :: sub2Skip ds else c :: d :: sub2A ds
    else c :: sub2A cs

def sub2Skip : List Char → List Char
  | [] => []
  | c :: cs => if isPyWs c then sub2Skip cs else c :: sub2A cs

end

/-- `extractor._clean_address_line`: normalize, strip the leading
non-alphanumeric run, collapse interior multi-space runs, trim. -/
def cleanAddressLine (s : String) : String :=
  ⟨pyStripL (sub2A ((pyNorm s).data.dropWhile (fun c => !isAZ09 c)))⟩

/-- `if k in out and out[k]: out[k] = f(out[k])`. -/
def updIfTruthy (m : FieldMap) (k : String) (f : String → String) : FieldMap :=
  match dget m k with
  | some v => if v ≠ "" then dset m k (f v) else m
  | none => m

/-- `if k in out: out[k] = f(out[k])`. -/
def updIfPresent (m : FieldMap) (k : String) (f : String → String) : FieldMap :=
  match dget m k with
  | some v => dset m k (f v)
  | none => m

/-- The `"acta"` sexo rule of `_post_process_document_fields`. -/
def actaSexoClean (v : String) : String :=
  let val := pickFirstRegexAny matchSexo v
  match val.data with
  | 'M' :: _ => "M"
  | _ => if val ≠ "" then "H" else ""

/-- The `"ine"` clave_elector rule: first 8–20 alphanumeric match, else the
normalized value with every non-alphanumeric character removed. -/
def ineClaveClean (v : String) : String :=
  let cand := pickFirstRegexAny matchClave v
  if cand ≠ "" then cand else ⟨(pyNorm v).data.filter isAZ09⟩

/-- The `"curp"`-type entidad_registro rule. -/
def curpEntidadClean (v : String) : String :=
  let tmp := stripAnyLabel v (labelPrefixes "curp" "entidad_registro")
  let st := pickFirstStateInText tmp
  if st ≠ "" then st else onlyLettersSpaces tmp

/-- The `"acta"` entidad_registro rule (after the prefix-strip loop). -/
def actaEntidadClean (v : String) : String :=
  let st := pickFirstStateInText v
  if st ≠ "" then st else v

/-- `extractor._post_process_document_fields`: the per-type cleaning pass
over a field map, step for step in source order. -/
def postProcessDocumentFields (tipo : String) (fields : FieldMap) : FieldMap :=
  if tipo = "ine" then
    let out := ["nombre", "domicilio", "clave_elector", "fecha_nacimiento",
      "vigencia", "seccion"].foldl
      (fun m k => updIfTruthy m k (fun v => stripAnyLabel v (labelPrefixes "ine" k)))
      fields
    let out := updIfPresent out "sexo" cleanIneSexo
    let out := updIfPresent out "anio_registro" (pickFirstRegex matchYear)
    let out := updIfPresent out "seccion" (pickFirstRegex matchSeccion)
    let out := updIfPresent out "vigencia" (pickFirstRegex matchVig)
    let out := updIfPresent out "fecha_nacimiento" (pickFirstRegex matchDate)
    let out := updIfPresent out "clave_elector" ineClaveClean
    let out := updIfPresent out "curp" (pickFirstRegexAny matchCurp)
    let out := updIfPresent out "domicilio" cleanAddressLine
    out
  else if tipo = "curp" then
    let out := updIfPresent fields "curp" (pickFirstRegexAny matchCurp)
    let out := updIfPresent out "nombre"
      (fun v => onlyLettersSpaces (stripAnyLabel v (labelPrefixes "curp" "nombre")))
    let out := updIfPresent out "entidad_registro" curpEntidadClean
    out
  else if tipo = "acta" then
    let out := updIfPresent fields "curp" (pickFirstRegexAny matchCurp)
    let out := ["nombres", "primer_apellido", "segundo_apellido",
      "entidad_registro", "municipio_registro", "sexo", "fecha_nacimiento",
      "lugar_nacimiento"].foldl
      (fun m k => updIfTruthy m k (fun v => stripAnyLabel v (labelPrefixes "acta" k)))
      out
    let out := ["nombres", "primer_apellido", "segundo_apellido",
      "lugar_nacimiento", "municipio_registro"].foldl
      (fun m k => updIfPresent m k onlyLettersSpaces) out
    let out := updIfPresent out "sexo" actaSexoClean
    let out := updIfPresent out "fecha_nacimiento" (pickFirstRegexAny matchDate)
    let out := updIfPresent out "entidad_registro" actaEntidadClean
    out
  else fields

/-! ## Scanner fragment lemmas -/

/-- A fragment splits its input. -/
def FragConsumes (f : List Char → Option (List Char × List Char)) : Prop :=
  ∀ s u r, f s = some (u, r) → s = u ++ r

/-- A successful fragment match replays on its own output. -/
def FragReplays (f : List Char → Option (List Char × List Char)) : Prop :=
  ∀ s u r, f s = some (u, r) → ∀ r2, f (u ++ r2) = some (u, r2)

/-! ## Matcher-level lemmas -/

/-- A matcher that succeeded somewhere succeeds on its own match text,
consuming all of it (the key fact behind cleaner idempotence). -/
def MatcherSelf (M : Bool → List Char → Option (List Char × List Char)) :
    Prop :=
  ∀ p s u r, M p s = some (u, r) → M false u = some (u, [])

def MatcherConsumes (M : Bool → List Char → Option (List Char × List Char)) :
    Prop :=
  ∀ p s u r, M p s = some (u, r) → s = u ++ r

/-- All consumed characters satisfy a class. -/
def FragChars (f : List Char → Option (List Char × List Char))
    (P : Char → Bool) : Prop :=
  ∀ s u r, f s = some (u, r) → ∀ c ∈ u, P c = true

/-- The composite `if out[k]: out[k] = _strip_any_prefix(out[k], ps)` followed
by `out[k] = g(out[k])`, as one function on the field value. -/
def stripThen (ps : List String) (g : String → String) (v : String) : String :=
  g (if v ≠ "" then stripAnyLabel v ps else v)

/-- The per-key value transformation of the `"ine"` branch of
`_post_process_document_fields`, read off the source update order. -/
def ineClean (k : String) : String → String :=
  if k = "sexo" then cleanIneSexo
  else if k = "anio_registro" then pickFirstRegex matchYear
  else if k = "curp" then pickFirstRegexAny matchCurp
  else if k = "nombre" then stripThen (labelPrefixes "ine" "nombre") id
  else if k = "domicilio" then
    stripThen (labelPrefixes "ine" "domicilio") cleanAddressLine
  else if k = "clave_elector" then
    stripThen (labelPrefixes "ine" "clave_elector") ineClaveClean
  else if k = "fecha_nacimiento" then
    stripThen (labelPrefixes "ine" "fecha_nacimiento") (pickFirstRegex matchDate)
  else if k = "seccion" then
    stripThen (labelPrefixes "ine" "seccion") (pickFirstRegex matchSeccion)
  else if k = "vigencia" then
    stripThen (labelPrefixes "ine" "vigencia") (pickFirstRegex matchVig)
  else id

/-- The per-key value transformation of the `"curp"` branch of
`_post_process_document_fields`. -/
def curpClean (k : String) : String → String :=
  if k = "curp" then pickFirstRegexAny matchCurp
  else if k = "nombre" then
    fun v => onlyLettersSpaces (stripAnyLabel v (labelPrefixes "curp" "nombre"))
  else if k = "entidad_registro" then curpEntidadClean
  else id

/-- The per-key value transformation of the `"acta"` branch of
`_post_process_document_fields`. -/
def actaClean (k : String) : String → String :=
  if k = "curp" then pickFirstRegexAny matchCurp
  else if k = "sexo" then stripThen (labelPrefixes "acta" "sexo") actaSexoClean
  else if k = "fecha_nacimiento" then
    stripThen (labelPrefixes "acta" "fecha_nacimiento")
      (pickFirstRegexAny matchDate)
  else if k = "entidad_registro" then
    stripThen (labelPrefixes "acta" "entidad_registro") actaEntidadClean
  else if k = "nombres" then
    stripThen (labelPrefixes "acta" "nombres") onlyLettersSpaces
  else if k = "primer_apellido" then
    stripThen (labelPrefixes "acta" "primer_apellido") onlyLettersSpaces
  else if k = "segundo_apellido" then
    stripThen (labelPrefixes "acta" "segundo_apellido") onlyLettersSpaces
  else if k = "lugar_nacimiento" then
    stripThen (labelPrefixes "acta" "lugar_nacimiento") onlyLettersSpaces
  else if k = "municipio_registro" then
    stripThen (labelPrefixes "acta" "municipio_registro") onlyLettersSpaces
  else id

/-- The keys whose values pass through `_strip_any_prefix` for each document
type (the loop lists in `_post_process_document_fields`). -/
def stripKeys (tipo : String) : List String :=
  if tipo = "ine" then
    ["nombre", "domicilio", "clave_elector", "fecha_nacimiento", "vigencia",
      "seccion"]
  else if tipo = "curp" then ["nombre", "entidad_registro"]
  else if tipo = "acta" then
    ["nombres", "primer_apellido", "segundo_apellido", "entidad_registro",
      "municipio_registro", "sexo", "fecha_nacimiento", "lugar_nacimiento"]
  else []

/-- No once-cleaned value still starts (after normalization) with one of its
key's label aliases — the situation in which a second cleaning pass would
strip again. -/
def noResidualB (tipo : String) (w : FieldMap) : Bool :=
  (stripKeys tipo).all (fun k =>
    match dget w k with
    | some v => ((labelPrefixes tipo k).find?
        (fun p => (pyNorm p).data.isPrefixOf (pyNorm v).data)).isNone
    | none => true)

/-- A literal keyword phrase with `\b` boundaries matches at this position
(the previous character is not a word character, the phrase is a prefix, and
a boundary follows). -/
def phraseHere (phrase : List Char) (prevW : Bool) (s : List Char) : Bool :=
  !prevW && phrase.isPrefixOf s && boundaryOkAfter (s.drop phrase.length)

def searchPhraseAux (phrase : List Char) : Bool → List Char → Bool
  | prevW, [] => phraseHere phrase prevW []
  | prevW, c :: cs =>
    phraseHere phrase prevW (c :: cs) || searchPhraseAux phrase (isWordChar c) cs

/-- `bool(re.search(r"\bPHRASE\b", s))` for a literal phrase of letters and
single spaces. -/
def containsWordB (s phrase : String) : Bool :=
  searchPhraseAux phrase.data false s.data

/-- `parsers.detect_type`: ordered keyword rules over the normalized text;
acta before ine before curp, otherwise `"auto"`. -/
def detectType (text : String) : String :=
  let T := pyNorm text
  if containsWordB T "ACTA DE NACIMIENTO" || containsWordB T "OFICIAL DEL REGISTRO"
  then "acta"
  else if containsWordB T "INSTITUTO NACIONAL ELECTORAL" ||
      containsWordB T "CREDENCIAL PARA VOTAR" then "ine"
  else if containsWordB T "CLAVE UNICA DE REGISTRO DE POBLACION" ||
      containsWordB T "CURP" then "curp"
  else "auto"

/-! ## Theorems -/

/-! ## Basic facts about the character primitives -/

theorem toNat_ofNat_small (n : Nat) (h : n < 55296) : (Char.ofNat n).toNat = n := by
  unfold Char.ofNat
  rw [dif_pos (Or.inl h : Nat.isValidChar n)]
  simp [Char.ofNatAux, Char.toNat, UInt32.toNat, BitVec.toNat_ofNat]

theorem unidecodeChar_ascii (c : Char) : ∀ d ∈ unidecodeChar c, d.toNat < 128 := by
  intro d hd
  unfold unidecodeChar at hd
  split at hd
  · rename_i h
    simp only [List.mem_singleton] at hd
    subst hd
    exact h
  · rename_i h
    split at hd
    · rename_i p hp
      simp only [List.mem_singleton] at hd
      subst hd
      have hmem := List.mem_of_find?_eq_some hp
      have : ∀ q ∈ unidecodeTable, q.2.toNat < 128 := by decide
      exact this p hmem
    · simp at hd

theorem pyUpperChar_ascii (c : Char) (h : c.toNat < 128) :
    (pyUpperChar c).toNat < 128 := by
  unfold pyUpperChar
  split
  · rename_i hc
    simp only [Bool.and_eq_true, decide_eq_true_eq] at hc
    rw [toNat_ofNat_small _ (by omega)]
    omega
  · exact h

theorem pyUpperChar_idem (c : Char) : pyUpperChar (pyUpperChar c) = pyUpperChar c := by
  unfold pyUpperChar
  split
  · rename_i hc
    simp only [Bool.and_eq_true, decide_eq_true_eq] at hc
    rw [if_neg]
    simp only [Bool.and_eq_true, decide_eq_true_eq, not_and]
    rw [toNat_ofNat_small _ (by omega)]
    omega
  · rfl

theorem isPyWs_false_of_visible (c : Char) (h1 : 33 ≤ c.toNat) (h2 : c.toNat ≤ 126) :
    isPyWs c = false := by
  unfold isPyWs
  rw [Bool.eq_false_iff]
  intro h
  simp only [Bool.or_eq_true, Bool.and_eq_true, decide_eq_true_eq] at h
  omega

theorem isPyWs_pyUpperChar (c : Char) : isPyWs (pyUpperChar c) = isPyWs c := by
  unfold pyUpperChar
  split
  · rename_i hc
    simp only [Bool.and_eq_true, decide_eq_true_eq] at hc
    rw [isPyWs_false_of_visible c (by omega) (by omega)]
    apply isPyWs_false_of_visible
    · rw [toNat_ofNat_small _ (by omega)]; omega
    · rw [toNat_ofNat_small _ (by omega)]; omega
  · rfl

/-! ## Splitting and collapsing whitespace -/

theorem wordsAux_nil (cur : List Char) :
    wordsAux [] cur = if cur.isEmpty then [] else [cur] := rfl

theorem wordsAux_cons_ws (c : Char) (cs cur : List Char) (h : isPyWs c = true) :
    wordsAux (c :: cs) cur =
      if cur.isEmpty then wordsAux cs [] else cur :: wordsAux cs [] := by
  simp [wordsAux, h]

theorem wordsAux_cons_nonws (c : Char) (cs cur : List Char) (h : isPyWs c = false) :
    wordsAux (c :: cs) cur = wordsAux cs (cur ++ [c]) := by
  simp [wordsAux, h]

theorem wordsAux_wsFree_words (l : List Char) :
    ∀ cur, (∀ c ∈ cur, isPyWs c = false) →
      ∀ w ∈ wordsAux l cur, w ≠ [] ∧ ∀ c ∈ w, isPyWs c = false := by
  induction l with
  | nil =>
    intro cur hcur w hw
    rw [wordsAux_nil] at hw
    by_cases he : cur.isEmpty
    · rw [if_pos he] at hw
      simp at hw
    · rw [if_neg he] at hw
      simp only [List.mem_singleton] at hw
      subst hw
      exact ⟨by simpa [List.isEmpty_iff] using he, hcur⟩
  | cons c cs ih =>
    intro cur hcur w hw
    by_cases hws : isPyWs c = true
    · rw [wordsAux_cons_ws c cs cur hws] at hw
      by_cases he : cur.isEmpty
      · rw [if_pos he] at hw
        exact ih [] (by simp) w hw
      · rw [if_neg he] at hw
        rcases List.mem_cons.mp hw with hw | hw
        · subst hw
          exact ⟨by simpa [List.isEmpty_iff] using he, hcur⟩
        · exact ih [] (by simp) w hw
    · rw [wordsAux_cons_nonws c cs cur (by simpa using hws)] at hw
      refine ih (cur ++ [c]) ?_ w hw
      intro d hd
      rcases List.mem_append.mp hd with hd | hd
      · exact hcur d hd
      · simp only [List.mem_singleton] at hd
        subst hd
        simpa using hws

theorem wordsAux_wsFree_chunk (u : List Char) :
    ∀ rest cur, (∀ c ∈ u, isPyWs c = false) →
      wordsAux (u ++ rest) cur = wordsAux rest (cur ++ u) := by
  induction u with
  | nil => intro rest cur _; simp
  | cons c cs ih =>
    intro rest cur hu
    have hc : isPyWs c = false := hu c (by simp)
    rw [List.cons_append, wordsAux_cons_nonws c (cs ++ rest) cur hc]
    rw [ih rest (cur ++ [c]) (fun d hd => hu d (by simp [hd]))]
    simp

theorem joinWords_cons (w : List Char) (ws : List (List Char)) (h : ws ≠ []) :
    joinWords (w :: ws) = w ++ ' ' :: joinWords ws := by
  cases ws with
  | nil => exact absurd rfl h
  | cons w' ws' => rfl

theorem pyWordsL_joinWords (ws : List (List Char))
    (h : ∀ w ∈ ws, w ≠ [] ∧ ∀ c ∈ w, isPyWs c = false) :
    pyWordsL (joinWords ws) = ws := by
  induction ws with
  | nil => rfl
  | cons w ws' ih =>
    obtain ⟨hne, hfree⟩ := h w (by simp)
    cases ws' with
    | nil =>
      show pyWordsL (joinWords [w]) = [w]
      unfold pyWordsL
      show wordsAux w [] = [w]
      rw [show w = w ++ ([] : List Char) by simp] at hfree ⊢
      rw [wordsAux_wsFree_chunk _ _ _ (by simpa using hfree)]
      simp [wordsAux_nil, List.isEmpty_iff, hne]
    | cons w2 ws2 =>
      rw [joinWords_cons _ _ (by simp)]
      unfold pyWordsL
      rw [wordsAux_wsFree_chunk _ _ _ hfree]
      rw [List.nil_append]
      rw [wordsAux_cons_ws _ _ _ (by decide)]
      rw [if_neg (by simpa [List.isEmpty_iff] using hne)]
      rw [show wordsAux (joinWords (w2 :: ws2)) [] =
            pyWordsL (joinWords (w2 :: ws2)) from rfl]
      rw [ih (fun v hv => h v (by simp [hv]))]

theorem collapseWs_idem (l : List Char) : collapseWs (collapseWs l) = collapseWs l := by
  unfold collapseWs
  rw [pyWordsL_joinWords (pyWordsL l) (wordsAux_wsFree_words l [] (by simp))]

theorem collapseWs_wsFree (l : List Char) (h : ∀ c ∈ l, isPyWs c = false) :
    collapseWs l = l := by
  unfold collapseWs pyWordsL
  have hch := wordsAux_wsFree_chunk l [] [] h
  simp only [List.append_nil, List.nil_append] at hch
  rw [hch, wordsAux_nil]
  cases l with
  | nil => rfl
  | cons a as => rfl

theorem collapseWs_chars (l : List Char) :
    ∀ c ∈ collapseWs l, c ∈ l ∨ c = ' ' := by
  have haux : ∀ (m : List Char) (cur : List Char),
      ∀ w ∈ wordsAux m cur, ∀ c ∈ w, c ∈ m ∨ c ∈ cur := by
    intro m
    induction m with
    | nil =>
      intro cur w hw c hc
      rw [wordsAux_nil] at hw
      split at hw
      · simp at hw
      · simp only [List.mem_singleton] at hw
        subst hw
        exact Or.inr hc
    | cons a as ih =>
      intro cur w hw c hc
      by_cases hws : isPyWs a = true
      · rw [wordsAux_cons_ws a as cur hws] at hw
        by_cases he : cur.isEmpty
        · rw [if_pos he] at hw
          rcases ih [] w hw c hc with h | h
          · exact Or.inl (by simp [h])
          · simp at h
        · rw [if_neg he] at hw
          rcases List.mem_cons.mp hw with hw | hw
          · subst hw
            exact Or.inr hc
          · rcases ih [] w hw c hc with h | h
            · exact Or.inl (by simp [h])
            · simp at h
      · rw [wordsAux_cons_nonws a as cur (by simpa using hws)] at hw
        rcases ih (cur ++ [a]) w hw c hc with h | h
        · exact Or.inl (by simp [h])
        · rcases List.mem_append.mp h with h | h
          · exact Or.inr h
          · simp only [List.mem_singleton] at h
            exact Or.inl (by simp [h])
  have hjoin : ∀ (ws : List (List Char)), ∀ c ∈ joinWords ws,
      (∃ w ∈ ws, c ∈ w) ∨ c = ' ' := by
    intro ws
    induction ws with
    | nil => simp [joinWords]
    | cons w ws' ih =>
      intro c hc
      cases ws' with
      | nil => exact Or.inl ⟨w, by simp, hc⟩
      | cons w2 ws2 =>
        rw [joinWords_cons _ _ (by simp)] at hc
        rcases List.mem_append.mp hc with h | h
        · exact Or.inl ⟨w, by simp, h⟩
        · rcases List.mem_cons.mp h with h | h
          · exact Or.inr h
          · rcases ih c h with ⟨w', hw', hcw⟩ | h
            · exact Or.inl ⟨w', by simp [hw'], hcw⟩
            · exact Or.inr h
  intro c hc
  rcases hjoin (pyWordsL l) c hc with ⟨w, hw, hcw⟩ | h
  · rcases haux l [] w hw c hcw with h | h
    · exact Or.inl h
    · simp at h
  · exact Or.inr h

theorem noWsRun_cons_cons (a b : Char) (r : List Char) :
    noWsRun (a :: b :: r) = ((!(isPyWs a && isPyWs b)) && noWsRun (b :: r)) := rfl

theorem noWsRun_tail (a : Char) (t : List Char) (h : noWsRun (a :: t) = true) :
    noWsRun t = true := by
  cases t with
  | nil => rfl
  | cons b r =>
    rw [noWsRun_cons_cons, Bool.and_eq_true] at h
    exact h.2

theorem noWsRun_suffix (u : List Char) :
    ∀ v, noWsRun (u ++ v) = true → noWsRun v = true := by
  induction u with
  | nil => intro v h; simpa using h
  | cons a as ih =>
    intro v h
    exact ih v (noWsRun_tail a (as ++ v) h)

theorem noWsRun_of_append_left (y : List Char) :
    ∀ s, noWsRun (y ++ s) = true → noWsRun y = true := by
  induction y with
  | nil => intro s _; rfl
  | cons a t ih =>
    intro s h
    cases t with
    | nil => rfl
    | cons b r =>
      rw [List.cons_append, List.cons_append, noWsRun_cons_cons,
        Bool.and_eq_true] at h
      rw [noWsRun_cons_cons, Bool.and_eq_true]
      refine ⟨h.1, ih s ?_⟩
      rw [List.cons_append]
      exact h.2

theorem dropWhile_head_false (p : Char → Bool) :
    ∀ l b r', List.dropWhile p l = b :: r' → p b = false := by
  intro l
  induction l with
  | nil => intro b r' h; simp [List.dropWhile] at h
  | cons a as ih =>
    intro b r' h
    rw [List.dropWhile_cons] at h
    by_cases hp : p a
    · rw [if_pos hp] at h
      exact ih b r' h
    · rw [if_neg hp] at h
      cases h
      simpa using hp

theorem collapseWs_fixed (l : List Char) (h : isCollapsedL l = true) :
    collapseWs l = l := by
  generalize hn : l.length = n
  induction n using Nat.strong_induction_on generalizing l with
  | _ n ih =>
    obtain ⟨hhead, hlast, hrun, hsp⟩ : headNonWs l = true ∧ lastNonWs l = true ∧
        noWsRun l = true ∧ wsOnlySpace l = true := by
      unfold isCollapsedL at h
      simp only [Bool.and_eq_true] at h
      exact ⟨h.1.1.1, h.1.1.2, h.1.2, h.2⟩
    set p : Char → Bool := fun c => !isPyWs c with hp
    have hl : l.takeWhile p ++ l.dropWhile p = l := List.takeWhile_append_dropWhile p l
    set u := l.takeWhile p with hu
    have hufree : ∀ c ∈ u, isPyWs c = false := by
      intro c hc
      have := List.mem_takeWhile_imp hc
      simpa [hp] using this
    cases hr : l.dropWhile p with
    | nil =>
      apply collapseWs_wsFree
      intro c hc
      rw [← hl, hr, List.append_nil] at hc
      exact hufree c hc
    | cons b r' =>
      have hbws : isPyWs b = true := by
        have := dropWhile_head_false p l b r' hr
        simpa [hp] using this
      have hbmem : b ∈ l := by
        rw [← hl, hr]
        exact List.mem_append_right _ (by simp)
      have hbsp : b = ' ' := by
        unfold wsOnlySpace at hsp
        have := List.all_eq_true.mp hsp b hbmem
        simp only [hbws, Bool.not_true, Bool.false_or, decide_eq_true_eq] at this
        exact this
      have hune : u ≠ [] := by
        intro h0
        have hle : l = b :: r' := by rw [← hl, hr, h0, List.nil_append]
        unfold headNonWs at hhead
        rw [hle] at hhead
        simp [hbws] at hhead
      have hr'ne : r' ≠ [] := by
        intro h0
        have hle : l = u ++ [b] := by rw [← hl, hr, h0]
        unfold lastNonWs at hlast
        rw [hle, List.getLast?_concat] at hlast
        simp [hbws] at hlast
      have hlapp : l = u ++ b :: r' := by rw [← hl, hr]
      have hrun' : noWsRun (b :: r') = true := by
        rw [hlapp] at hrun
        exact noWsRun_suffix u _ hrun
      have hwords : pyWordsL l = u :: pyWordsL r' := by
        unfold pyWordsL
        conv_lhs => rw [hlapp]
        rw [wordsAux_wsFree_chunk u (b :: r') [] hufree, List.nil_append]
        rw [wordsAux_cons_ws b r' u hbws]
        rw [if_neg (by simpa [List.isEmpty_iff] using hune)]
      have hcoll : isCollapsedL r' = true := by
        obtain ⟨c0, r'', hc0r⟩ : ∃ c0 r'', r' = c0 :: r'' := by
          cases r' with
          | nil => exact absurd rfl hr'ne
          | cons x xs => exact ⟨x, xs, rfl⟩
        have hc0 : isPyWs c0 = false := by
          rw [hc0r] at hrun'
          unfold noWsRun at hrun'
          rw [Bool.and_eq_true] at hrun'
          have := hrun'.1
          simp only [Bool.not_eq_true', Bool.and_eq_false_iff] at this
          rcases this with h1 | h1
          · rw [hbws] at h1; cases h1
          · exact h1
        unfold isCollapsedL
        simp only [Bool.and_eq_true]
        refine ⟨⟨⟨?_, ?_⟩, ?_⟩, ?_⟩
        · unfold headNonWs
          rw [hc0r]
          simp [hc0]
        · obtain ⟨x, hx⟩ : ∃ x, r'.getLast? = some x := by
            rw [hc0r]
            exact ⟨(c0 :: r'').getLast (by simp), List.getLast?_eq_getLast _ (by simp)⟩
          have hxl : l.getLast? = some x := by
            rw [hlapp, List.getLast?_append]
            have h1 : (b :: r').getLast? = some x := by
              rw [hc0r] at hx ⊢
              rw [List.getLast?_cons_cons]
              exact hx
            rw [h1]
            rfl
          unfold lastNonWs at hlast ⊢
          rw [hxl] at hlast
          rw [hx]
          exact hlast
        · exact noWsRun_tail b r' hrun'
        · unfold wsOnlySpace at hsp ⊢
          rw [List.all_eq_true] at hsp ⊢
          intro c hc
          exact hsp c (by rw [hlapp]; exact List.mem_append_right _ (by simp [hc]))
      have hlen : r'.length < n := by
        rw [← hn, hlapp]
        simp only [List.length_append, List.length_cons]
        omega
      have hcoll_r' : collapseWs r' = r' := ih r'.length hlen r' hcoll rfl
      have hJne : pyWordsL r' ≠ [] := by
        intro h0
        have h1 : collapseWs r' = [] := by
          unfold collapseWs
          rw [h0]
          rfl
        rw [hcoll_r'] at h1
        exact hr'ne h1
      calc collapseWs l = joinWords (u :: pyWordsL r') := by
            unfold collapseWs
            rw [hwords]
        _ = u ++ ' ' :: joinWords (pyWordsL r') := joinWords_cons _ _ hJne
        _ = u ++ ' ' :: r' := by
            rw [show joinWords (pyWordsL r') = collapseWs r' from rfl, hcoll_r']
        _ = l := by rw [hlapp, hbsp]

/-! ## Properties of the text normalizer -/

theorem joinWords_mem (ws : List (List Char)) :
    ∀ c ∈ joinWords ws, (∃ w ∈ ws, c ∈ w) ∨ c = ' ' := by
  induction ws with
  | nil => simp [joinWords]
  | cons w ws' ih =>
    intro c hc
    cases ws' with
    | nil => exact Or.inl ⟨w, by simp, hc⟩
    | cons w2 ws2 =>
      rw [joinWords_cons _ _ (by simp)] at hc
      rcases List.mem_append.mp hc with h | h
      · exact Or.inl ⟨w, by simp, h⟩
      · rcases List.mem_cons.mp h with h | h
        · exact Or.inr h
        · rcases ih c h with ⟨w', hw', hcw⟩ | h
          · exact Or.inl ⟨w', by simp [hw'], hcw⟩
          · exact Or.inr h

theorem collapseWs_ws_space (l : List Char) :
    ∀ c ∈ collapseWs l, isPyWs c = true → c = ' ' := by
  intro c hc hws
  rcases joinWords_mem (pyWordsL l) c hc with ⟨w, hw, hcw⟩ | h
  · have := (wordsAux_wsFree_words l [] (by simp) w hw).2 c hcw
    rw [this] at hws
    cases hws
  · exact h

theorem unidecodeL_mem (l : List Char) :
    ∀ d ∈ unidecodeL l, ∃ e ∈ l, d ∈ unidecodeChar e := by
  intro d hd
  unfold unidecodeL at hd
  rcases List.mem_flatten.mp hd with ⟨chunk, hchunk, hdc⟩
  rcases List.mem_map.mp hchunk with ⟨e, he, heq⟩
  exact ⟨e, he, heq ▸ hdc⟩

theorem pyNormL_ascii (l : List Char) : ∀ c ∈ pyNormL l, c.toNat < 128 := by
  intro c hc
  rcases collapseWs_chars _ c hc with h | h
  · rcases List.mem_map.mp h with ⟨d, hd, heq⟩
    rcases unidecodeL_mem l d hd with ⟨e, _, hde⟩
    exact heq ▸ pyUpperChar_ascii d (unidecodeChar_ascii e d hde)
  · subst h
    decide

theorem pyNormL_upperFixed (l : List Char) :
    ∀ c ∈ pyNormL l, pyUpperChar c = c := by
  intro c hc
  rcases collapseWs_chars _ c hc with h | h
  · rcases List.mem_map.mp h with ⟨d, _, heq⟩
    exact heq ▸ pyUpperChar_idem d
  · subst h
    decide

theorem pyNormL_ws_space (l : List Char) :
    ∀ c ∈ pyNormL l, isPyWs c = true → c = ' ' := by
  intro c hc
  exact collapseWs_ws_space _ c hc

theorem unidecodeL_ascii_fixed (y : List Char) (h : ∀ c ∈ y, c.toNat < 128) :
    unidecodeL y = y := by
  induction y with
  | nil => rfl
  | cons c cs ih =>
    unfold unidecodeL at ih ⊢
    simp only [List.map_cons, List.flatten_cons]
    rw [ih (fun d hd => h d (by simp [hd]))]
    unfold unidecodeChar
    rw [if_pos (h c (by simp))]
    rfl

theorem map_eq_self_of_fixed {f : Char → Char} (y : List Char)
    (h : ∀ c ∈ y, f c = c) : y.map f = y := by
  induction y with
  | nil => rfl
  | cons c cs ih =>
    simp only [List.map_cons]
    rw [h c (by simp), ih (fun d hd => h d (by simp [hd]))]

theorem pyNormL_idem (l : List Char) : pyNormL (pyNormL l) = pyNormL l := by
  show collapseWs ((unidecodeL (pyNormL l)).map pyUpperChar) = pyNormL l
  rw [unidecodeL_ascii_fixed _ (pyNormL_ascii l)]
  rw [map_eq_self_of_fixed _ (pyNormL_upperFixed l)]
  show collapseWs (collapseWs _) = _
  exact collapseWs_idem _

/-- Normalizing a string whose characters are ASCII, upper-case-fixed and in
collapsed whitespace form returns it unchanged. -/
theorem pyNormL_fixed_of (y : List Char)
    (hascii : ∀ c ∈ y, c.toNat < 128)
    (hup : ∀ c ∈ y, pyUpperChar c = c)
    (hcoll : isCollapsedL y = true) : pyNormL y = y := by
  show collapseWs ((unidecodeL y).map pyUpperChar) = y
  rw [unidecodeL_ascii_fixed _ hascii, map_eq_self_of_fixed _ hup]
  exact collapseWs_fixed _ hcoll

theorem dget_dset_self (m : FieldMap) (k v : String) :
    dget (dset m k v) k = some v := by
  induction m with
  | nil => simp [dget, dset]
  | cons p rest ih =>
    by_cases h : p.1 = k
    · simp [dset, dget, h]
    · simp [dset, dget, h, ih]

theorem dget_dset_ne (m : FieldMap) (k k' v : String) (h : k' ≠ k) :
    dget (dset m k v) k' = dget m k' := by
  have h' : ¬ (k = k') := fun hh => h hh.symm
  induction m with
  | nil => simp [dget, dset, h']
  | cons p rest ih =>
    by_cases hp : p.1 = k
    · have hpk' : ¬ p.1 = k' := fun hh => h (hh.symm.trans hp)
      simp [dset, dget, hp, hpk', h']
    · by_cases hp' : p.1 = k'
      · simp [dset, dget, hp, hp', h]
      · simp [dset, dget, hp, hp', ih]

theorem dget_dset_isSome (m : FieldMap) (k k' v : String) :
    (dget (dset m k v) k').isSome = ((k' = k : Bool) || (dget m k').isSome) := by
  by_cases h : k' = k
  · subst h
    simp [dget_dset_self]
  · simp [dget_dset_ne m k k' v h, h]

theorem dget_append (m m' : FieldMap) (k : String) :
    dget (m ++ m') k = (dget m k).or (dget m' k) := by
  induction m with
  | nil => simp [dget]
  | cons p rest ih =>
    by_cases h : p.1 = k
    · simp [dget, h]
    · simp [dget, h, ih]

theorem dget_dsetdefault (m : FieldMap) (k k' : String) :
    dget (dsetdefault m k) k' =
      (dget m k').or (if k' = k then some "" else none) := by
  unfold dsetdefault
  by_cases hs : (dget m k).isSome
  · rw [if_pos hs]
    by_cases h : k' = k
    · subst h
      rcases Option.isSome_iff_exists.mp hs with ⟨v, hv⟩
      rw [hv]
      rfl
    · rw [if_neg h]
      cases dget m k' <;> rfl
  · rw [if_neg hs, dget_append]
    by_cases h : k' = k
    · subst h
      simp [dget]
    · have h' : ¬ (k = k') := fun hh => h hh.symm
      simp [dget, h', h]

theorem dget_dsetdefaults (ks : List String) :
    ∀ m k, dget (dsetdefaults m ks) k =
      (dget m k).or (if k ∈ ks then some "" else none) := by
  induction ks with
  | nil => intro m k; simp [dsetdefaults]
  | cons k0 rest ih =>
    intro m k
    show dget (dsetdefaults (dsetdefault m k0) rest) k = _
    rw [ih]
    rw [dget_dsetdefault]
    by_cases h : k = k0
    · subst h
      by_cases hr : k ∈ rest <;> simp [hr, Option.or_assoc]
    · by_cases hr : k ∈ rest <;> simp [h, hr, Option.or_assoc]

theorem dget_dupdate_isSome (other : FieldMap) :
    ∀ m k, (dget (dupdate m other) k).isSome =
      ((dget other k).isSome || (dget m k).isSome) := by
  induction other with
  | nil => intro m k; simp [dupdate, dget]
  | cons p rest ih =>
    intro m k
    show (dget (dupdate (dset m p.1 p.2) rest) k).isSome = _
    rw [ih]
    rw [dget_dset_isSome]
    by_cases h : p.1 = k
    · simp [dget, h]
    · have h' : ¬ (k = p.1) := fun hh => h hh.symm
      simp [dget, h, h']

theorem dget_eq_none_of_not_mem (m : FieldMap) (k : String)
    (h : k ∉ m.map Prod.fst) : dget m k = none := by
  induction m with
  | nil => rfl
  | cons p rest ih =>
    simp only [List.map_cons, List.mem_cons] at h
    push_neg at h
    have h' : ¬ (p.1 = k) := fun hh => h.1 hh.symm
    simp [dget, h', ih h.2]

theorem dget_dupdate_nodup (other : FieldMap)
    (hnd : (other.map Prod.fst).Nodup) :
    ∀ m k, dget (dupdate m other) k = (dget other k).or (dget m k) := by
  induction other with
  | nil => intro m k; simp [dupdate, dget]
  | cons p rest ih =>
    intro m k
    simp only [List.map_cons, List.nodup_cons] at hnd
    show dget (dupdate (dset m p.1 p.2) rest) k = _
    rw [ih hnd.2]
    by_cases h : p.1 = k
    · subst h
      rw [dget_eq_none_of_not_mem rest p.1 hnd.1]
      simp [dget, dget_dset_self]
    · rw [dget_dset_ne _ _ _ _ (fun hh => h hh.symm)]
      simp [dget, h]

/-! ## Resolution lemmas for the merge engine -/

theorem choose_eq (search : Pat → String → Bool) (name : String)
    (pat : Option Pat) (f1 f2 f3 : FieldMap) (st : FieldMap × List Decision) :
    choose search name pat f1 f2 f3 st =
      (dset st.1 name (chooseDecision search name pat f1 f2 f3).value,
       st.2 ++ [chooseDecision search name pat f1 f2 f3]) := rfl

theorem chooseAll_cons (search : Pat → String → Bool)
    (p : String × Option Pat) (rest : List (String × Option Pat))
    (f1 f2 f3 : FieldMap) (st : FieldMap × List Decision) :
    chooseAll search (p :: rest) f1 f2 f3 st =
      chooseAll search rest f1 f2 f3 (choose search p.1 p.2 f1 f2 f3 st) := rfl

theorem chooseAll_snd_append (search : Pat → String → Bool) :
    ∀ (specs : List (String × Option Pat)) (f1 f2 f3 : FieldMap)
      (st : FieldMap × List Decision),
      ∃ tail, (chooseAll search specs f1 f2 f3 st).2 = st.2 ++ tail := by
  intro specs
  induction specs with
  | nil => intro f1 f2 f3 st; exact ⟨[], by simp [chooseAll]⟩
  | cons p rest ih =>
    intro f1 f2 f3 st
    rw [chooseAll_cons]
    obtain ⟨tail, ht⟩ := ih f1 f2 f3 (choose search p.1 p.2 f1 f2 f3 st)
    refine ⟨[chooseDecision search p.1 p.2 f1 f2 f3] ++ tail, ?_⟩
    rw [ht, choose_eq]
    simp

theorem chooseAll_fst_not_mem (search : Pat → String → Bool) :
    ∀ (specs : List (String × Option Pat)) (k : String),
      k ∉ specs.map Prod.fst →
      ∀ f1 f2 f3 st, dget (chooseAll search specs f1 f2 f3 st).1 k = dget st.1 k := by
  intro specs
  induction specs with
  | nil => intro k _ f1 f2 f3 st; rfl
  | cons p rest ih =>
    intro k hk f1 f2 f3 st
    simp only [List.map_cons, List.mem_cons] at hk
    push_neg at hk
    rw [chooseAll_cons, ih k hk.2, choose_eq]
    exact dget_dset_ne _ _ _ _ hk.1

theorem chooseAll_resolves (search : Pat → String → Bool) :
    ∀ (specs : List (String × Option Pat)),
      (specs.map Prod.fst).Nodup →
      ∀ (k : String) (pat : Option Pat), (k, pat) ∈ specs →
      ∀ f1 f2 f3 st,
        chooseDecision search k pat f1 f2 f3 ∈
            (chooseAll search specs f1 f2 f3 st).2 ∧
        dget (chooseAll search specs f1 f2 f3 st).1 k =
            some (chooseDecision search k pat f1 f2 f3).value := by
  intro specs
  induction specs with
  | nil => intro _ k pat hmem; simp at hmem
  | cons p rest ih =>
    intro hnd k pat hmem f1 f2 f3 st
    simp only [List.map_cons, List.nodup_cons] at hnd
    rw [chooseAll_cons]
    rcases List.mem_cons.mp hmem with heq | hmem'
    · have hp1 : p.1 = k := by rw [← heq]
      have hp2 : p.2 = pat := by rw [← heq]
      have hknot : k ∉ rest.map Prod.fst := hp1 ▸ hnd.1
      constructor
      · obtain ⟨tail, ht⟩ := chooseAll_snd_append search rest f1 f2 f3
          (choose search p.1 p.2 f1 f2 f3 st)
        rw [ht, choose_eq, hp1, hp2]
        simp
      · rw [chooseAll_fst_not_mem search rest k hknot, choose_eq, hp1, hp2]
        exact dget_dset_self _ _ _
    · have hkrest : k ∈ rest.map Prod.fst :=
        List.mem_map.mpr ⟨(k, pat), hmem', rfl⟩
      exact ih hnd.2 k pat hmem' f1 f2 f3 (choose search p.1 p.2 f1 f2 f3 st)

theorem mergeSpec_nodup (tipo : String) : ((mergeSpec tipo).map Prod.fst).Nodup := by
  unfold mergeSpec
  split
  · decide
  · split
    · decide
    · split
      · decide
      · simp

theorem smartMergeFields_fst (search : Pat → String → Bool) (tipo : String)
    (f1 f2 f3 : FieldMap) :
    (smartMergeFields search tipo f1 f2 f3).1 =
      dsetdefaults (mergeSt search tipo f1 f2 f3).1 (expectedKeys tipo) := rfl

theorem smartMergeFields_snd (search : Pat → String → Bool) (tipo : String)
    (f1 f2 f3 : FieldMap) :
    (smartMergeFields search tipo f1 f2 f3).2 =
      (mergeSt search tipo f1 f2 f3).2 := rfl

theorem mergeSt_fixed (search : Pat → String → Bool) (tipo : String)
    (f1 f2 f3 : FieldMap)
    (h : tipo = "ine" ∨ tipo = "curp" ∨ tipo = "acta") :
    mergeSt search tipo f1 f2 f3 =
      chooseAll search (mergeSpec tipo) f1 f2 f3 ([], []) := by
  rcases h with h | h | h <;> subst h <;> rfl

theorem mergeSt_otros (search : Pat → String → Bool) (f1 f2 f3 : FieldMap) :
    mergeSt search "otros" f1 f2 f3 = otrosMerge f1 f2 f3 := rfl

/-- For a fixed-field type, the final fields/decisions of `smart_merge_fields`
expose the `_choose` result of each scheduled field. -/
theorem smartMerge_resolves (search : Pat → String → Bool) (tipo : String)
    (k : String) (pat : Option Pat) (hmem : (k, pat) ∈ mergeSpec tipo)
    (f1 f2 f3 : FieldMap) :
    chooseDecision search k pat f1 f2 f3 ∈
        (smartMergeFields search tipo f1 f2 f3).2 ∧
    dget (smartMergeFields search tipo f1 f2 f3).1 k =
        some (chooseDecision search k pat f1 f2 f3).value := by
  have htipo : tipo = "ine" ∨ tipo = "curp" ∨ tipo = "acta" := by
    by_cases h1 : tipo = "ine"
    · exact Or.inl h1
    · by_cases h2 : tipo = "curp"
      · exact Or.inr (Or.inl h2)
      · by_cases h3 : tipo = "acta"
        · exact Or.inr (Or.inr h3)
        · exfalso
          unfold mergeSpec at hmem
          rw [if_neg h1, if_neg h2, if_neg h3] at hmem
          simp at hmem
  have hres := chooseAll_resolves search (mergeSpec tipo) (mergeSpec_nodup tipo)
    k pat hmem f1 f2 f3 ([], [])
  rw [smartMergeFields_fst, smartMergeFields_snd, mergeSt_fixed search tipo f1 f2 f3 htipo]
  refine ⟨hres.1, ?_⟩
  rw [dget_dsetdefaults, hres.2]
  rfl

/-! ## Key-set lemmas and the catch-all branch -/

theorem dget_some_mem (m : FieldMap) (k v : String) (h : dget m k = some v) :
    (k, v) ∈ m := by
  induction m with
  | nil => cases h
  | cons p rest ih =>
    unfold dget at h
    by_cases hp : p.1 = k
    · rw [if_pos hp] at h
      cases h
      refine List.mem_cons.mpr (Or.inl ?_)
      rw [← hp]
    · rw [if_neg hp] at h
      exact List.mem_cons_of_mem _ (ih h)

theorem dset_keys_mem (m : FieldMap) (k v k' : String) :
    k' ∈ (dset m k v).map Prod.fst ↔ k' ∈ m.map Prod.fst ∨ k' = k := by
  induction m with
  | nil => simp [dset]
  | cons p rest ih =>
    by_cases hp : p.1 = k
    · subst hp
      simp [dset]
      tauto
    · simp [dset, hp, ih]
      tauto

theorem dset_keys_nodup (m : FieldMap) (k v : String)
    (h : (m.map Prod.fst).Nodup) : ((dset m k v).map Prod.fst).Nodup := by
  induction m with
  | nil => simp [dset]
  | cons p rest ih =>
    simp only [List.map_cons, List.nodup_cons] at h
    by_cases hp : p.1 = k
    · subst hp
      rw [show dset (p :: rest) p.1 v = (p.1, v) :: rest by simp [dset]]
      simp only [List.map_cons, List.nodup_cons]
      exact h
    · simp only [dset, if_neg hp, List.map_cons, List.nodup_cons]
      refine ⟨?_, ih h.2⟩
      intro hcon
      rcases (dset_keys_mem rest k v p.1).mp hcon with hc | hc
      · exact h.1 hc
      · exact hp hc

theorem dupdate_keys_nodup (other : FieldMap) :
    ∀ m, (m.map Prod.fst).Nodup → ((dupdate m other).map Prod.fst).Nodup := by
  induction other with
  | nil => intro m h; exact h
  | cons p rest ih =>
    intro m h
    exact ih (dset m p.1 p.2) (dset_keys_nodup m p.1 p.2 h)

theorem otrosFold_snd_append (f1 f2 f3 : FieldMap) :
    ∀ (entries : List (String × String)) (st : FieldMap × List Decision),
      ∃ tail, (entries.foldl (otrosStep f1 f2 f3) st).2 = st.2 ++ tail := by
  intro entries
  induction entries with
  | nil => intro st; exact ⟨[], by simp⟩
  | cons p rest ih =>
    intro st
    obtain ⟨tail, ht⟩ := ih (otrosStep f1 f2 f3 st p)
    refine ⟨[⟨p.1, otrosSrc f1 f2 f3 p.1, p.2⟩] ++ tail, ?_⟩
    rw [List.foldl_cons, ht]
    simp [otrosStep]

theorem otrosFold_fst_not_mem (f1 f2 f3 : FieldMap) :
    ∀ (entries : List (String × String)) (k : String),
      k ∉ entries.map Prod.fst →
      ∀ st, dget ((entries.foldl (otrosStep f1 f2 f3) st).1) k = dget st.1 k := by
  intro entries
  induction entries with
  | nil => intro k _ st; rfl
  | cons p rest ih =>
    intro k hk st
    simp only [List.map_cons, List.mem_cons] at hk
    push_neg at hk
    rw [List.foldl_cons, ih k hk.2]
    exact dget_dset_ne _ _ _ _ hk.1

theorem otrosFold_isSome (f1 f2 f3 : FieldMap) :
    ∀ (entries : List (String × String)) (st : FieldMap × List Decision)
      (k : String),
      (dget ((entries.foldl (otrosStep f1 f2 f3) st).1) k).isSome =
        (decide (k ∈ entries.map Prod.fst) || (dget st.1 k).isSome) := by
  intro entries
  induction entries with
  | nil => intro st k; simp
  | cons p rest ih =>
    intro st k
    rw [List.foldl_cons, ih]
    show _ = (decide (k ∈ (p.1 :: rest.map Prod.fst : List String)) || _)
    rw [show ((otrosStep f1 f2 f3 st p).1) = dset st.1 p.1 p.2 from rfl]
    rw [dget_dset_isSome]
    by_cases hk : k ∈ rest.map Prod.fst
    · simp [hk]
    · by_cases hp : k = p.1 <;> simp [hk, hp]

theorem otrosFold_resolves (f1 f2 f3 : FieldMap) :
    ∀ (entries : List (String × String)),
      (entries.map Prod.fst).Nodup →
      ∀ (k v : String), (k, v) ∈ entries →
      ∀ st,
        (⟨k, otrosSrc f1 f2 f3 k, v⟩ : Decision) ∈
            (entries.foldl (otrosStep f1 f2 f3) st).2 ∧
        dget ((entries.foldl (otrosStep f1 f2 f3) st).1) k = some v := by
  intro entries
  induction entries with
  | nil => intro _ k v hmem; simp at hmem
  | cons p rest ih =>
    intro hnd k v hmem st
    simp only [List.map_cons, List.nodup_cons] at hnd
    rw [List.foldl_cons]
    rcases List.mem_cons.mp hmem with heq | hmem'
    · have hp1 : p.1 = k := by rw [← heq]
      have hp2 : p.2 = v := by rw [← heq]
      have hknot : k ∉ rest.map Prod.fst := hp1 ▸ hnd.1
      constructor
      · obtain ⟨tail, ht⟩ := otrosFold_snd_append f1 f2 f3 rest
          (otrosStep f1 f2 f3 st p)
        rw [ht]
        show _ ∈ (st.2 ++ [⟨p.1, otrosSrc f1 f2 f3 p.1, p.2⟩]) ++ tail
        rw [hp1, hp2]
        simp
      · rw [otrosFold_fst_not_mem f1 f2 f3 rest k hknot]
        show dget (dset st.1 p.1 p.2) k = some v
        rw [hp1, hp2]
        exact dget_dset_self _ _ _
    · exact ih hnd.2 k v hmem' (otrosStep f1 f2 f3 st p)

theorem otrosMerged_nodup (f1 f2 f3 : FieldMap) :
    ((dupdate (dupdate (dupdate [] f1) f2) f3).map Prod.fst).Nodup :=
  dupdate_keys_nodup f3 _ (dupdate_keys_nodup f2 _ (dupdate_keys_nodup f1 [] (by simp)))

theorem dget_isSome_eq_mem (m : FieldMap) (k : String) :
    (dget m k).isSome = decide (k ∈ m.map Prod.fst) := by
  induction m with
  | nil => rfl
  | cons p rest ih =>
    by_cases hp : p.1 = k
    · simp [dget, hp]
    · have hp' : ¬ (k = p.1) := fun hh => hp hh.symm
      simp [dget, hp, hp', ih]

theorem smartMerge_otros_eq (search : Pat → String → Bool)
    (f1 f2 f3 : FieldMap) :
    smartMergeFields search "otros" f1 f2 f3 =
      (dsetdefaults (otrosMerge f1 f2 f3).1 (expectedKeys "otros"),
       (otrosMerge f1 f2 f3).2) := rfl

theorem otrosMerge_fst_isSome (f1 f2 f3 : FieldMap) (k : String) :
    (dget (otrosMerge f1 f2 f3).1 k).isSome =
      ((dget f1 k).isSome || (dget f2 k).isSome || (dget f3 k).isSome) := by
  unfold otrosMerge
  rw [otrosFold_isSome]
  rw [← dget_isSome_eq_mem]
  rw [dget_dupdate_isSome, dget_dupdate_isSome, dget_dupdate_isSome]
  show (((dget f3 k).isSome || ((dget f2 k).isSome ||
      ((dget f1 k).isSome || (dget ([] : FieldMap) k).isSome))) || false) = _
  cases h1 : (dget f1 k).isSome <;> cases h2 : (dget f2 k).isSome <;>
    cases h3 : (dget f3 k).isSome <;> rfl

/-! ## Claim theorems: the merge engine -/

/-- C1, counterexample to the claim as stated: for the fixed-field type
`"ine"`, the patternless field `"nombre"` with template, auto and text all
empty merges to the value `""`, but the recorded decision's chosen source is
`"text"`, not `"none"` (the patternless arm of `_choose`, line 54 of
`ocr_merge.py`, always labels the all-empty outcome `"text"`). -/
theorem claim_C1_counterexample :
    ((smartMergeFields pySearch "ine" [] [] []).2.filter
        (fun d => d.field = "nombre")) = [⟨"nombre", "text", ""⟩] ∧
    dget (smartMergeFields pySearch "ine" [] [] []).1 "nombre" = some "" := by
  constructor
  · decide
  · decide

/-- C1 (amended): in `smart_merge_fields`, for every fixed-field document
type and every field scheduled without a validation pattern, if the
template, auto and text values for that field are all empty (or absent),
the merged value is `""` and the recorded decision's chosen source is
`"text"` (not `"none"`, which only the patterned arm can produce). -/
theorem claim_C1 (search : Pat → String → Bool) (tipo k : String)
    (hmem : (k, (none : Option Pat)) ∈ mergeSpec tipo)
    (f1 f2 f3 : FieldMap)
    (h1 : pyStrip ((dget f1 k).getD "") = "")
    (h2 : pyStrip ((dget f2 k).getD "") = "")
    (h3 : pyStrip ((dget f3 k).getD "") = "") :
    (⟨k, "text", ""⟩ : Decision) ∈ (smartMergeFields search tipo f1 f2 f3).2 ∧
    dget (smartMergeFields search tipo f1 f2 f3).1 k = some "" := by
  have hres := smartMerge_resolves search tipo k none hmem f1 f2 f3
  have hd : chooseDecision search k none f1 f2 f3 = ⟨k, "text", ""⟩ := by
    unfold chooseDecision chooseRes
    rw [h1, h2, h3]
    rfl
  rw [hd] at hres
  exact ⟨hres.1, hres.2⟩

theorem claim_C1_witness :
    (⟨"nombre", "text", ""⟩ : Decision) ∈
        (smartMergeFields pySearch "ine" [] [("sexo", "H")] []).2 ∧
    dget (smartMergeFields pySearch "ine" [] [("sexo", "H")] []).1 "nombre" =
        some "" :=
  claim_C1 pySearch "ine" "nombre" (by decide) [] [("sexo", "H")] []
    (by decide) (by decide) (by decide)

/-- C5: in `smart_merge_fields`, for every field scheduled with a validation
pattern, if the auto value validates (`_ok` true: non-empty and its
upper-case matches the pattern) while the template and text values do not
(even if non-empty), the merge picks the auto value with chosen source
`"auto"`. -/
theorem claim_C5 (search : Pat → String → Bool) (tipo k : String) (pat : Pat)
    (hmem : (k, some pat) ∈ mergeSpec tipo) (f1 f2 f3 : FieldMap)
    (ht : reOk search (some pat) (pyStrip ((dget f1 k).getD "")) = false)
    (ha : reOk search (some pat) (pyStrip ((dget f2 k).getD "")) = true)
    (hx : reOk search (some pat) (pyStrip ((dget f3 k).getD "")) = false) :
    (⟨k, "auto", pyStrip ((dget f2 k).getD "")⟩ : Decision) ∈
        (smartMergeFields search tipo f1 f2 f3).2 ∧
    dget (smartMergeFields search tipo f1 f2 f3).1 k =
        some (pyStrip ((dget f2 k).getD "")) := by
  have hres := smartMerge_resolves search tipo k (some pat) hmem f1 f2 f3
  have hd : chooseDecision search k (some pat) f1 f2 f3 =
      ⟨k, "auto", pyStrip ((dget f2 k).getD "")⟩ := by
    unfold chooseDecision chooseRes
    dsimp only
    rw [ht, ha]
    rfl
  rw [hd] at hres
  exact ⟨hres.1, hres.2⟩

theorem claim_C5_witness :
    (⟨"curp", "auto", "ABCD800101HDFRRL09"⟩ : Decision) ∈
        (smartMergeFields pySearch "ine" [("curp", "NO LEGIBLE")]
          [("curp", "ABCD800101HDFRRL09")] []).2 ∧
    dget (smartMergeFields pySearch "ine" [("curp", "NO LEGIBLE")]
        [("curp", "ABCD800101HDFRRL09")] []).1 "curp" =
      some "ABCD800101HDFRRL09" :=
  claim_C5 pySearch "ine" "curp" .curp (by decide)
    [("curp", "NO LEGIBLE")] [("curp", "ABCD800101HDFRRL09")] []
    (by decide) (by decide) (by decide)

/-- C6: in `smart_merge_fields`, for every field scheduled with a validation
pattern, if no source's value matches the pattern but the template value is
non-empty while the auto and text values are empty, the merge picks the
template value with chosen source `"template"`, not `"none"`. -/
theorem claim_C6 (search : Pat → String → Bool) (tipo k : String) (pat : Pat)
    (hmem : (k, some pat) ∈ mergeSpec tipo) (f1 f2 f3 : FieldMap)
    (ht : reOk search (some pat) (pyStrip ((dget f1 k).getD "")) = false)
    (htne : pyStrip ((dget f1 k).getD "") ≠ "")
    (ha : pyStrip ((dget f2 k).getD "") = "")
    (hx : pyStrip ((dget f3 k).getD "") = "") :
    (⟨k, "template", pyStrip ((dget f1 k).getD "")⟩ : Decision) ∈
        (smartMergeFields search tipo f1 f2 f3).2 ∧
    dget (smartMergeFields search tipo f1 f2 f3).1 k =
        some (pyStrip ((dget f1 k).getD "")) := by
  have hres := smartMerge_resolves search tipo k (some pat) hmem f1 f2 f3
  have hd : chooseDecision search k (some pat) f1 f2 f3 =
      ⟨k, "template", pyStrip ((dget f1 k).getD "")⟩ := by
    unfold chooseDecision chooseRes
    dsimp only
    rw [ht, ha, hx]
    rw [show reOk search (some pat) "" = false from rfl]
    rw [if_neg (by simp), if_neg (by simp), if_neg (by simp), if_pos htne]
  rw [hd] at hres
  exact ⟨hres.1, hres.2⟩

theorem claim_C6_witness :
    (⟨"curp", "template", "NO LEGIBLE"⟩ : Decision) ∈
        (smartMergeFields pySearch "ine" [("curp", "NO LEGIBLE")] [] []).2 ∧
    dget (smartMergeFields pySearch "ine" [("curp", "NO LEGIBLE")] [] []).1
        "curp" = some "NO LEGIBLE" :=
  claim_C6 pySearch "ine" "curp" .curp (by decide) [("curp", "NO LEGIBLE")]
    [] [] (by decide) (by decide) (by decide) (by decide)

/-- C3, counterexample to the claim as stated: for the catch-all type
`"otros"` with all three input maps empty, the key union is empty, yet the
returned field map carries the six declared `"otros"` fields defaulted to
`""` — the `setdefault` loop (lines 208–209 of `ocr_merge.py`) runs for
`"otros"` too, because `expected_keys_map` has an `"otros"` entry. -/
theorem claim_C3_counterexample :
    (smartMergeFields pySearch "otros" [] [] []).1 =
      [("titulo", ""), ("fecha_documento", ""), ("rfc_detectado", ""),
       ("curp_detectada", ""), ("folio", ""), ("emisor", "")] ∧
    ("titulo" ∉ ([] : FieldMap).map Prod.fst) := by
  constructor
  · decide
  · decide

/-- C3 (amended): declared-field defaults are applied for every document
type with declared fields, including the catch-all `"otros"`: for the
fixed-field types every declared field is a key of the result, and for
`"otros"` the keys of the returned field map are exactly the union of the
keys of the three input maps together with the six declared `"otros"`
fields (defaulted to `""` when missing). -/
theorem claim_C3 (search : Pat → String → Bool) (f1 f2 f3 : FieldMap)
    (k tipo : String) :
    (k ∈ expectedKeys tipo →
      (dget (smartMergeFields search tipo f1 f2 f3).1 k).isSome = true) ∧
    ((dget (smartMergeFields search "otros" f1 f2 f3).1 k).isSome =
      ((dget f1 k).isSome || (dget f2 k).isSome || (dget f3 k).isSome ||
        decide (k ∈ expectedKeys "otros"))) := by
  constructor
  · intro hk
    rw [smartMergeFields_fst]
    rw [dget_dsetdefaults, if_pos hk]
    cases dget (mergeSt search tipo f1 f2 f3).1 k <;> rfl
  · rw [smartMergeFields_fst, mergeSt_otros]
    rw [dget_dsetdefaults]
    have hiso : ∀ (o o' : Option String),
        ((o.or o').isSome) = (o.isSome || o'.isSome) := by
      intro o o'
      cases o <;> cases o' <;> rfl
    rw [hiso]
    rw [otrosMerge_fst_isSome]
    have hif : ((if k ∈ expectedKeys "otros" then some "" else none) :
        Option String).isSome = decide (k ∈ expectedKeys "otros") := by
      by_cases hk : k ∈ expectedKeys "otros" <;> simp [hk]
    rw [hif]

theorem claim_C3_witness :
    (dget (smartMergeFields pySearch "ine" [] [] [("curp", "X")]).1
        "curp").isSome = true ∧
    ((dget (smartMergeFields pySearch "otros" [] [] [("extra", "X")]).1
        "extra").isSome =
      ((dget ([] : FieldMap) "extra").isSome ||
        (dget ([] : FieldMap) "extra").isSome ||
        (dget [("extra", "X")] "extra").isSome ||
        decide ("extra" ∈ expectedKeys "otros"))) :=
  ⟨(claim_C3 pySearch [] [] [("curp", "X")] "curp" "ine").1 (by decide),
   (claim_C3 pySearch [] [] [("extra", "X")] "extra" "otros").2⟩

/-- C10: in `smart_merge_fields` for the catch-all type `"otros"`, source
selection is by key presence alone: a key present in the text map with the
empty string and present in the auto map with a non-empty value merges to
the empty string with chosen source `"text"`, discarding the auto value. -/
theorem claim_C10 (search : Pat → String → Bool) (f1 f2 f3 : FieldMap)
    (k v : String) (hnd : (f3.map Prod.fst).Nodup)
    (h3 : dget f3 k = some "") (h2 : dget f2 k = some v) (hv : v ≠ "") :
    dget (smartMergeFields search "otros" f1 f2 f3).1 k = some "" ∧
    (⟨k, "text", ""⟩ : Decision) ∈ (smartMergeFields search "otros" f1 f2 f3).2 := by
  rw [smartMergeFields_fst, smartMergeFields_snd, mergeSt_otros]
  have hmerged : dget (dupdate (dupdate (dupdate [] f1) f2) f3) k = some "" := by
    rw [dget_dupdate_nodup f3 hnd, h3]
    rfl
  have hmem : (k, "") ∈ dupdate (dupdate (dupdate [] f1) f2) f3 :=
    dget_some_mem _ _ _ hmerged
  have hsrc : otrosSrc f1 f2 f3 k = "text" := by
    unfold otrosSrc
    rw [h3]
    rfl
  have hres := otrosFold_resolves f1 f2 f3 _ (otrosMerged_nodup f1 f2 f3)
    k "" hmem ([], [])
  constructor
  · rw [dget_dsetdefaults]
    rw [show dget (otrosMerge f1 f2 f3).1 k = some "" from hres.2]
    rfl
  · have hm := hres.1
    rw [hsrc] at hm
    exact hm

theorem clamp01_nonneg (q : ℚ) : 0 ≤ clamp01 q := le_max_left 0 _

theorem clamp01_le_one (q : ℚ) : clamp01 q ≤ 1 :=
  max_le (by norm_num) (min_le_left _ _)

theorem clamp01_mono {a b : ℚ} (h : a ≤ b) : clamp01 a ≤ clamp01 b :=
  max_le_max le_rfl (min_le_min le_rfl h)

theorem clamp01_id {q : ℚ} (h0 : 0 ≤ q) (h1 : q ≤ 1) : clamp01 q = q := by
  unfold clamp01
  rw [min_eq_right h1, max_eq_right h0]

theorem coerceGeom_of_raw_id (g : PyGeom) (a b c d : ℚ)
    (hraw : coerceRaw g = (a, b, c, d))
    (h1 : 0 ≤ a) (h2 : a ≤ c) (h3 : c ≤ 1)
    (h4 : 0 ≤ b) (h5 : b ≤ d) (h6 : d ≤ 1) :
    coerceGeom g = (a, b, c, d) := by
  unfold coerceGeom
  rw [hraw]
  dsimp only
  rw [if_pos h2, if_pos h5]
  dsimp only
  rw [clamp01_id h1 (le_trans h2 h3), clamp01_id h4 (le_trans h5 h6),
    clamp01_id (le_trans h1 h2) h3, clamp01_id (le_trans h4 h5) h6]

theorem coerceGeom_bounds (g : PyGeom) :
    0 ≤ (coerceGeom g).1 ∧ (coerceGeom g).1 ≤ (coerceGeom g).2.2.1 ∧
    (coerceGeom g).2.2.1 ≤ 1 ∧ 0 ≤ (coerceGeom g).2.1 ∧
    (coerceGeom g).2.1 ≤ (coerceGeom g).2.2.2 ∧ (coerceGeom g).2.2.2 ≤ 1 := by
  unfold coerceGeom
  dsimp only
  refine ⟨clamp01_nonneg _, ?_, clamp01_le_one _, clamp01_nonneg _, ?_,
    clamp01_le_one _⟩
  · apply clamp01_mono
    split
    · rename_i h
      exact h
    · rename_i h
      exact le_of_not_le h
  · apply clamp01_mono
    split
    · rename_i h
      exact h
    · rename_i h
      exact le_of_not_le h

/-! ## Claim theorems: geometry -/

/-- C8: a well-formed rectangle, given either as a flat 4-number sequence
`(xmin, ymin, xmax, ymax)` or as named corners `x0..y1`, coerces to exactly
itself. -/
theorem claim_C8 (xmin ymin xmax ymax : ℚ)
    (hx0 : 0 ≤ xmin) (hx1 : xmin ≤ xmax) (hx2 : xmax ≤ 1)
    (hy0 : 0 ≤ ymin) (hy1 : ymin ≤ ymax) (hy2 : ymax ≤ 1) :
    coerceGeom (.list [.num xmin, .num ymin, .num xmax, .num ymax]) =
      (xmin, ymin, xmax, ymax) ∧
    coerceGeom (.dict (some xmin) (some ymin) (some xmax) (some ymax)) =
      (xmin, ymin, xmax, ymax) :=
  ⟨coerceGeom_of_raw_id _ _ _ _ _ rfl hx0 hx1 hx2 hy0 hy1 hy2,
   coerceGeom_of_raw_id _ _ _ _ _ rfl hx0 hx1 hx2 hy0 hy1 hy2⟩

theorem claim_C8_witness :
    coerceGeom (.list [.num (1/10), .num (2/10), .num (6/10), .num (9/10)]) =
      (1/10, 2/10, 6/10, 9/10) ∧
    coerceGeom (.dict (some (1/10)) (some (2/10)) (some (6/10)) (some (9/10))) =
      (1/10, 2/10, 6/10, 9/10) :=
  claim_C8 (1/10) (2/10) (6/10) (9/10) (by norm_num) (by norm_num)
    (by norm_num) (by norm_num) (by norm_num) (by norm_num)

/-- C9, counterexample to the claim as stated: the dict `{x0: 1/2}` has one
numeric leaf (fewer than 4), yet `_coerce_geom` does not fall back to the
unit box — dict corners default individually (`x0,y0 → 0`, `x1,y1 → 1`), so
the result is `(1/2, 0, 1, 1)`. -/
theorem claim_C9_counterexample :
    numericLeaves (.dict (some (1/2)) none none none) = 1 ∧
    coerceGeom (.dict (some (1/2)) none none none) = (1/2, 0, 1, 1) ∧
    coerceGeom (.dict (some (1/2)) none none none) ≠ (0, 0, 1, 1) := by
  refine ⟨rfl, ?_, ?_⟩
  · exact coerceGeom_of_raw_id _ _ _ _ _ rfl (by norm_num) (by norm_num)
      (by norm_num) (by norm_num) (by norm_num) (by norm_num)
  · intro h
    have h2 : coerceGeom (.dict (some (1/2)) none none none) = (1/2, 0, 1, 1) :=
      coerceGeom_of_raw_id _ _ _ _ _ rfl (by norm_num) (by norm_num)
        (by norm_num) (by norm_num) (by norm_num) (by norm_num)
    rw [h2] at h
    have := congrArg Prod.fst h
    norm_num at this

/-- C9 (amended): `_coerce_geom` is total and always returns a rectangle
clamped to the unit square with min ≤ max per axis; the full unit-box
fallback applies to non-dict, non-sequence inputs and to sequences that
match neither fixed shape and have fewer than 4 numeric leaves — whereas a
dict (and the two-point-pair shape) defaults its corners individually and
need not return the unit box. -/
theorem claim_C9 (g : PyGeom) (q : ℚ) (xs : List PyGeom) :
    (0 ≤ (coerceGeom g).1 ∧ (coerceGeom g).1 ≤ (coerceGeom g).2.2.1 ∧
      (coerceGeom g).2.2.1 ≤ 1 ∧ 0 ≤ (coerceGeom g).2.1 ∧
      (coerceGeom g).2.1 ≤ (coerceGeom g).2.2.2 ∧ (coerceGeom g).2.2.2 ≤ 1) ∧
    (coerceGeom (.num q) = (0, 0, 1, 1) ∧
      coerceGeom .other = (0, 0, 1, 1)) ∧
    (shape40? xs = none → shape42? xs = none →
      numericLeaves (.list xs) < 4 →
      coerceGeom (.list xs) = (0, 0, 1, 1)) := by
  refine ⟨coerceGeom_bounds g, ⟨?_, ?_⟩, ?_⟩
  · exact coerceGeom_of_raw_id _ _ _ _ _ rfl (by norm_num) (by norm_num)
      (by norm_num) (by norm_num) (by norm_num) (by norm_num)
  · exact coerceGeom_of_raw_id _ _ _ _ _ rfl (by norm_num) (by norm_num)
      (by norm_num) (by norm_num) (by norm_num) (by norm_num)
  · intro h40 h42 hlt
    have hlen : (flatNums (.list xs)).length < 4 :=
      lt_of_le_of_lt (flatNums_length_le _) hlt
    have hraw : coerceRaw (.list xs) = (0, 0, 1, 1) := by
      unfold coerceRaw
      dsimp only
      rw [h40]
      dsimp only
      rw [h42]
      dsimp only
      rcases hfl : flatNums (.list xs) with _ | ⟨a, _ | ⟨b, _ | ⟨c, _ | ⟨d, rest⟩⟩⟩⟩
      · rfl
      · rfl
      · rfl
      · rfl
      · rw [hfl] at hlen
        simp at hlen
        omega
    exact coerceGeom_of_raw_id _ _ _ _ _ hraw (by norm_num) (by norm_num)
      (by norm_num) (by norm_num) (by norm_num) (by norm_num)

theorem claim_C9_witness :
    (0 ≤ (coerceGeom (.list [.num 7, .other])).1 ∧
      (coerceGeom (.list [.num 7, .other])).1 ≤
        (coerceGeom (.list [.num 7, .other])).2.2.1 ∧
      (coerceGeom (.list [.num 7, .other])).2.2.1 ≤ 1 ∧
      0 ≤ (coerceGeom (.list [.num 7, .other])).2.1 ∧
      (coerceGeom (.list [.num 7, .other])).2.1 ≤
        (coerceGeom (.list [.num 7, .other])).2.2.2 ∧
      (coerceGeom (.list [.num 7, .other])).2.2.2 ≤ 1) ∧
    (coerceGeom (.num 5) = (0, 0, 1, 1) ∧
      coerceGeom .other = (0, 0, 1, 1)) ∧
    coerceGeom (.list [.num 7, .other]) = (0, 0, 1, 1) :=
  have h := claim_C9 (.list [.num 7, .other]) 5 [.num 7, .other]
  ⟨h.1, h.2.1, h.2.2 rfl rfl (by decide)⟩

/-- C2: the claim fails on the code — `extract_fields` returns a field map
only for a falsy export; for every truthy export (e.g. `{"pages": []}`) it
returns `None`, because the function body has no final `return out`.  The
caller in `routers/ocr.py` line 169 compensates with `or {}`. -/
theorem claim_C2 :
    extractFields "ine" "" (.pyDict true []) = none ∧
    extractFields "ine" "" .pyNone = some [] ∧
    extractFields "ine" "" (.pyDict false []) = some [] :=
  ⟨rfl, rfl, rfl⟩

theorem isPrefixOf_iff_append (l₁ l₂ : List Char) :
    l₁.isPrefixOf l₂ = true ↔ ∃ t, l₂ = l₁ ++ t := by
  rw [List.isPrefixOf_iff_prefix]
  constructor
  · intro ⟨t, ht⟩
    exact ⟨t, ht.symm⟩
  · intro ⟨t, ht⟩
    exact ⟨t, ht.symm⟩

theorem fragTakeCnt_spec (p : Char → Bool) (n : Nat) (s u r : List Char)
    (h : fragTakeCnt p n s = some (u, r)) :
    u.length = n ∧ (∀ c ∈ u, p c = true) ∧ s = u ++ r ∧ r = s.drop n := by
  unfold fragTakeCnt at h
  by_cases hc : (s.take n).length = n ∧ (s.take n).all p
  · rw [if_pos (by simp [hc.1, hc.2])] at h
    cases h
    refine ⟨hc.1, fun c hcm => List.all_eq_true.mp hc.2 c hcm, ?_, rfl⟩
    rw [← hc.1]
    rw [List.take_append_drop]
  · rw [if_neg (by
      intro hcon
      simp only [Bool.and_eq_true, decide_eq_true_eq] at hcon
      exact hc ⟨hcon.1, hcon.2⟩)] at h
    cases h

theorem fragTakeCnt_consumes (p : Char → Bool) (n : Nat) :
    FragConsumes (fragTakeCnt p n) := by
  intro s u r h
  exact (fragTakeCnt_spec p n s u r h).2.2.1

theorem fragTakeCnt_replays (p : Char → Bool) (n : Nat) :
    FragReplays (fragTakeCnt p n) := by
  intro s u r h r2
  obtain ⟨hlen, hall, _, _⟩ := fragTakeCnt_spec p n s u r h
  unfold fragTakeCnt
  have ht : (u ++ r2).take n = u := by
    rw [← hlen]
    exact List.take_left u r2
  have hd : (u ++ r2).drop n = r2 := by
    rw [← hlen]
    exact List.drop_left u r2
  rw [if_pos ?_]
  · rw [ht, hd]
  · rw [ht]
    simp only [hlen, Bool.and_eq_true, decide_eq_true_eq, List.all_eq_true]
    exact ⟨trivial, hall⟩

theorem fragAlts_spec (lits : List (List Char)) (s u r : List Char)
    (h : fragAlts lits s = some (u, r)) :
    u ∈ lits ∧ s = u ++ r ∧ r = s.drop u.length := by
  unfold fragAlts at h
  cases hf : lits.find? (fun lit => lit.isPrefixOf s) with
  | none => rw [hf] at h; cases h
  | some lit =>
    rw [hf] at h
    cases h
    have hmem := List.mem_of_find?_eq_some hf
    have hpre := List.find?_some hf
    obtain ⟨t, ht⟩ := (isPrefixOf_iff_append _ _).mp hpre
    refine ⟨hmem, ?_, rfl⟩
    have hdrop : List.drop u.length s = t := by
      rw [ht]
      exact List.drop_left u t
    rw [hdrop]
    exact ht

theorem fragAlts_consumes (lits : List (List Char)) : FragConsumes (fragAlts lits) := by
  intro s u r h
  exact (fragAlts_spec lits s u r h).2.1

theorem fragAlts_cons_pos (lit0 : List Char) (rest : List (List Char))
    (s : List Char) (h : lit0.isPrefixOf s = true) :
    fragAlts (lit0 :: rest) s = some (lit0, s.drop lit0.length) := by
  simp [fragAlts, List.find?_cons, h]

theorem fragAlts_cons_neg (lit0 : List Char) (rest : List (List Char))
    (s : List Char) (h : lit0.isPrefixOf s = false) :
    fragAlts (lit0 :: rest) s = fragAlts rest s := by
  simp [fragAlts, List.find?_cons, h]

theorem fragAlts_replays (lits : List (List Char)) (n : Nat)
    (hlen : ∀ l ∈ lits, l.length = n) (hnd : lits.Nodup) :
    FragReplays (fragAlts lits) := by
  induction lits with
  | nil => intro s u r h; unfold fragAlts at h; simp [List.find?] at h
  | cons lit0 rest ih =>
    intro s u r h r2
    simp only [List.nodup_cons] at hnd
    by_cases h0 : lit0.isPrefixOf s = true
    · rw [fragAlts_cons_pos lit0 rest s h0] at h
      cases h
      rw [fragAlts_cons_pos lit0 rest (lit0 ++ r2) (by
        rw [isPrefixOf_iff_append]
        exact ⟨r2, rfl⟩)]
      rw [List.drop_left]
    · rw [fragAlts_cons_neg lit0 rest s (Bool.eq_false_iff.mpr h0)] at h
      have hmem : u ∈ rest := (fragAlts_spec rest s u r h).1
      have hne : lit0.isPrefixOf (u ++ r2) = false := by
        rw [Bool.eq_false_iff]
        intro hcon
        obtain ⟨t, ht⟩ := (isPrefixOf_iff_append _ _).mp hcon
        have hl0 : lit0.length = n := hlen lit0 (by simp)
        have hlu : u.length = n := hlen u (by simp [hmem])
        have heq : lit0 = u := by
          have h1 : (u ++ r2).take n = u := by
            rw [← hlu]; exact List.take_left u r2
          have h2 : (u ++ r2).take n = lit0 := by
            rw [ht, ← hl0]
            exact List.take_left lit0 t
          rw [h1] at h2
          exact h2.symm
        rw [heq] at hnd
        exact hnd.1 hmem
      rw [fragAlts_cons_neg lit0 rest (u ++ r2) hne]
      exact ih (fun l hl => hlen l (by simp [hl])) hnd.2 s u r h r2

theorem fragSeq_consumes (f g : List Char → Option (List Char × List Char))
    (hf : FragConsumes f) (hg : FragConsumes g) : FragConsumes (fragSeq f g) := by
  intro s u r h
  unfold fragSeq at h
  cases hfs : f s with
  | none => rw [hfs] at h; cases h
  | some p =>
    obtain ⟨uf, rf⟩ := p
    rw [hfs] at h
    dsimp only at h
    cases hgs : g rf with
    | none => rw [hgs] at h; cases h
    | some q =>
      obtain ⟨ug, rg⟩ := q
      rw [hgs] at h
      dsimp only at h
      cases h
      rw [hf s uf rf hfs, hg rf ug r hgs, List.append_assoc]

theorem fragSeq_replays (f g : List Char → Option (List Char × List Char))
    (hf : FragReplays f) (hg : FragReplays g) : FragReplays (fragSeq f g) := by
  intro s u r h r2
  unfold fragSeq at h ⊢
  cases hfs : f s with
  | none => rw [hfs] at h; cases h
  | some p =>
    obtain ⟨uf, rf⟩ := p
    rw [hfs] at h
    dsimp only at h
    cases hgs : g rf with
    | none => rw [hgs] at h; cases h
    | some q =>
      obtain ⟨ug, rg⟩ := q
      rw [hgs] at h
      dsimp only at h
      cases h
      rw [List.append_assoc, hf s uf rf hfs (ug ++ r2)]
      dsimp only
      rw [hg rf ug r hgs r2]

theorem isDigitC_word (c : Char) (h : isDigitC c = true) : isWordChar c = true := by
  unfold isDigitC at h
  unfold isWordChar
  simp only [Bool.and_eq_true, Bool.or_eq_true, decide_eq_true_eq] at h ⊢
  omega

theorem isDigitC_not_ws (c : Char) (h : isDigitC c = true) : isPyWs c = false := by
  unfold isDigitC at h
  simp only [Bool.and_eq_true, decide_eq_true_eq] at h
  exact isPyWs_false_of_visible c (by omega) (by omega)

theorem isUpperAZ_word (c : Char) (h : isUpperAZ c = true) : isWordChar c = true := by
  unfold isUpperAZ at h
  unfold isWordChar
  simp only [Bool.and_eq_true, Bool.or_eq_true, decide_eq_true_eq] at h ⊢
  omega

theorem isUpperAZ_not_ws (c : Char) (h : isUpperAZ c = true) : isPyWs c = false := by
  unfold isUpperAZ at h
  simp only [Bool.and_eq_true, decide_eq_true_eq] at h
  exact isPyWs_false_of_visible c (by omega) (by omega)

theorem isAZ09_word (c : Char) (h : isAZ09 c = true) : isWordChar c = true := by
  unfold isAZ09 at h
  rcases Bool.or_eq_true _ _ ▸ h with h1 | h1
  · exact isUpperAZ_word c h1
  · exact isDigitC_word c h1

theorem isAZ09_not_ws (c : Char) (h : isAZ09 c = true) : isPyWs c = false := by
  unfold isAZ09 at h
  rcases Bool.or_eq_true _ _ ▸ h with h1 | h1
  · exact isUpperAZ_not_ws c h1
  · exact isDigitC_not_ws c h1

theorem takeWhile_of_all (p : Char → Bool) :
    ∀ l : List Char, (∀ c ∈ l, p c = true) → l.takeWhile p = l := by
  intro l
  induction l with
  | nil => intro _; rfl
  | cons c cs ih =>
    intro h
    rw [List.takeWhile_cons, if_pos (h c (by simp))]
    rw [ih (fun d hd => h d (by simp [hd]))]

theorem drop_takeWhile_length (p : Char → Bool) :
    ∀ l : List Char, l.drop (l.takeWhile p).length = l.dropWhile p := by
  intro l
  induction l with
  | nil => rfl
  | cons c cs ih =>
    rw [List.takeWhile_cons, List.dropWhile_cons]
    by_cases h : p c
    · rw [if_pos h, if_pos h]
      simpa using ih
    · rw [if_neg h, if_neg h]
      rfl

theorem takeWhile_append_not (p : Char → Bool) (w z : List Char)
    (hw : ∀ c ∈ w, p c = true)
    (hz : z = [] ∨ ∃ d z', z = d :: z' ∧ p d = false) :
    (w ++ z).takeWhile p = w := by
  induction w with
  | nil =>
    rcases hz with hz | ⟨d, z', hz, hd⟩
    · rw [hz]; rfl
    · rw [hz, List.nil_append, List.takeWhile_cons, if_neg (by simp [hd])]
  | cons c cs ih =>
    rw [List.cons_append, List.takeWhile_cons, if_pos (hw c (by simp))]
    rw [ih (fun d hd => hw d (by simp [hd]))]

theorem matchBFrag_spec (f : List Char → Option (List Char × List Char))
    (p : Bool) (s u r : List Char) (h : matchBFrag f p s = some (u, r)) :
    p = false ∧ f s = some (u, r) ∧ boundaryOkAfter r = true := by
  unfold matchBFrag at h
  by_cases hp : p
  · rw [if_pos hp] at h; cases h
  · rw [if_neg hp] at h
    refine ⟨by simpa using hp, ?_⟩
    cases hfs : f s with
    | none => rw [hfs] at h; cases h
    | some q =>
      obtain ⟨u', r'⟩ := q
      rw [hfs] at h
      dsimp only at h
      by_cases hb : boundaryOkAfter r'
      · rw [if_pos hb] at h
        cases h
        exact ⟨rfl, hb⟩
      · rw [if_neg hb] at h
        cases h

theorem matchBFrag_self (f : List Char → Option (List Char × List Char))
    (hre : FragReplays f) : MatcherSelf (matchBFrag f) := by
  intro p s u r h
  obtain ⟨_, hf, _⟩ := matchBFrag_spec f p s u r h
  have := hre s u r hf []
  rw [List.append_nil] at this
  unfold matchBFrag
  rw [if_neg (by simp)]
  rw [this]
  rfl

theorem matchBFrag_consumes (f : List Char → Option (List Char × List Char))
    (hc : FragConsumes f) : MatcherConsumes (matchBFrag f) := by
  intro p s u r h
  obtain ⟨_, hf, _⟩ := matchBFrag_spec f p s u r h
  exact hc s u r hf

theorem year4Frag_replays : FragReplays year4Frag := by
  have := fragSeq_replays (fragAlts [['1', '9'], ['2', '0']])
    (fragTakeCnt isDigitC 2)
    (fragAlts_replays _ 2 (by decide) (by decide))
    (fragTakeCnt_replays _ _)
  intro s u r h
  exact this s u r h

theorem year4Frag_consumes : FragConsumes year4Frag := by
  have := fragSeq_consumes (fragAlts [['1', '9'], ['2', '0']])
    (fragTakeCnt isDigitC 2)
    (fragAlts_consumes _) (fragTakeCnt_consumes _ _)
  intro s u r h
  exact this s u r h

theorem year4Frag_chars (s u r : List Char) (h : year4Frag s = some (u, r)) :
    u ≠ [] ∧ ∀ c ∈ u, isDigitC c = true := by
  unfold year4Frag fragSeq at h
  cases hfs : fragAlts [['1', '9'], ['2', '0']] s with
  | none => rw [hfs] at h; cases h
  | some q =>
    obtain ⟨ua, ra⟩ := q
    rw [hfs] at h
    dsimp only at h
    cases hgs : fragTakeCnt isDigitC 2 ra with
    | none => rw [hgs] at h; cases h
    | some q2 =>
      obtain ⟨ud, rd⟩ := q2
      rw [hgs] at h
      dsimp only at h
      cases h
      have ha := fragAlts_spec _ s ua ra hfs
      have hd := fragTakeCnt_spec _ _ ra ud r hgs
      have hua : ∀ c ∈ ua, isDigitC c = true := by
        have : ∀ l ∈ [['1', '9'], ['2', '0']], ∀ c ∈ l, isDigitC c = true := by
          decide
        exact this ua ha.1
      constructor
      · intro hcon
        rcases List.append_eq_nil.mp hcon with ⟨h1, _⟩
        have hmem := ha.1
        rw [h1] at hmem
        simp at hmem
      · intro c hc
        rcases List.mem_append.mp hc with hc | hc
        · exact hua c hc
        · exact hd.2.1 c hc

theorem fragTakeCnt_chars (p P : Char → Bool) (n : Nat)
    (himp : ∀ c, p c = true → P c = true) : FragChars (fragTakeCnt p n) P := by
  intro s u r h c hc
  exact himp c ((fragTakeCnt_spec p n s u r h).2.1 c hc)

theorem fragAlts_chars (lits : List (List Char)) (P : Char → Bool)
    (hall : ∀ l ∈ lits, ∀ c ∈ l, P c = true) : FragChars (fragAlts lits) P := by
  intro s u r h c hc
  exact hall u (fragAlts_spec lits s u r h).1 c hc

theorem fragSeq_chars (f g : List Char → Option (List Char × List Char))
    (P : Char → Bool) (hf : FragChars f P) (hg : FragChars g P) :
    FragChars (fragSeq f g) P := by
  intro s u r h c hc
  unfold fragSeq at h
  cases hfs : f s with
  | none => rw [hfs] at h; cases h
  | some q =>
    obtain ⟨uf, rf⟩ := q
    rw [hfs] at h
    dsimp only at h
    cases hgs : g rf with
    | none => rw [hgs] at h; cases h
    | some q2 =>
      obtain ⟨ug, rg⟩ := q2
      rw [hgs] at h
      dsimp only at h
      cases h
      rcases List.mem_append.mp hc with hc | hc
      · exact hf s uf rf hfs c hc
      · exact hg rf ug r hgs c hc

theorem year4Frag_charsP : FragChars year4Frag (fun c => !isPyWs c) := by
  intro s u r h c hc
  have := (year4Frag_chars s u r h).2 c hc
  simp [isDigitC_not_ws c this]

theorem dateFrag_replays : FragReplays dateFrag := by
  have := fragSeq_replays _ _ (fragTakeCnt_replays isDigitC 2)
    (fragSeq_replays _ _ (fragAlts_replays [['/'], ['-']] 1 (by decide) (by decide))
      (fragSeq_replays _ _ (fragTakeCnt_replays isDigitC 2)
        (fragSeq_replays _ _ (fragAlts_replays [['/'], ['-']] 1 (by decide) (by decide))
          year4Frag_replays)))
  intro s u r h
  exact this s u r h

theorem dateFrag_consumes : FragConsumes dateFrag := by
  have := fragSeq_consumes _ _ (fragTakeCnt_consumes isDigitC 2)
    (fragSeq_consumes _ _ (fragAlts_consumes [['/'], ['-']])
      (fragSeq_consumes _ _ (fragTakeCnt_consumes isDigitC 2)
        (fragSeq_consumes _ _ (fragAlts_consumes [['/'], ['-']])
          year4Frag_consumes)))
  intro s u r h
  exact this s u r h

theorem dateFrag_charsP : FragChars dateFrag (fun c => !isPyWs c) := by
  have hsep : FragChars (fragAlts [['/'], ['-']]) (fun c => !isPyWs c) :=
    fragAlts_chars _ _ (by decide)
  have hdig : FragChars (fragTakeCnt isDigitC 2) (fun c => !isPyWs c) :=
    fragTakeCnt_chars _ _ 2 (fun c hc => by simp [isDigitC_not_ws c hc])
  have := fragSeq_chars _ _ _ hdig
    (fragSeq_chars _ _ _ hsep
      (fragSeq_chars _ _ _ hdig (fragSeq_chars _ _ _ hsep year4Frag_charsP)))
  intro s u r h
  exact this s u r h

theorem matchYear_self : MatcherSelf matchYear :=
  matchBFrag_self year4Frag year4Frag_replays

theorem matchYear_consumes : MatcherConsumes matchYear :=
  matchBFrag_consumes year4Frag year4Frag_consumes

theorem matchYear_wsFree (p : Bool) (s u r : List Char)
    (h : matchYear p s = some (u, r)) : ∀ c ∈ u, isPyWs c = false := by
  intro c hc
  have := year4Frag_charsP s u r (matchBFrag_spec _ p s u r h).2.1 c hc
  simpa using this

theorem matchDate_self : MatcherSelf matchDate :=
  matchBFrag_self dateFrag dateFrag_replays

theorem matchDate_consumes : MatcherConsumes matchDate :=
  matchBFrag_consumes dateFrag dateFrag_consumes

theorem matchDate_wsFree (p : Bool) (s u r : List Char)
    (h : matchDate p s = some (u, r)) : ∀ c ∈ u, isPyWs c = false := by
  intro c hc
  have := dateFrag_charsP s u r (matchBFrag_spec _ p s u r h).2.1 c hc
  simpa using this

theorem matchSeccion_spec (p : Bool) (s u r : List Char)
    (h : matchSeccion p s = some (u, r)) :
    p = false ∧ u = s.takeWhile isDigitC ∧ 1 ≤ u.length ∧ u.length ≤ 5 ∧
    boundaryOkAfter (s.drop u.length) = true ∧ r = s.drop u.length := by
  unfold matchSeccion at h
  by_cases hp : p
  · rw [if_pos hp] at h; cases h
  · rw [if_neg hp] at h
    dsimp only at h
    by_cases hc : (1 ≤ (s.takeWhile isDigitC).length &&
        (s.takeWhile isDigitC).length ≤ 5 &&
        boundaryOkAfter (s.drop (s.takeWhile isDigitC).length)) = true
    · rw [if_pos hc] at h
      cases h
      simp only [Bool.and_eq_true, decide_eq_true_eq] at hc
      exact ⟨by simpa using hp, rfl, hc.1.1, hc.1.2, hc.2, rfl⟩
    · rw [if_neg hc] at h
      cases h

theorem matchSeccion_self : MatcherSelf matchSeccion := by
  intro p s u r h
  obtain ⟨_, hu, h1, h5, _, _⟩ := matchSeccion_spec p s u r h
  have hall : ∀ c ∈ u, isDigitC c = true := by
    intro c hc
    rw [hu] at hc
    exact List.mem_takeWhile_imp hc
  unfold matchSeccion
  rw [if_neg (by simp)]
  dsimp only
  rw [takeWhile_of_all isDigitC u hall]
  rw [if_pos (by
    simp only [Bool.and_eq_true, decide_eq_true_eq]
    refine ⟨⟨h1, h5⟩, ?_⟩
    rw [List.drop_length]
    rfl)]
  rw [List.drop_length]

theorem matchSeccion_consumes : MatcherConsumes matchSeccion := by
  intro p s u r h
  obtain ⟨_, hu, _, _, _, hr⟩ := matchSeccion_spec p s u r h
  rw [hu, hr, hu, drop_takeWhile_length]
  exact (List.takeWhile_append_dropWhile isDigitC s).symm

theorem matchSeccion_wsFree (p : Bool) (s u r : List Char)
    (h : matchSeccion p s = some (u, r)) : ∀ c ∈ u, isPyWs c = false := by
  intro c hc
  obtain ⟨_, hu, _, _, _, _⟩ := matchSeccion_spec p s u r h
  rw [hu] at hc
  exact isDigitC_not_ws c (List.mem_takeWhile_imp hc)

theorem matchClave_spec (p : Bool) (s u r : List Char)
    (h : matchClave p s = some (u, r)) :
    p = false ∧ u = s.takeWhile isAZ09 ∧ 8 ≤ u.length ∧ u.length ≤ 20 ∧
    boundaryOkAfter (s.drop u.length) = true ∧ r = s.drop u.length := by
  unfold matchClave at h
  by_cases hp : p
  · rw [if_pos hp] at h; cases h
  · rw [if_neg hp] at h
    dsimp only at h
    by_cases hc : (8 ≤ (s.takeWhile isAZ09).length &&
        (s.takeWhile isAZ09).length ≤ 20 &&
        boundaryOkAfter (s.drop (s.takeWhile isAZ09).length)) = true
    · rw [if_pos hc] at h
      cases h
      simp only [Bool.and_eq_true, decide_eq_true_eq] at hc
      exact ⟨by simpa using hp, rfl, hc.1.1, hc.1.2, hc.2, rfl⟩
    · rw [if_neg hc] at h
      cases h

theorem matchClave_self : MatcherSelf matchClave := by
  intro p s u r h
  obtain ⟨_, hu, h1, h5, _, _⟩ := matchClave_spec p s u r h
  have hall : ∀ c ∈ u, isAZ09 c = true := by
    intro c hc
    rw [hu] at hc
    exact List.mem_takeWhile_imp hc
  unfold matchClave
  rw [if_neg (by simp)]
  dsimp only
  rw [takeWhile_of_all isAZ09 u hall]
  rw [if_pos (by
    simp only [Bool.and_eq_true, decide_eq_true_eq]
    refine ⟨⟨h1, h5⟩, ?_⟩
    rw [List.drop_length]
    rfl)]
  rw [List.drop_length]

theorem matchClave_consumes : MatcherConsumes matchClave := by
  intro p s u r h
  obtain ⟨_, hu, _, _, _, hr⟩ := matchClave_spec p s u r h
  rw [hu, hr, hu, drop_takeWhile_length]
  exact (List.takeWhile_append_dropWhile isAZ09 s).symm

theorem matchClave_wsFree (p : Bool) (s u r : List Char)
    (h : matchClave p s = some (u, r)) : ∀ c ∈ u, isPyWs c = false := by
  intro c hc
  obtain ⟨_, hu, _, _, _, _⟩ := matchClave_spec p s u r h
  rw [hu] at hc
  exact isAZ09_not_ws c (List.mem_takeWhile_imp hc)

theorem matchSexo_spec (p : Bool) (s u r : List Char)
    (h : matchSexo p s = some (u, r)) :
    p = false ∧
    u ∈ [['H'], ['M'], ['H', 'O', 'M', 'B', 'R', 'E'], ['M', 'U', 'J', 'E', 'R']] ∧
    u.isPrefixOf s = true ∧ r = s.drop u.length := by
  unfold matchSexo at h
  by_cases hp : p
  · rw [if_pos hp] at h; cases h
  · rw [if_neg hp] at h
    cases hf : [['H'], ['M'], ['H', 'O', 'M', 'B', 'R', 'E'],
        ['M', 'U', 'J', 'E', 'R']].find?
        (fun lit => lit.isPrefixOf s && boundaryOkAfter (s.drop lit.length)) with
    | none => rw [hf] at h; cases h
    | some lit =>
      rw [hf] at h
      cases h
      have hmem := List.mem_of_find?_eq_some hf
      have hcond := List.find?_some hf
      simp only [Bool.and_eq_true] at hcond
      exact ⟨by simpa using hp, hmem, hcond.1, rfl⟩

theorem matchSexo_self : MatcherSelf matchSexo := by
  intro p s u r h
  obtain ⟨_, hmem, _, _⟩ := matchSexo_spec p s u r h
  have hv : ∀ v ∈ [['H'], ['M'], ['H', 'O', 'M', 'B', 'R', 'E'],
      ['M', 'U', 'J', 'E', 'R']], matchSexo false v = some (v, []) := by
    decide
  exact hv u hmem

theorem matchSexo_consumes : MatcherConsumes matchSexo := by
  intro p s u r h
  obtain ⟨_, _, hpre, hr⟩ := matchSexo_spec p s u r h
  obtain ⟨t, ht⟩ := (isPrefixOf_iff_append _ _).mp hpre
  rw [hr, ht, List.drop_left]

theorem matchSexo_wsFree (p : Bool) (s u r : List Char)
    (h : matchSexo p s = some (u, r)) : ∀ c ∈ u, isPyWs c = false := by
  obtain ⟨_, hmem, _, _⟩ := matchSexo_spec p s u r h
  have hv : ∀ v ∈ [['H'], ['M'], ['H', 'O', 'M', 'B', 'R', 'E'],
      ['M', 'U', 'J', 'E', 'R']], ∀ c ∈ v, isPyWs c = false := by
    decide
  exact hv u hmem

theorem curpFrag_replays : FragReplays curpFrag := by
  have := fragSeq_replays _ _ (fragTakeCnt_replays isUpperAZ 4)
    (fragSeq_replays _ _ (fragTakeCnt_replays isDigitC 6)
      (fragSeq_replays _ _ (fragAlts_replays [['H'], ['M']] 1 (by decide) (by decide))
        (fragSeq_replays _ _ (fragAlts_replays stateCodeList 2 (by decide) (by decide))
          (fragSeq_replays _ _ (fragTakeCnt_replays isUpperAZ 3)
            (fragSeq_replays _ _ (fragTakeCnt_replays isAZ09 1)
              (fragTakeCnt_replays isDigitC 1))))))
  intro s u r h
  exact this s u r h

theorem curpFrag_consumes : FragConsumes curpFrag := by
  have := fragSeq_consumes _ _ (fragTakeCnt_consumes isUpperAZ 4)
    (fragSeq_consumes _ _ (fragTakeCnt_consumes isDigitC 6)
      (fragSeq_consumes _ _ (fragAlts_consumes [['H'], ['M']])
        (fragSeq_consumes _ _ (fragAlts_consumes stateCodeList)
          (fragSeq_consumes _ _ (fragTakeCnt_consumes isUpperAZ 3)
            (fragSeq_consumes _ _ (fragTakeCnt_consumes isAZ09 1)
              (fragTakeCnt_consumes isDigitC 1))))))
  intro s u r h
  exact this s u r h

theorem curpFrag_charsP : FragChars curpFrag (fun c => isAZ09 c) := by
  have hU : FragChars (fragTakeCnt isUpperAZ 4) (fun c => isAZ09 c) :=
    fragTakeCnt_chars _ _ 4 (fun c hc => by simp [isAZ09, hc])
  have hU3 : FragChars (fragTakeCnt isUpperAZ 3) (fun c => isAZ09 c) :=
    fragTakeCnt_chars _ _ 3 (fun c hc => by simp [isAZ09, hc])
  have hD6 : FragChars (fragTakeCnt isDigitC 6) (fun c => isAZ09 c) :=
    fragTakeCnt_chars _ _ 6 (fun c hc => by simp [isAZ09, hc])
  have hD1 : FragChars (fragTakeCnt isDigitC 1) (fun c => isAZ09 c) :=
    fragTakeCnt_chars _ _ 1 (fun c hc => by simp [isAZ09, hc])
  have hA1 : FragChars (fragTakeCnt isAZ09 1) (fun c => isAZ09 c) :=
    fragTakeCnt_chars _ _ 1 (fun c hc => hc)
  have hHM : FragChars (fragAlts [['H'], ['M']]) (fun c => isAZ09 c) :=
    fragAlts_chars _ _ (by decide)
  have hSt : FragChars (fragAlts stateCodeList) (fun c => isAZ09 c) :=
    fragAlts_chars _ _ (by decide)
  have := fragSeq_chars _ _ _ hU
    (fragSeq_chars _ _ _ hD6
      (fragSeq_chars _ _ _ hHM
        (fragSeq_chars _ _ _ hSt
          (fragSeq_chars _ _ _ hU3 (fragSeq_chars _ _ _ hA1 hD1)))))
  intro s u r h
  exact this s u r h

theorem matchCurp_self : MatcherSelf matchCurp := by
  intro p s u r h
  have := curpFrag_replays s u r h []
  rw [List.append_nil] at this
  exact this

theorem matchCurp_consumes : MatcherConsumes matchCurp := by
  intro p s u r h
  exact curpFrag_consumes s u r h

theorem matchCurp_wsFree (p : Bool) (s u r : List Char)
    (h : matchCurp p s = some (u, r)) : ∀ c ∈ u, isPyWs c = false := by
  intro c hc
  exact isAZ09_not_ws c (curpFrag_charsP s u r h c hc)

theorem dash_not_ws (d : Char) (h : d = '-' ∨ d.toNat = 8211) :
    isPyWs d = false := by
  rcases h with h | h
  · subst h; decide
  · unfold isPyWs
    rw [Bool.eq_false_iff]
    intro hcon
    simp only [Bool.or_eq_true, Bool.and_eq_true, decide_eq_true_eq] at hcon
    omega

theorem getLast?_append_right (l₁ l₂ : List Char) (h : l₂ ≠ []) :
    (l₁ ++ l₂).getLast? = l₂.getLast? := by
  cases hgl : l₂.getLast? with
  | none => rw [List.getLast?_eq_none_iff] at hgl; exact absurd hgl h
  | some c =>
    rw [List.getLast?_append, hgl]
    rfl

theorem matchVig_spec (p : Bool) (s u r : List Char)
    (h : matchVig p s = some (u, r)) :
    p = false ∧ ∃ y1 r1, year4Frag s = some (y1, r1) ∧
      ((u = y1 ∧ r = r1 ∧ boundaryOkAfter r1 = true) ∨
       (∃ d r2 y2,
          r1.drop (r1.takeWhile isPyWs).length = d :: r2 ∧
          (d = '-' ∨ d.toNat = 8211) ∧
          year4Frag (r2.drop (r2.takeWhile isPyWs).length) = some (y2, r) ∧
          boundaryOkAfter r = true ∧
          u = y1 ++ (r1.takeWhile isPyWs) ++ d :: ((r2.takeWhile isPyWs) ++ y2))) := by
  unfold matchVig at h
  by_cases hp : p
  · rw [if_pos hp] at h; cases h
  · rw [if_neg hp] at h
    refine ⟨by simpa using hp, ?_⟩
    cases hy1 : year4Frag s with
    | none => rw [hy1] at h; cases h
    | some q =>
      obtain ⟨y1, r1⟩ := q
      rw [hy1] at h
      dsimp only at h
      refine ⟨y1, r1, rfl, ?_⟩
      cases hd : r1.drop (r1.takeWhile isPyWs).length with
      | nil =>
        rw [hd] at h
        dsimp only at h
        by_cases hb : boundaryOkAfter r1
        · rw [if_pos hb] at h
          cases h
          exact Or.inl ⟨rfl, rfl, hb⟩
        · rw [if_neg hb] at h
          cases h
      | cons d r2 =>
        rw [hd] at h
        dsimp only at h
        by_cases hdash : (d = '-' || d.toNat = 8211) = true
        · rw [if_pos hdash] at h
          cases hy2 : year4Frag (r2.drop (r2.takeWhile isPyWs).length) with
          | none =>
            rw [hy2] at h
            dsimp only at h
            by_cases hb : boundaryOkAfter r1
            · rw [if_pos hb] at h
              cases h
              exact Or.inl ⟨rfl, rfl, hb⟩
            · rw [if_neg hb] at h
              cases h
          | some q2 =>
            obtain ⟨y2, r3⟩ := q2
            rw [hy2] at h
            dsimp only at h
            by_cases hb3 : boundaryOkAfter r3
            · rw [if_pos hb3] at h
              dsimp only at h
              cases h
              refine Or.inr ⟨d, r2, y2, rfl, ?_, hy2, hb3, rfl⟩
              simpa using hdash
            · rw [if_neg hb3] at h
              dsimp only at h
              by_cases hb : boundaryOkAfter r1
              · rw [if_pos hb] at h
                cases h
                exact Or.inl ⟨rfl, rfl, hb⟩
              · rw [if_neg hb] at h
                cases h
        · rw [if_neg hdash] at h
          dsimp only at h
          by_cases hb : boundaryOkAfter r1
          · rw [if_pos hb] at h
            cases h
            exact Or.inl ⟨rfl, rfl, hb⟩
          · rw [if_neg hb] at h
            cases h

theorem matchVig_consumes : MatcherConsumes matchVig := by
  intro p s u r h
  obtain ⟨_, y1, r1, hy1, hcase⟩ := matchVig_spec p s u r h
  have hs : s = y1 ++ r1 := year4Frag_consumes s y1 r1 hy1
  rcases hcase with ⟨hu, hr, _⟩ | ⟨d, r2, y2, hd, _, hy2, _, hu⟩
  · rw [hu, hr]; exact hs
  · have hr1 : r1 = (r1.takeWhile isPyWs) ++ (d :: r2) := by
      conv_lhs => rw [← List.takeWhile_append_dropWhile isPyWs r1]
      rw [← drop_takeWhile_length isPyWs r1, hd]
    have hr2 : r2 = (r2.takeWhile isPyWs) ++ (y2 ++ r) := by
      conv_lhs => rw [← List.takeWhile_append_dropWhile isPyWs r2]
      rw [← drop_takeWhile_length isPyWs r2]
      rw [year4Frag_consumes _ y2 r hy2]
    rw [hu, hs]
    conv_lhs => rw [hr1, hr2]
    simp [List.append_assoc]

theorem matchVig_self : MatcherSelf matchVig := by
  intro p s u r h
  obtain ⟨_, y1, r1, hy1, hcase⟩ := matchVig_spec p s u r h
  rcases hcase with ⟨hu, hr, hb⟩ | ⟨d, r2, y2, hd, hdash, hy2, hb, hu⟩
  · have hy : year4Frag y1 = some (y1, []) := by
      have := year4Frag_replays s y1 r1 hy1 []
      rwa [List.append_nil] at this
    rw [hu]
    unfold matchVig
    rw [if_neg (by simp), hy]
    rfl
  · have hdws : isPyWs d = false := dash_not_ws d hdash
    have hy2c := year4Frag_chars _ y2 r hy2
    obtain ⟨c2, y2', hy2e⟩ : ∃ c2 y2', y2 = c2 :: y2' := by
      cases y2 with
      | nil => exact absurd rfl hy2c.1
      | cons a b => exact ⟨a, b, rfl⟩
    have htw1 : ((r1.takeWhile isPyWs) ++
        d :: ((r2.takeWhile isPyWs) ++ y2)).takeWhile isPyWs
        = r1.takeWhile isPyWs := by
      apply takeWhile_append_not
      · intro c hc
        exact List.mem_takeWhile_imp hc
      · exact Or.inr ⟨d, (r2.takeWhile isPyWs) ++ y2, rfl, hdws⟩
    have htw2 : ((r2.takeWhile isPyWs) ++ y2).takeWhile isPyWs
        = r2.takeWhile isPyWs := by
      apply takeWhile_append_not
      · intro c hc
        exact List.mem_takeWhile_imp hc
      · refine Or.inr ⟨c2, y2', by rw [hy2e], ?_⟩
        exact isDigitC_not_ws c2 (hy2c.2 c2 (by rw [hy2e]; simp))
    have hy1rep : year4Frag
        (y1 ++ (r1.takeWhile isPyWs) ++ d :: ((r2.takeWhile isPyWs) ++ y2))
        = some (y1, (r1.takeWhile isPyWs) ++ d :: ((r2.takeWhile isPyWs) ++ y2)) := by
      rw [List.append_assoc]
      exact year4Frag_replays s y1 r1 hy1 _
    have hy2rep : year4Frag y2 = some (y2, []) := by
      have := year4Frag_replays _ y2 r hy2 []
      rwa [List.append_nil] at this
    rw [hu]
    unfold matchVig
    rw [if_neg (by simp), hy1rep]
    dsimp only
    rw [htw1, List.drop_left]
    dsimp only
    rw [if_pos (by rcases hdash with h1 | h1 <;> simp [h1])]
    rw [htw2, List.drop_left, hy2rep]
    dsimp only
    rw [if_pos (show boundaryOkAfter [] = true from rfl)]

theorem matchVig_ends (p : Bool) (s u r : List Char)
    (h : matchVig p s = some (u, r)) :
    (∃ c1 cs, u = c1 :: cs ∧ isDigitC c1 = true) ∧
    (∃ c2, u.getLast? = some c2 ∧ isDigitC c2 = true) := by
  obtain ⟨_, y1, r1, hy1, hcase⟩ := matchVig_spec p s u r h
  have hy1c := year4Frag_chars s y1 r1 hy1
  obtain ⟨c1, y1', hy1e⟩ : ∃ c1 y1', y1 = c1 :: y1' := by
    cases y1 with
    | nil => exact absurd rfl hy1c.1
    | cons a b => exact ⟨a, b, rfl⟩
  rcases hcase with ⟨hu, _, _⟩ | ⟨d, r2, y2, hd, hdash, hy2m, hbm, hum⟩
  · constructor
    · refine ⟨c1, y1', ?_, hy1c.2 c1 (by rw [hy1e]; simp)⟩
      rw [hu, hy1e]
    · obtain ⟨c2, hc2⟩ : ∃ c2, u.getLast? = some c2 := by
        cases hgl : u.getLast? with
        | none =>
          rw [List.getLast?_eq_none_iff] at hgl
          rw [hu] at hgl
          exact absurd hgl hy1c.1
        | some c => exact ⟨c, rfl⟩
      refine ⟨c2, hc2, hy1c.2 c2 ?_⟩
      rw [← hu]
      exact List.mem_of_mem_getLast? hc2
  · have hy2c := year4Frag_chars _ y2 r hy2m
    constructor
    · refine ⟨c1, y1' ++ ((r1.takeWhile isPyWs) ++
        d :: ((r2.takeWhile isPyWs) ++ y2)), ?_,
        hy1c.2 c1 (by rw [hy1e]; simp)⟩
      rw [hum, hy1e]
      simp [List.append_assoc]
    · obtain ⟨c2, hc2⟩ : ∃ c2, y2.getLast? = some c2 := by
        cases hgl : y2.getLast? with
        | none =>
          rw [List.getLast?_eq_none_iff] at hgl
          exact absurd hgl hy2c.1
        | some c => exact ⟨c, rfl⟩
      refine ⟨c2, ?_, hy2c.2 c2 (List.mem_of_mem_getLast? hc2)⟩
      rw [hum]
      rw [getLast?_append_right (y1 ++ (r1.takeWhile isPyWs)) _ (by simp)]
      rw [show (d :: ((r2.takeWhile isPyWs) ++ y2))
          = [d] ++ ((r2.takeWhile isPyWs) ++ y2) from rfl]
      rw [getLast?_append_right [d] _ (by
        intro hcon
        exact hy2c.1 (List.append_eq_nil.mp hcon).2)]
      rw [getLast?_append_right (r2.takeWhile isPyWs) y2 hy2c.1]
      exact hc2

theorem reSearchAux_suffix (m : Bool → List Char → Option (List Char × List Char))
    (s : List Char) :
    ∀ (p : Bool) (u : List Char), reSearchAux m p s = some u →
      ∃ q t r, m q t = some (u, r) ∧ t <:+ s := by
  induction s with
  | nil =>
    intro p u h
    unfold reSearchAux at h
    cases hm : m p [] with
    | none => rw [hm] at h; cases h
    | some pr =>
      obtain ⟨u', r'⟩ := pr
      rw [hm] at h
      cases h
      exact ⟨p, [], r', hm, List.suffix_refl _⟩
  | cons c cs ih =>
    intro p u h
    unfold reSearchAux at h
    cases hm : m p (c :: cs) with
    | none =>
      rw [hm] at h
      obtain ⟨q, t, r, hmt, hts⟩ := ih (isWordChar c) u h
      exact ⟨q, t, r, hmt, hts.trans (List.suffix_cons c cs)⟩
    | some pr =>
      obtain ⟨u', r'⟩ := pr
      rw [hm] at h
      cases h
      exact ⟨p, c :: cs, r', hm, List.suffix_refl _⟩

theorem reSearch_self (m : Bool → List Char → Option (List Char × List Char))
    (hself : MatcherSelf m) (s u : List Char) (h : reSearch m s = some u) :
    reSearch m u = some u := by
  obtain ⟨q, t, r, hmt, _⟩ := reSearchAux_suffix m s false u h
  have hu : m false u = some (u, []) := hself q t u r hmt
  cases u with
  | nil =>
    show reSearchAux m false [] = some []
    unfold reSearchAux
    rw [hu]
    rfl
  | cons c cs =>
    show reSearchAux m false (c :: cs) = some (c :: cs)
    unfold reSearchAux
    rw [hu]

theorem reSearch_chars (m : Bool → List Char → Option (List Char × List Char))
    (hcons : MatcherConsumes m) (s u : List Char) (h : reSearch m s = some u) :
    ∀ c ∈ u, c ∈ s := by
  obtain ⟨q, t, r, hmt, hts⟩ := reSearchAux_suffix m s false u h
  intro c hc
  obtain ⟨w, hw⟩ := hts
  have h1 : c ∈ t := by
    rw [hcons q t u r hmt]
    exact List.mem_append_left r hc
  rw [← hw]
  exact List.mem_append_right w h1

theorem noWsRun_wsFree_append (xs ys : List Char)
    (hxs : ∀ c ∈ xs, isPyWs c = false) (hys : noWsRun ys = true) :
    noWsRun (xs ++ ys) = true := by
  induction xs with
  | nil => simpa using hys
  | cons a as ih =>
    have ha : isPyWs a = false := hxs a (by simp)
    have ih' := ih (fun c hc => hxs c (by simp [hc]))
    rw [List.cons_append]
    cases hcase : as ++ ys with
    | nil => rfl
    | cons b t =>
      rw [noWsRun_cons_cons, Bool.and_eq_true]
      refine ⟨by simp [ha], ?_⟩
      rw [← hcase]
      exact ih'

theorem noWsRun_joinWords (ws : List (List Char))
    (h : ∀ w ∈ ws, w ≠ [] ∧ ∀ c ∈ w, isPyWs c = false) :
    noWsRun (joinWords ws) = true := by
  induction ws with
  | nil => rfl
  | cons w ws' ih =>
    cases ws' with
    | nil =>
      have := noWsRun_wsFree_append w [] (fun c hc => (h w (by simp)).2 c hc) rfl
      rw [List.append_nil] at this
      exact this
    | cons w2 ws2 =>
      rw [joinWords_cons w _ (by simp)]
      apply noWsRun_wsFree_append w _ (fun c hc => (h w (by simp)).2 c hc)
      have hihJ : noWsRun (joinWords (w2 :: ws2)) = true :=
        ih (fun v hv => h v (by simp [hv]))
      obtain ⟨t, ht⟩ : ∃ t, joinWords (w2 :: ws2) = w2 ++ t := by
        cases ws2 with
        | nil => exact ⟨[], by simp [joinWords]⟩
        | cons a b => exact ⟨' ' :: joinWords (a :: b), joinWords_cons w2 _ (by simp)⟩
      obtain ⟨c0, w2', hw2e⟩ : ∃ c0 w2', w2 = c0 :: w2' := by
        cases hw2 : w2 with
        | nil => exact absurd hw2 (h w2 (by simp)).1
        | cons a b => exact ⟨a, b, rfl⟩
      rw [ht, hw2e, List.cons_append, noWsRun_cons_cons, Bool.and_eq_true]
      constructor
      · have hc0 : isPyWs c0 = false := (h w2 (by simp)).2 c0 (by rw [hw2e]; simp)
        simp [hc0]
      · rw [← List.cons_append, ← hw2e, ← ht]
        exact hihJ

theorem noWsRun_collapseWs (l : List Char) : noWsRun (collapseWs l) = true := by
  apply noWsRun_joinWords
  intro w hw
  exact wordsAux_wsFree_words l [] (by simp) w hw

theorem noWsRun_pyNormL (l : List Char) : noWsRun (pyNormL l) = true :=
  noWsRun_collapseWs _

theorem isCollapsedL_wsFree (v : List Char) (h : ∀ c ∈ v, isPyWs c = false) :
    isCollapsedL v = true := by
  unfold isCollapsedL
  rw [Bool.and_eq_true, Bool.and_eq_true, Bool.and_eq_true]
  refine ⟨⟨⟨?_, ?_⟩, ?_⟩, ?_⟩
  · unfold headNonWs
    cases v with
    | nil => rfl
    | cons c cs => simp [h c (by simp)]
  · unfold lastNonWs
    cases hgl : v.getLast? with
    | none => rfl
    | some c => simp [h c (List.mem_of_mem_getLast? hgl)]
  · have := noWsRun_wsFree_append v [] h rfl
    rwa [List.append_nil] at this
  · unfold wsOnlySpace
    rw [List.all_eq_true]
    intro c hc
    simp [h c hc]

theorem reSearch_noWsRun (m : Bool → List Char → Option (List Char × List Char))
    (hcons : MatcherConsumes m) (s u : List Char) (h : reSearch m s = some u)
    (hs : noWsRun s = true) : noWsRun u = true := by
  obtain ⟨q, t, r, hmt, hts⟩ := reSearchAux_suffix m s false u h
  obtain ⟨w, hw⟩ := hts
  have ht : noWsRun t = true := noWsRun_suffix w t (by rw [hw]; exact hs)
  have hc := hcons q t u r hmt
  exact noWsRun_of_append_left u r (by rw [← hc]; exact ht)

theorem reSearch_normFixed_of_wsFree
    (m : Bool → List Char → Option (List Char × List Char))
    (hcons : MatcherConsumes m)
    (hws : ∀ p t u r, m p t = some (u, r) → ∀ c ∈ u, isPyWs c = false)
    (l v : List Char) (h : reSearch m (pyNormL l) = some v) :
    pyNormL v = v := by
  obtain ⟨q, t, r, hmt, _⟩ := reSearchAux_suffix m (pyNormL l) false v h
  have hmem : ∀ c ∈ v, c ∈ pyNormL l := reSearch_chars m hcons _ v h
  apply pyNormL_fixed_of
  · intro c hc
    exact pyNormL_ascii l c (hmem c hc)
  · intro c hc
    exact pyNormL_upperFixed l c (hmem c hc)
  · exact isCollapsedL_wsFree v (hws q t v r hmt)

theorem reSearch_vig_normFixed (l v : List Char)
    (h : reSearch matchVig (pyNormL l) = some v) : pyNormL v = v := by
  obtain ⟨q, t, r, hmt, _⟩ := reSearchAux_suffix matchVig (pyNormL l) false v h
  obtain ⟨⟨c1, cs, hve, hc1⟩, c2, hgl, hc2⟩ := matchVig_ends q t v r hmt
  have hmem : ∀ c ∈ v, c ∈ pyNormL l :=
    reSearch_chars matchVig matchVig_consumes _ v h
  have hnr : noWsRun v = true :=
    reSearch_noWsRun matchVig matchVig_consumes _ v h (noWsRun_pyNormL l)
  apply pyNormL_fixed_of
  · intro c hc
    exact pyNormL_ascii l c (hmem c hc)
  · intro c hc
    exact pyNormL_upperFixed l c (hmem c hc)
  · unfold isCollapsedL
    rw [Bool.and_eq_true, Bool.and_eq_true, Bool.and_eq_true]
    refine ⟨⟨⟨?_, ?_⟩, ?_⟩, ?_⟩
    · rw [hve]
      show (!isPyWs c1) = true
      simp [isDigitC_not_ws c1 hc1]
    · unfold lastNonWs
      rw [hgl]
      simp [isDigitC_not_ws c2 hc2]
    · exact hnr
    · unfold wsOnlySpace
      rw [List.all_eq_true]
      intro c hc
      by_cases hw : isPyWs c = true
      · have := pyNormL_ws_space l c (hmem c hc) hw
        simp [this]
      · rw [Bool.not_eq_true] at hw
        simp [hw]

theorem reSearch_nil (m : Bool → List Char → Option (List Char × List Char)) :
    reSearch m [] = (m false []).map Prod.fst := rfl

theorem pickFirstRegex_empty (m : Bool → List Char → Option (List Char × List Char))
    (hnil : m false [] = none) : pickFirstRegex m "" = "" := by
  unfold pickFirstRegex
  have h0 : reSearch m (pyNorm "").data = none := by
    rw [show (pyNorm "").data = [] from rfl, reSearch_nil, hnil]
    rfl
  rw [h0]

theorem pickFirstRegexAny_eq (m : Bool → List Char → Option (List Char × List Char))
    (s : String) : pickFirstRegexAny m s = pickFirstRegex m s := rfl

theorem pickFirstRegex_idem_of
    (m : Bool → List Char → Option (List Char × List Char))
    (hself : MatcherSelf m)
    (hnil : m false [] = none)
    (hfix : ∀ (l v : List Char), reSearch m (pyNormL l) = some v → pyNormL v = v)
    (s : String) : pickFirstRegex m (pickFirstRegex m s) = pickFirstRegex m s := by
  cases hr : reSearch m (pyNorm s).data with
  | none =>
    have h1 : pickFirstRegex m s = "" := by
      unfold pickFirstRegex
      rw [hr]
    rw [h1, pickFirstRegex_empty m hnil]
  | some u =>
    have h1 : pickFirstRegex m s = ⟨u⟩ := by
      unfold pickFirstRegex
      rw [hr]
    have hr' : reSearch m (pyNormL s.data) = some u := hr
    have hfixu : pyNormL u = u := hfix s.data u hr'
    have h2 : reSearch m (pyNorm (⟨u⟩ : String)).data = some u := by
      show reSearch m (pyNormL u) = some u
      rw [hfixu]
      exact reSearch_self m hself _ u hr'
    rw [h1]
    unfold pickFirstRegex
    rw [h2]

theorem matchYear_nil : matchYear false [] = none := by decide

theorem matchDate_nil : matchDate false [] = none := by decide

theorem matchSeccion_nil : matchSeccion false [] = none := by decide

theorem matchClave_nil : matchClave false [] = none := by decide

theorem matchSexo_nil : matchSexo false [] = none := by decide

theorem matchCurp_nil : matchCurp false [] = none := by decide

theorem matchVig_nil : matchVig false [] = none := by decide

theorem pickFirstRegex_normFixed_of
    (m : Bool → List Char → Option (List Char × List Char))
    (hfix : ∀ (l v : List Char), reSearch m (pyNormL l) = some v → pyNormL v = v)
    (s : String) : pyNorm (pickFirstRegex m s) = pickFirstRegex m s := by
  cases hr : reSearch m (pyNorm s).data with
  | none =>
    have h1 : pickFirstRegex m s = "" := by
      unfold pickFirstRegex
      rw [hr]
    rw [h1]
    rfl
  | some u =>
    have h1 : pickFirstRegex m s = ⟨u⟩ := by
      unfold pickFirstRegex
      rw [hr]
    have hr' : reSearch m (pyNormL s.data) = some u := hr
    rw [h1]
    show (⟨pyNormL u⟩ : String) = ⟨u⟩
    rw [hfix s.data u hr']

theorem pickYear_idem (s : String) :
    pickFirstRegex matchYear (pickFirstRegex matchYear s) =
      pickFirstRegex matchYear s :=
  pickFirstRegex_idem_of matchYear matchYear_self matchYear_nil
    (fun l v h => reSearch_normFixed_of_wsFree matchYear matchYear_consumes
      matchYear_wsFree l v h) s

theorem pickDate_idem (s : String) :
    pickFirstRegex matchDate (pickFirstRegex matchDate s) =
      pickFirstRegex matchDate s :=
  pickFirstRegex_idem_of matchDate matchDate_self matchDate_nil
    (fun l v h => reSearch_normFixed_of_wsFree matchDate matchDate_consumes
      matchDate_wsFree l v h) s

theorem pickSeccion_idem (s : String) :
    pickFirstRegex matchSeccion (pickFirstRegex matchSeccion s) =
      pickFirstRegex matchSeccion s :=
  pickFirstRegex_idem_of matchSeccion matchSeccion_self matchSeccion_nil
    (fun l v h => reSearch_normFixed_of_wsFree matchSeccion matchSeccion_consumes
      matchSeccion_wsFree l v h) s

theorem pickClave_idem (s : String) :
    pickFirstRegex matchClave (pickFirstRegex matchClave s) =
      pickFirstRegex matchClave s :=
  pickFirstRegex_idem_of matchClave matchClave_self matchClave_nil
    (fun l v h => reSearch_normFixed_of_wsFree matchClave matchClave_consumes
      matchClave_wsFree l v h) s

theorem pickCurp_idem (s : String) :
    pickFirstRegex matchCurp (pickFirstRegex matchCurp s) =
      pickFirstRegex matchCurp s :=
  pickFirstRegex_idem_of matchCurp matchCurp_self matchCurp_nil
    (fun l v h => reSearch_normFixed_of_wsFree matchCurp matchCurp_consumes
      matchCurp_wsFree l v h) s

theorem pickVig_idem (s : String) :
    pickFirstRegex matchVig (pickFirstRegex matchVig s) =
      pickFirstRegex matchVig s :=
  pickFirstRegex_idem_of matchVig matchVig_self matchVig_nil
    (fun l v h => reSearch_vig_normFixed l v h) s

theorem pickYear_normFixed (s : String) :
    pyNorm (pickFirstRegex matchYear s) = pickFirstRegex matchYear s :=
  pickFirstRegex_normFixed_of matchYear
    (fun l v h => reSearch_normFixed_of_wsFree matchYear matchYear_consumes
      matchYear_wsFree l v h) s

theorem pickDate_normFixed (s : String) :
    pyNorm (pickFirstRegex matchDate s) = pickFirstRegex matchDate s :=
  pickFirstRegex_normFixed_of matchDate
    (fun l v h => reSearch_normFixed_of_wsFree matchDate matchDate_consumes
      matchDate_wsFree l v h) s

theorem pickSeccion_normFixed (s : String) :
    pyNorm (pickFirstRegex matchSeccion s) = pickFirstRegex matchSeccion s :=
  pickFirstRegex_normFixed_of matchSeccion
    (fun l v h => reSearch_normFixed_of_wsFree matchSeccion matchSeccion_consumes
      matchSeccion_wsFree l v h) s

theorem pickClave_normFixed (s : String) :
    pyNorm (pickFirstRegex matchClave s) = pickFirstRegex matchClave s :=
  pickFirstRegex_normFixed_of matchClave
    (fun l v h => reSearch_normFixed_of_wsFree matchClave matchClave_consumes
      matchClave_wsFree l v h) s

theorem pickCurp_normFixed (s : String) :
    pyNorm (pickFirstRegex matchCurp s) = pickFirstRegex matchCurp s :=
  pickFirstRegex_normFixed_of matchCurp
    (fun l v h => reSearch_normFixed_of_wsFree matchCurp matchCurp_consumes
      matchCurp_wsFree l v h) s

theorem pickVig_normFixed (s : String) :
    pyNorm (pickFirstRegex matchVig s) = pickFirstRegex matchVig s :=
  pickFirstRegex_normFixed_of matchVig
    (fun l v h => reSearch_vig_normFixed l v h) s

theorem headNonWs_iff (m : List Char) :
    headNonWs m = true ↔ ∀ c, m.head? = some c → isPyWs c = false := by
  cases m with
  | nil => simp [headNonWs]
  | cons a as =>
    unfold headNonWs
    constructor
    · intro h c hc
      cases hc
      simpa using h
    · intro h
      simpa using h a rfl

theorem lastNonWs_iff (m : List Char) :
    lastNonWs m = true ↔ ∀ c, m.getLast? = some c → isPyWs c = false := by
  unfold lastNonWs
  cases hg : m.getLast? with
  | none => simp
  | some a =>
    constructor
    · intro h c hc
      cases hc
      simpa using h
    · intro h
      simpa using h a rfl

theorem pyStripL_infix (z : List Char) :
    ∃ a b, z = a ++ (pyStripL z ++ b) := by
  refine ⟨z.takeWhile isPyWs,
    ((z.dropWhile isPyWs).reverse.takeWhile isPyWs).reverse, ?_⟩
  unfold pyStripL
  conv_lhs => rw [← List.takeWhile_append_dropWhile isPyWs z]
  congr 1
  conv_lhs => rw [← List.reverse_reverse (z.dropWhile isPyWs)]
  rw [← List.reverse_append]
  congr 1
  exact (List.takeWhile_append_dropWhile isPyWs _).symm

theorem dropWhile_head_neg (p : Char → Bool) (z : List Char)
    (h : ∀ c, z.head? = some c → p c = false) : z.dropWhile p = z := by
  cases z with
  | nil => rfl
  | cons c cs => rw [List.dropWhile_cons, if_neg (by simp [h c rfl])]

theorem pyStripL_fixed (z : List Char) (hh : headNonWs z = true)
    (hl : lastNonWs z = true) : pyStripL z = z := by
  unfold pyStripL
  have h1 : z.dropWhile isPyWs = z := by
    apply dropWhile_head_neg
    intro c hc
    cases z with
    | nil => cases hc
    | cons a as =>
      cases hc
      unfold headNonWs at hh
      simpa using hh
  rw [h1]
  have h2 : z.reverse.dropWhile isPyWs = z.reverse := by
    apply dropWhile_head_neg
    intro c hc
    rw [List.head?_reverse] at hc
    unfold lastNonWs at hl
    rw [hc] at hl
    simpa using hl
  rw [h2, List.reverse_reverse]

theorem pyStripL_head (z : List Char) : headNonWs (pyStripL z) = true := by
  rw [headNonWs_iff]
  intro c hc
  unfold pyStripL at hc
  rw [List.head?_reverse] at hc
  have hene : (z.dropWhile isPyWs).reverse.dropWhile isPyWs ≠ [] := by
    intro h0
    rw [h0] at hc
    cases hc
  have h1 : (z.dropWhile isPyWs).reverse =
      (z.dropWhile isPyWs).reverse.takeWhile isPyWs ++
        (z.dropWhile isPyWs).reverse.dropWhile isPyWs :=
    (List.takeWhile_append_dropWhile _ _).symm
  have h2 : ((z.dropWhile isPyWs).reverse.dropWhile isPyWs).getLast? =
      (z.dropWhile isPyWs).reverse.getLast? := by
    conv_rhs => rw [h1]
    rw [getLast?_append_right _ _ hene]
  rw [h2, List.getLast?_reverse] at hc
  cases hdc : z.dropWhile isPyWs with
  | nil => rw [hdc] at hc; cases hc
  | cons x xs =>
    rw [hdc] at hc
    cases hc
    exact dropWhile_head_false isPyWs z _ _ hdc

theorem pyStripL_last (z : List Char) : lastNonWs (pyStripL z) = true := by
  rw [lastNonWs_iff]
  intro c hc
  unfold pyStripL at hc
  rw [List.getLast?_reverse] at hc
  cases he : (z.dropWhile isPyWs).reverse.dropWhile isPyWs with
  | nil => rw [he] at hc; cases hc
  | cons x xs =>
    rw [he] at hc
    cases hc
    exact dropWhile_head_false isPyWs _ _ _ he

theorem pyStripL_mem (z : List Char) : ∀ c ∈ pyStripL z, c ∈ z := by
  obtain ⟨a, b, hab⟩ := pyStripL_infix z
  intro c hc
  rw [hab]
  exact List.mem_append_right a (List.mem_append_left b hc)

theorem pyStripL_noWsRun (z : List Char) (h : noWsRun z = true) :
    noWsRun (pyStripL z) = true := by
  obtain ⟨a, b, hab⟩ := pyStripL_infix z
  have h1 : noWsRun (pyStripL z ++ b) = true := by
    apply noWsRun_suffix a
    rw [← hab]
    exact h
  exact noWsRun_of_append_left _ b h1

theorem pyStripL_normFixed (z : List Char)
    (hascii : ∀ c ∈ z, c.toNat < 128)
    (hup : ∀ c ∈ z, pyUpperChar c = c)
    (hsp : ∀ c ∈ z, isPyWs c = true → c = ' ')
    (hnr : noWsRun z = true) :
    pyNormL (pyStripL z) = pyStripL z := by
  apply pyNormL_fixed_of
  · intro c hc
    exact hascii c (pyStripL_mem z c hc)
  · intro c hc
    exact hup c (pyStripL_mem z c hc)
  · unfold isCollapsedL
    rw [Bool.and_eq_true, Bool.and_eq_true, Bool.and_eq_true]
    refine ⟨⟨⟨pyStripL_head z, pyStripL_last z⟩, pyStripL_noWsRun z hnr⟩, ?_⟩
    unfold wsOnlySpace
    rw [List.all_eq_true]
    intro c hc
    by_cases hw : isPyWs c = true
    · simp [hsp c (pyStripL_mem z c hc) hw]
    · rw [Bool.not_eq_true] at hw
      simp [hw]

theorem pyStripL_drop_normFixed (y : List Char) (n : Nat) :
    pyNormL (pyStripL ((pyNormL y).drop n)) = pyStripL ((pyNormL y).drop n) := by
  apply pyStripL_normFixed
  · intro c hc
    exact pyNormL_ascii y c (List.mem_of_mem_drop hc)
  · intro c hc
    exact pyNormL_upperFixed y c (List.mem_of_mem_drop hc)
  · intro c hc hw
    exact pyNormL_ws_space y c (List.mem_of_mem_drop hc) hw
  · obtain ⟨w, hw⟩ : (pyNormL y).drop n <:+ pyNormL y := List.drop_suffix n _
    exact noWsRun_suffix w _ (by rw [hw]; exact noWsRun_pyNormL y)

theorem pyStripL_dropWhileNorm_normFixed (y : List Char) (p : Char → Bool) :
    pyNormL (pyStripL ((pyNormL y).dropWhile p)) =
      pyStripL ((pyNormL y).dropWhile p) := by
  have hsuf : (pyNormL y).dropWhile p <:+ pyNormL y :=
    ⟨(pyNormL y).takeWhile p, List.takeWhile_append_dropWhile p _⟩
  obtain ⟨w, hw⟩ := hsuf
  have hmem : ∀ c ∈ (pyNormL y).dropWhile p, c ∈ pyNormL y := by
    intro c hc
    rw [← hw]
    exact List.mem_append_right w hc
  apply pyStripL_normFixed
  · intro c hc
    exact pyNormL_ascii y c (hmem c hc)
  · intro c hc
    exact pyNormL_upperFixed y c (hmem c hc)
  · intro c hc hws
    exact pyNormL_ws_space y c (hmem c hc) hws
  · exact noWsRun_suffix w _ (by rw [hw]; exact noWsRun_pyNormL y)

theorem isUpperAZ_lt128 (c : Char) (h : isUpperAZ c = true) : c.toNat < 128 := by
  unfold isUpperAZ at h
  simp only [Bool.and_eq_true, decide_eq_true_eq] at h
  omega

theorem pyUpperChar_fixed_notLower (c : Char) (h : c.toNat < 97 ∨ 122 < c.toNat) :
    pyUpperChar c = c := by
  unfold pyUpperChar
  rw [if_neg]
  simp only [Bool.and_eq_true, decide_eq_true_eq, not_and]
  intro h1
  omega

theorem pyUpperChar_fixed_upper (c : Char) (h : isUpperAZ c = true) :
    pyUpperChar c = c := by
  unfold isUpperAZ at h
  simp only [Bool.and_eq_true, decide_eq_true_eq] at h
  exact pyUpperChar_fixed_notLower c (Or.inl (by omega))

theorem pyUpperChar_fixed_az09 (c : Char) (h : isAZ09 c = true) :
    pyUpperChar c = c := by
  unfold isAZ09 at h
  rcases Bool.or_eq_true _ _ ▸ h with h1 | h1
  · exact pyUpperChar_fixed_upper c h1
  · unfold isDigitC at h1
    simp only [Bool.and_eq_true, decide_eq_true_eq] at h1
    exact pyUpperChar_fixed_notLower c (Or.inl (by omega))

theorem isAZ09_lt128 (c : Char) (h : isAZ09 c = true) : c.toNat < 128 := by
  unfold isAZ09 at h
  rcases Bool.or_eq_true _ _ ▸ h with h1 | h1
  · exact isUpperAZ_lt128 c h1
  · unfold isDigitC at h1
    simp only [Bool.and_eq_true, decide_eq_true_eq] at h1
    omega

theorem sub2A_noWsRun (l : List Char) (h : noWsRun l = true) : sub2A l = l := by
  generalize hn : l.length = n
  induction n using Nat.strong_induction_on generalizing l with
  | _ n ih =>
    cases l with
    | nil => rfl
    | cons c cs =>
      by_cases hc : isPyWs c
      · cases cs with
        | nil =>
          unfold sub2A
          rw [if_pos hc]
        | cons d ds =>
          have hd : isPyWs d = false := by
            rw [noWsRun_cons_cons, Bool.and_eq_true] at h
            have h1 := h.1
            simp only [Bool.not_eq_true', Bool.and_eq_false_iff] at h1
            rcases h1 with h1 | h1
            · rw [hc] at h1; cases h1
            · exact h1
          unfold sub2A
          rw [if_pos hc]
          dsimp only
          rw [if_neg (by simp [hd])]
          have hds : sub2A ds = ds := by
            refine ih ds.length ?_ ds ?_ rfl
            · rw [← hn, List.length_cons, List.length_cons]
              omega
            · exact noWsRun_tail d ds (noWsRun_tail c (d :: ds) h)
          rw [hds]
      · unfold sub2A
        rw [if_neg hc]
        have hcs : sub2A cs = cs := by
          refine ih cs.length ?_ cs (noWsRun_tail c cs h) rfl
          rw [← hn, List.length_cons]
          omega
        rw [hcs]

theorem stripAnyLabel_normFixed (v : String) (ps : List String) :
    pyNorm (stripAnyLabel v ps) = stripAnyLabel v ps := by
  unfold stripAnyLabel
  dsimp only
  cases hf : ps.find?
      (fun p => (pyNorm p).data.isPrefixOf (pyNorm v).data) with
  | none =>
    show (⟨pyNormL (pyNorm v).data⟩ : String) = ⟨(pyNorm v).data⟩
    rw [show (pyNorm v).data = pyNormL v.data from rfl, pyNormL_idem]
  | some p =>
    show (⟨pyNormL (pyStripL ((pyNorm v).data.drop (pyNorm p).data.length))⟩ :
      String) = ⟨pyStripL ((pyNorm v).data.drop (pyNorm p).data.length)⟩
    rw [show (pyNorm v).data = pyNormL v.data from rfl, pyStripL_drop_normFixed]

theorem stripAnyLabel_noresidual (w : String) (ps : List String)
    (hfix : pyNorm w = w)
    (hf : ps.find? (fun p => (pyNorm p).data.isPrefixOf (pyNorm w).data) = none) :
    stripAnyLabel w ps = w := by
  unfold stripAnyLabel
  dsimp only
  rw [hf]
  show (⟨(pyNorm w).data⟩ : String) = w
  rw [hfix]

theorem oLS_chars (s : String) :
    ∀ c ∈ (onlyLettersSpaces s).data, isUpperAZ c = true ∨ c = ' ' := by
  intro c hc
  have hc' : c ∈ collapseWs ((pyNorm s).data.map
      (fun c => if isUpperAZ c || c = ' ' then c else ' ')) := hc
  rcases collapseWs_chars _ c hc' with h | h
  · rcases List.mem_map.mp h with ⟨d, _, heq⟩
    by_cases hd : (isUpperAZ d || d = ' ') = true
    · rw [if_pos hd] at heq
      subst heq
      rcases Bool.or_eq_true _ _ ▸ hd with h1 | h1
      · exact Or.inl h1
      · exact Or.inr (by simpa using h1)
    · rw [if_neg hd] at heq
      exact Or.inr heq.symm
  · exact Or.inr h

theorem oLS_sub_fixed (s : String) :
    (onlyLettersSpaces s).data.map
      (fun c => if isUpperAZ c || c = ' ' then c else ' ') =
      (onlyLettersSpaces s).data := by
  apply map_eq_self_of_fixed
  intro c hc
  rcases oLS_chars s c hc with h | h
  · rw [if_pos (by simp [h])]
  · rw [if_pos (by simp [h])]

theorem oLS_normFixed (s : String) :
    pyNorm (onlyLettersSpaces s) = onlyLettersSpaces s := by
  have hch := oLS_chars s
  have hascii : ∀ c ∈ (onlyLettersSpaces s).data, c.toNat < 128 := by
    intro c hc
    rcases hch c hc with h | h
    · exact isUpperAZ_lt128 c h
    · subst h; decide
  have hup : ∀ c ∈ (onlyLettersSpaces s).data, pyUpperChar c = c := by
    intro c hc
    rcases hch c hc with h | h
    · exact pyUpperChar_fixed_upper c h
    · subst h; decide
  have h1 : pyNormL (onlyLettersSpaces s).data = (onlyLettersSpaces s).data := by
    show collapseWs ((unidecodeL (onlyLettersSpaces s).data).map pyUpperChar) =
      (onlyLettersSpaces s).data
    rw [unidecodeL_ascii_fixed _ hascii, map_eq_self_of_fixed _ hup]
    show collapseWs (collapseWs ((pyNorm s).data.map
      (fun c => if isUpperAZ c || c = ' ' then c else ' '))) = _
    rw [collapseWs_idem]
    rfl
  show (⟨pyNormL (onlyLettersSpaces s).data⟩ : String) = onlyLettersSpaces s
  rw [h1]

theorem oLS_idem (s : String) :
    onlyLettersSpaces (onlyLettersSpaces s) = onlyLettersSpaces s := by
  have h1 : onlyLettersSpaces (onlyLettersSpaces s) =
      ⟨collapseWs ((pyNorm (onlyLettersSpaces s)).data.map
        (fun c => if isUpperAZ c || c = ' ' then c else ' '))⟩ := rfl
  rw [h1, oLS_normFixed s, oLS_sub_fixed s]
  show (⟨collapseWs (collapseWs ((pyNorm s).data.map
    (fun c => if isUpperAZ c || c = ' ' then c else ' ')))⟩ : String) =
    onlyLettersSpaces s
  rw [collapseWs_idem]
  rfl

set_option maxHeartbeats 2000000 in
theorem states_facts : ∀ e ∈ ESTADOS,
    pickFirstStateInText e = e ∧ pyNorm e = e ∧ e ≠ "" := by decide

theorem pyNorm_idemS (s : String) : pyNorm (pyNorm s) = pyNorm s := by
  show (⟨pyNormL (pyNorm s).data⟩ : String) = pyNorm s
  rw [show (pyNorm s).data = pyNormL s.data from rfl, pyNormL_idem]
  rfl

theorem oLS_norm (s : String) :
    onlyLettersSpaces (pyNorm s) = onlyLettersSpaces s := by
  have h1 : onlyLettersSpaces (pyNorm s) =
      ⟨collapseWs ((pyNorm (pyNorm s)).data.map
        (fun c => if isUpperAZ c || c = ' ' then c else ' '))⟩ := rfl
  rw [h1, pyNorm_idemS]
  rfl

theorem pickState_norm (s : String) :
    pickFirstStateInText (pyNorm s) = pickFirstStateInText s := by
  unfold pickFirstStateInText
  rw [oLS_norm]

theorem pickState_oLS (s : String) :
    pickFirstStateInText (onlyLettersSpaces s) = pickFirstStateInText s := by
  unfold pickFirstStateInText
  rw [oLS_idem]

theorem pickState_mem (s : String) :
    pickFirstStateInText s = "" ∨ pickFirstStateInText s ∈ ESTADOS := by
  unfold pickFirstStateInText
  dsimp only
  cases hf : ((windows 3 (pyWordsL (onlyLettersSpaces s).data) ++
      windows 2 (pyWordsL (onlyLettersSpaces s).data) ++
      windows 1 (pyWordsL (onlyLettersSpaces s).data)).map
      (fun w => joinWords w)).find? (fun c => ESTADOS.contains ⟨c⟩) with
  | none => exact Or.inl rfl
  | some c =>
    right
    have h1 := List.find?_some hf
    exact List.mem_of_elem_eq_true (by simpa using h1)

theorem matchClave_prevW (s : List Char) : matchClave true s = none := by
  unfold matchClave
  rw [if_pos rfl]

theorem matchClave_allAlnum (l : List Char) (hall : ∀ c ∈ l, isAZ09 c = true) :
    matchClave false l =
      if 8 ≤ l.length && l.length ≤ 20 then some (l, []) else none := by
  unfold matchClave
  rw [if_neg (by simp)]
  dsimp only
  rw [takeWhile_of_all isAZ09 l hall, List.drop_length]
  have hcond : (8 ≤ l.length && l.length ≤ 20 &&
      boundaryOkAfter ([] : List Char)) = (8 ≤ l.length && l.length ≤ 20) := by
    rw [show boundaryOkAfter ([] : List Char) = true from rfl, Bool.and_true]
  rw [hcond]

theorem reSearchAux_clave_alnum (l : List Char)
    (hall : ∀ c ∈ l, isAZ09 c = true) :
    reSearchAux matchClave true l = none := by
  induction l with
  | nil =>
    show (matchClave true []).map Prod.fst = none
    rw [matchClave_prevW]
    rfl
  | cons c cs ih =>
    unfold reSearchAux
    rw [matchClave_prevW]
    dsimp only
    rw [show isWordChar c = true from isAZ09_word c (hall c (by simp))]
    exact ih (fun d hd => hall d (by simp [hd]))

theorem reSearch_clave_allAlnum (l : List Char)
    (hall : ∀ c ∈ l, isAZ09 c = true) :
    reSearch matchClave l =
      if 8 ≤ l.length && l.length ≤ 20 then some l else none := by
  cases l with
  | nil =>
    rw [reSearch_nil, matchClave_nil]
    rfl
  | cons c cs =>
    show reSearchAux matchClave false (c :: cs) = _
    unfold reSearchAux
    rw [matchClave_allAlnum _ hall]
    by_cases hlen : (8 ≤ (c :: cs).length && (c :: cs).length ≤ 20) = true
    · rw [if_pos hlen, if_pos hlen]
    · rw [if_neg hlen, if_neg hlen]
      dsimp only
      rw [show isWordChar c = true from isAZ09_word c (hall c (by simp))]
      exact reSearchAux_clave_alnum cs (fun d hd => hall d (by simp [hd]))

theorem pyNorm_allAz09_fixed (u : List Char) (hall : ∀ c ∈ u, isAZ09 c = true) :
    pyNormL u = u := by
  apply pyNormL_fixed_of
  · intro c hc
    exact isAZ09_lt128 c (hall c hc)
  · intro c hc
    exact pyUpperChar_fixed_az09 c (hall c hc)
  · exact isCollapsedL_wsFree u (fun c hc => isAZ09_not_ws c (hall c hc))

theorem ineClaveClean_out1 (x : String) (h : ¬ pickFirstRegexAny matchClave x = "") :
    ineClaveClean x = pickFirstRegexAny matchClave x := by
  unfold ineClaveClean
  dsimp only
  rw [if_pos h]

theorem ineClaveClean_out2 (x : String) (h : pickFirstRegexAny matchClave x = "") :
    ineClaveClean x = ⟨(pyNorm x).data.filter isAZ09⟩ := by
  unfold ineClaveClean
  dsimp only
  rw [if_neg (by simp [h])]

theorem ineClaveClean_self (x : String) :
    ineClaveClean (ineClaveClean x) = ineClaveClean x := by
  by_cases h1 : pickFirstRegexAny matchClave x = ""
  · rw [ineClaveClean_out2 x h1]
    have hall : ∀ c ∈ ((pyNorm x).data.filter isAZ09), isAZ09 c = true :=
      fun c hc => (List.mem_filter.mp hc).2
    have hnf : pyNormL ((pyNorm x).data.filter isAZ09) =
        (pyNorm x).data.filter isAZ09 := pyNorm_allAz09_fixed _ hall
    have hsearch : reSearch matchClave
        (pyNorm (⟨(pyNorm x).data.filter isAZ09⟩ : String)).data =
        (if 8 ≤ ((pyNorm x).data.filter isAZ09).length &&
            ((pyNorm x).data.filter isAZ09).length ≤ 20
         then some ((pyNorm x).data.filter isAZ09) else none) := by
      show reSearch matchClave (pyNormL ((pyNorm x).data.filter isAZ09)) = _
      rw [hnf]
      exact reSearch_clave_allAlnum _ hall
    by_cases hlen : (8 ≤ ((pyNorm x).data.filter isAZ09).length &&
        ((pyNorm x).data.filter isAZ09).length ≤ 20) = true
    · have hpick : pickFirstRegexAny matchClave
          (⟨(pyNorm x).data.filter isAZ09⟩ : String) =
          ⟨(pyNorm x).data.filter isAZ09⟩ := by
        rw [pickFirstRegexAny_eq]
        unfold pickFirstRegex
        rw [hsearch, if_pos hlen]
      have hne : (⟨(pyNorm x).data.filter isAZ09⟩ : String) ≠ "" := by
        intro h0
        have h0' : (pyNorm x).data.filter isAZ09 = [] := congrArg String.data h0
        rw [h0'] at hlen
        simp at hlen
      rw [ineClaveClean_out1 _ (by rw [hpick]; exact hne)]
      exact hpick
    · have hpick : pickFirstRegexAny matchClave
          (⟨(pyNorm x).data.filter isAZ09⟩ : String) = "" := by
        rw [pickFirstRegexAny_eq]
        unfold pickFirstRegex
        rw [hsearch, if_neg hlen]
      rw [ineClaveClean_out2 _ hpick]
      show (⟨(pyNormL ((pyNorm x).data.filter isAZ09)).filter isAZ09⟩ : String) = _
      rw [hnf, List.filter_eq_self.mpr hall]
  · rw [ineClaveClean_out1 x h1]
    have hidem : pickFirstRegexAny matchClave (pickFirstRegexAny matchClave x) =
        pickFirstRegexAny matchClave x := by
      rw [pickFirstRegexAny_eq, pickFirstRegexAny_eq]
      exact pickClave_idem x
    rw [ineClaveClean_out1 _ (by rw [hidem]; exact h1)]
    exact hidem

theorem ineClaveClean_normFixed (x : String) :
    pyNorm (ineClaveClean x) = ineClaveClean x := by
  by_cases h1 : pickFirstRegexAny matchClave x = ""
  · rw [ineClaveClean_out2 x h1]
    show (⟨pyNormL ((pyNorm x).data.filter isAZ09)⟩ : String) = _
    rw [pyNorm_allAz09_fixed _ (fun c hc => (List.mem_filter.mp hc).2)]
  · rw [ineClaveClean_out1 x h1, pickFirstRegexAny_eq]
    exact pickClave_normFixed x

theorem ineClaveClean_empty : ineClaveClean "" = "" := by decide

theorem cleanAddr_dropWhile_noWsRun (x : String) :
    noWsRun ((pyNorm x).data.dropWhile (fun c => !isAZ09 c)) = true := by
  have hsuf : (pyNorm x).data.dropWhile (fun c => !isAZ09 c) <:+ (pyNorm x).data :=
    ⟨(pyNorm x).data.takeWhile (fun c => !isAZ09 c),
      List.takeWhile_append_dropWhile _ _⟩
  obtain ⟨w, hw⟩ := hsuf
  apply noWsRun_suffix w
  rw [hw]
  show noWsRun (pyNormL x.data) = true
  exact noWsRun_pyNormL x.data

theorem cleanAddressLine_out (x : String) :
    cleanAddressLine x =
      ⟨pyStripL ((pyNorm x).data.dropWhile (fun c => !isAZ09 c))⟩ := by
  unfold cleanAddressLine
  rw [sub2A_noWsRun _ (cleanAddr_dropWhile_noWsRun x)]

theorem cleanAddressLine_normFixed (x : String) :
    pyNorm (cleanAddressLine x) = cleanAddressLine x := by
  rw [cleanAddressLine_out]
  show (⟨pyNormL (pyStripL ((pyNorm x).data.dropWhile (fun c => !isAZ09 c)))⟩ :
    String) = _
  rw [show (pyNorm x).data = pyNormL x.data from rfl,
    pyStripL_dropWhileNorm_normFixed]

theorem cleanAddressLine_self (x : String) :
    cleanAddressLine (cleanAddressLine x) = cleanAddressLine x := by
  rw [cleanAddressLine_out x]
  have hS := cleanAddr_dropWhile_noWsRun x
  have hstrip : pyStripL ((pyNorm x).data.dropWhile (fun c => !isAZ09 c)) =
      pyStripL (pyStripL ((pyNorm x).data.dropWhile (fun c => !isAZ09 c))) :=
    (pyStripL_fixed _ (pyStripL_head _) (pyStripL_last _)).symm
  have hdata : (pyNorm (⟨pyStripL ((pyNorm x).data.dropWhile
      (fun c => !isAZ09 c))⟩ : String)).data =
      pyStripL ((pyNorm x).data.dropWhile (fun c => !isAZ09 c)) := by
    have := cleanAddressLine_normFixed x
    rw [cleanAddressLine_out x] at this
    exact congrArg String.data this
  have hhead : (pyStripL ((pyNorm x).data.dropWhile
      (fun c => !isAZ09 c))).dropWhile (fun c => !isAZ09 c) =
      pyStripL ((pyNorm x).data.dropWhile (fun c => !isAZ09 c)) := by
    apply dropWhile_head_neg
    intro c hc
    obtain ⟨b, hb⟩ : ∃ b, (pyNorm x).data.dropWhile (fun c => !isAZ09 c) =
        pyStripL ((pyNorm x).data.dropWhile (fun c => !isAZ09 c)) ++ b := by
      have hh : (pyNorm x).data.dropWhile
          (fun c => !isAZ09 c) = [] ∨
          ∃ d ds, (pyNorm x).data.dropWhile (fun c => !isAZ09 c) = d :: ds ∧
            isAZ09 d = true := by
        cases hdc : (pyNorm x).data.dropWhile (fun c => !isAZ09 c) with
        | nil => exact Or.inl rfl
        | cons d ds =>
          have := dropWhile_head_false (fun c => !isAZ09 c) _ d ds hdc
          exact Or.inr ⟨d, ds, rfl, by simpa using this⟩
      rcases hh with hnil | ⟨d, ds, hde, hd⟩
      · rw [hnil]
        exact ⟨[], by rw [show pyStripL [] = ([] : List Char) from rfl]; rfl⟩
      · have hhd : headNonWs ((pyNorm x).data.dropWhile (fun c => !isAZ09 c))
            = true := by
          rw [hde]
          show (!isPyWs d) = true
          simp [isAZ09_not_ws d hd]
        have h1 : ((pyNorm x).data.dropWhile (fun c => !isAZ09 c)).dropWhile
            isPyWs = (pyNorm x).data.dropWhile (fun c => !isAZ09 c) := by
          apply dropWhile_head_neg
          intro e he
          rw [hde] at he
          cases he
          exact isAZ09_not_ws _ hd
        unfold pyStripL
        rw [h1]
        refine ⟨(((pyNorm x).data.dropWhile
          (fun c => !isAZ09 c)).reverse.takeWhile isPyWs).reverse, ?_⟩
        conv_lhs => rw [← List.reverse_reverse ((pyNorm x).data.dropWhile
          (fun c => !isAZ09 c))]
        rw [← List.reverse_append]
        congr 1
        exact (List.takeWhile_append_dropWhile isPyWs _).symm
    cases hsc : pyStripL ((pyNorm x).data.dropWhile (fun c => !isAZ09 c)) with
    | nil => rw [hsc] at hc; cases hc
    | cons y ys =>
      rw [hsc] at hc
      cases hc
      rw [hsc] at hb
      have hd2 := dropWhile_head_false (fun c => !isAZ09 c) (pyNorm x).data _ _
        (by rw [hb]; rfl)
      simpa using hd2
  show (⟨pyStripL (sub2A ((pyNorm (⟨pyStripL ((pyNorm x).data.dropWhile
    (fun c => !isAZ09 c))⟩ : String)).data.dropWhile (fun c => !isAZ09 c)))⟩ :
    String) = _
  rw [hdata, hhead]
  rw [sub2A_noWsRun _ (pyStripL_noWsRun _ hS)]
  rw [← hstrip]

theorem cleanIneSexo_lit (s : String) :
    cleanIneSexo s = "" ∨ cleanIneSexo s = "M" ∨ cleanIneSexo s = "H" := by
  unfold cleanIneSexo
  split
  · exact Or.inl rfl
  · split
    · exact Or.inr (Or.inl rfl)
    · exact Or.inr (Or.inr rfl)

theorem cleanIneSexo_fixed_lit :
    cleanIneSexo "" = "" ∧ cleanIneSexo "M" = "M" ∧ cleanIneSexo "H" = "H" := by
  decide

theorem cleanIneSexo_idem (s : String) :
    cleanIneSexo (cleanIneSexo s) = cleanIneSexo s := by
  rcases cleanIneSexo_lit s with h | h | h
  · rw [h]
    exact cleanIneSexo_fixed_lit.1
  · rw [h]
    exact cleanIneSexo_fixed_lit.2.1
  · rw [h]
    exact cleanIneSexo_fixed_lit.2.2

theorem actaSexoClean_lit (s : String) :
    actaSexoClean s = "" ∨ actaSexoClean s = "M" ∨ actaSexoClean s = "H" := by
  unfold actaSexoClean
  dsimp only
  split
  · exact Or.inr (Or.inl rfl)
  · by_cases hv : pickFirstRegexAny matchSexo s ≠ ""
    · rw [if_pos hv]
      exact Or.inr (Or.inr rfl)
    · rw [if_neg hv]
      exact Or.inl rfl

theorem actaSexoClean_fixed_lit :
    actaSexoClean "" = "" ∧ actaSexoClean "M" = "M" ∧ actaSexoClean "H" = "H" := by
  decide

theorem actaSexoClean_idem (s : String) :
    actaSexoClean (actaSexoClean s) = actaSexoClean s := by
  rcases actaSexoClean_lit s with h | h | h
  · rw [h]
    exact actaSexoClean_fixed_lit.1
  · rw [h]
    exact actaSexoClean_fixed_lit.2.1
  · rw [h]
    exact actaSexoClean_fixed_lit.2.2

theorem actaSexoClean_normFixed (s : String) :
    pyNorm (actaSexoClean s) = actaSexoClean s := by
  rcases actaSexoClean_lit s with h | h | h <;> rw [h] <;> decide

theorem stripThen_empty (ps : List String) (g : String → String) :
    stripThen ps g "" = g "" := by
  unfold stripThen
  rw [if_neg (by simp)]

theorem stripThen_ne (ps : List String) (g : String → String) (w : String)
    (hne : w ≠ "") : stripThen ps g w = g (stripAnyLabel w ps) := by
  unfold stripThen
  rw [if_pos hne]

theorem stripThen_comp (ps : List String) (g : String → String) :
    (g ∘ fun v => if v ≠ "" then stripAnyLabel v ps else v) =
      stripThen ps g := rfl

theorem stripThen_idem (ps : List String) (g : String → String)
    (hg0 : g "" = "")
    (hgfix : ∀ x, pyNorm x = x → pyNorm (g x) = g x)
    (hgid : ∀ x, pyNorm x = x → g (g x) = g x)
    (v : String)
    (hres : ps.find? (fun p => (pyNorm p).data.isPrefixOf
        (pyNorm (stripThen ps g v)).data) = none) :
    stripThen ps g (stripThen ps g v) = stripThen ps g v := by
  by_cases hv : v = ""
  · have h0 : stripThen ps g "" = "" := by rw [stripThen_empty, hg0]
    rw [hv, h0, h0]
  · have hw := stripThen_ne ps g v hv
    have hinner := stripAnyLabel_normFixed v ps
    have hwfix : pyNorm (stripThen ps g v) = stripThen ps g v := by
      rw [hw]
      exact hgfix _ hinner
    by_cases hwe : stripThen ps g v = ""
    · have h0 : stripThen ps g "" = "" := by rw [stripThen_empty, hg0]
      rw [hwe, h0]
    · rw [stripThen_ne ps g _ hwe, stripAnyLabel_noresidual _ ps hwfix hres, hw]
      exact hgid _ hinner

theorem curpNombre_idem (v : String)
    (hres : (labelPrefixes "curp" "nombre").find?
      (fun p => (pyNorm p).data.isPrefixOf
        (pyNorm (onlyLettersSpaces (stripAnyLabel v
          (labelPrefixes "curp" "nombre")))).data) = none) :
    onlyLettersSpaces (stripAnyLabel
      (onlyLettersSpaces (stripAnyLabel v (labelPrefixes "curp" "nombre")))
      (labelPrefixes "curp" "nombre")) =
    onlyLettersSpaces (stripAnyLabel v (labelPrefixes "curp" "nombre")) := by
  rw [stripAnyLabel_noresidual _ _ (oLS_normFixed _) hres]
  exact oLS_idem _

theorem curpEntidad_out (v : String) :
    curpEntidadClean v =
      (if pickFirstStateInText (stripAnyLabel v
          (labelPrefixes "curp" "entidad_registro")) ≠ ""
       then pickFirstStateInText (stripAnyLabel v
          (labelPrefixes "curp" "entidad_registro"))
       else onlyLettersSpaces (stripAnyLabel v
          (labelPrefixes "curp" "entidad_registro"))) := rfl

theorem curpEntidad_idem (v : String)
    (hres : (labelPrefixes "curp" "entidad_registro").find?
      (fun p => (pyNorm p).data.isPrefixOf
        (pyNorm (curpEntidadClean v)).data) = none) :
    curpEntidadClean (curpEntidadClean v) = curpEntidadClean v := by
  by_cases hst : pickFirstStateInText (stripAnyLabel v
      (labelPrefixes "curp" "entidad_registro")) = ""
  · have hw : curpEntidadClean v = onlyLettersSpaces (stripAnyLabel v
        (labelPrefixes "curp" "entidad_registro")) := by
      rw [curpEntidad_out, if_neg (by simp [hst])]
    have hwfix : pyNorm (curpEntidadClean v) = curpEntidadClean v := by
      rw [hw]
      exact oLS_normFixed _
    rw [curpEntidad_out (curpEntidadClean v),
        stripAnyLabel_noresidual _ _ hwfix hres, hw, pickState_oLS]
    rw [if_neg (by simp [hst]), oLS_idem]
  · have hw : curpEntidadClean v = pickFirstStateInText (stripAnyLabel v
        (labelPrefixes "curp" "entidad_registro")) := by
      rw [curpEntidad_out, if_pos hst]
    have hmem : curpEntidadClean v ∈ ESTADOS := by
      rcases pickState_mem (stripAnyLabel v
          (labelPrefixes "curp" "entidad_registro")) with h | h
      · exact absurd h hst
      · rw [hw]
        exact h
    have hfacts := states_facts _ hmem
    rw [curpEntidad_out (curpEntidadClean v),
        stripAnyLabel_noresidual _ _ hfacts.2.1 hres, hfacts.1]
    rw [if_pos hfacts.2.2]

theorem actaEntidad_out (v : String) :
    actaEntidadClean v =
      (if pickFirstStateInText v ≠ "" then pickFirstStateInText v else v) := rfl

theorem actaEntidad_empty : actaEntidadClean "" = "" := by decide

theorem actaEntidad_normFixed (x : String) (hx : pyNorm x = x) :
    pyNorm (actaEntidadClean x) = actaEntidadClean x := by
  by_cases hst : pickFirstStateInText x = ""
  · rw [actaEntidad_out, if_neg (by simp [hst])]
    exact hx
  · rw [actaEntidad_out, if_pos hst]
    rcases pickState_mem x with h | h
    · exact absurd h hst
    · exact (states_facts _ h).2.1

theorem actaEntidad_idem (x : String) :
    actaEntidadClean (actaEntidadClean x) = actaEntidadClean x := by
  by_cases hst : pickFirstStateInText x = ""
  · have hw : actaEntidadClean x = x := by
      rw [actaEntidad_out, if_neg (by simp [hst])]
    rw [hw, hw]
  · have hw : actaEntidadClean x = pickFirstStateInText x := by
      rw [actaEntidad_out, if_pos hst]
    have hmem : actaEntidadClean x ∈ ESTADOS := by
      rcases pickState_mem x with h | h
      · exact absurd h hst
      · rw [hw]
        exact h
    have hfacts := states_facts _ hmem
    rw [actaEntidad_out (actaEntidadClean x), hfacts.1, if_pos hfacts.2.2]

theorem dset_keys (m : FieldMap) (k v : String) (h : (dget m k).isSome = true) :
    (dset m k v).map Prod.fst = m.map Prod.fst := by
  induction m with
  | nil => simp [dget] at h
  | cons p rest ih =>
    by_cases hp : p.1 = k
    · simp [dset, hp]
    · have h' : (dget rest k).isSome = true := by
        unfold dget at h
        rw [if_neg hp] at h
        exact h
      simp [dset, hp, ih h']

theorem updIfPresent_keys (m : FieldMap) (k : String) (f : String → String) :
    (updIfPresent m k f).map Prod.fst = m.map Prod.fst := by
  unfold updIfPresent
  cases hg : dget m k with
  | none => rfl
  | some v => exact dset_keys m k (f v) (by rw [hg]; rfl)

theorem updIfTruthy_keys (m : FieldMap) (k : String) (f : String → String) :
    (updIfTruthy m k f).map Prod.fst = m.map Prod.fst := by
  unfold updIfTruthy
  cases hg : dget m k with
  | none => rfl
  | some v =>
    dsimp only
    by_cases hv : v ≠ ""
    · rw [if_pos hv]
      exact dset_keys m k (f v) (by rw [hg]; rfl)
    · rw [if_neg hv]

theorem dget_updIfPresent (m : FieldMap) (k' k : String) (f : String → String) :
    dget (updIfPresent m k f) k' =
      if k' = k then (dget m k').map f else dget m k' := by
  unfold updIfPresent
  cases hg : dget m k with
  | none =>
    dsimp only
    by_cases h : k' = k
    · subst h
      rw [if_pos rfl, hg]
      rfl
    · rw [if_neg h]
  | some v =>
    dsimp only
    by_cases h : k' = k
    · subst h
      rw [if_pos rfl, hg, dget_dset_self]
      rfl
    · rw [if_neg h]
      exact dget_dset_ne m k k' (f v) h

theorem dget_updIfTruthy (m : FieldMap) (k' k : String) (f : String → String) :
    dget (updIfTruthy m k f) k' =
      if k' = k then (dget m k').map (fun v => if v ≠ "" then f v else v)
      else dget m k' := by
  unfold updIfTruthy
  cases hg : dget m k with
  | none =>
    dsimp only
    by_cases h : k' = k
    · subst h
      rw [if_pos rfl, hg]
      rfl
    · rw [if_neg h]
  | some v =>
    dsimp only
    by_cases h : k' = k
    · subst h
      rw [if_pos rfl, hg]
      by_cases hv : v ≠ ""
      · rw [if_pos hv, dget_dset_self]
        show _ = some (if v ≠ "" then f v else v)
        rw [if_pos hv]
      · rw [if_neg hv]
        show dget m k' = some (if v ≠ "" then f v else v)
        rw [if_neg hv]
        exact hg
    · rw [if_neg h]
      by_cases hv : v ≠ ""
      · rw [if_pos hv]
        exact dget_dset_ne m k k' (f v) h
      · rw [if_neg hv]

theorem dget_foldl_truthy (F : String → String → String) (ks : List String)
    (hnd : ks.Nodup) :
    ∀ (m : FieldMap) (k' : String),
      dget (ks.foldl (fun m k => updIfTruthy m k (F k)) m) k' =
        if k' ∈ ks then (dget m k').map (fun v => if v ≠ "" then F k' v else v)
        else dget m k' := by
  induction ks with
  | nil =>
    intro m k'
    rw [if_neg (by simp)]
    rfl
  | cons k ks ih =>
    intro m k'
    rw [List.nodup_cons] at hnd
    rw [List.foldl_cons]
    rw [ih hnd.2 (updIfTruthy m k (F k)) k']
    by_cases hmem : k' ∈ ks
    · rw [if_pos hmem, if_pos (by simp [hmem])]
      have hne : k' ≠ k := fun h0 => hnd.1 (h0 ▸ hmem)
      rw [dget_updIfTruthy]
      rw [if_neg hne]
    · rw [if_neg hmem]
      by_cases hk : k' = k
      · subst hk
        rw [if_pos (by simp)]
        rw [dget_updIfTruthy, if_pos rfl]
      · rw [if_neg (by simp [hk, hmem])]
        rw [dget_updIfTruthy, if_neg hk]

theorem foldl_truthy_keys (F : String → String → String) (ks : List String) :
    ∀ (m : FieldMap),
      ((ks.foldl (fun m k => updIfTruthy m k (F k)) m).map Prod.fst) =
        m.map Prod.fst := by
  induction ks with
  | nil => intro m; rfl
  | cons k ks ih =>
    intro m
    rw [List.foldl_cons, ih (updIfTruthy m k (F k)), updIfTruthy_keys]

theorem dget_foldl_present (f : String → String) (ks : List String)
    (hnd : ks.Nodup) :
    ∀ (m : FieldMap) (k' : String),
      dget (ks.foldl (fun m k => updIfPresent m k f) m) k' =
        if k' ∈ ks then (dget m k').map f else dget m k' := by
  induction ks with
  | nil =>
    intro m k'
    rw [if_neg (by simp)]
    rfl
  | cons k ks ih =>
    intro m k'
    rw [List.nodup_cons] at hnd
    rw [List.foldl_cons]
    rw [ih hnd.2 (updIfPresent m k f) k']
    by_cases hmem : k' ∈ ks
    · rw [if_pos hmem, if_pos (by simp [hmem])]
      have hne : k' ≠ k := fun h0 => hnd.1 (h0 ▸ hmem)
      rw [dget_updIfPresent, if_neg hne]
    · rw [if_neg hmem]
      by_cases hk : k' = k
      · subst hk
        rw [if_pos (by simp)]
        rw [dget_updIfPresent, if_pos rfl]
      · rw [if_neg (by simp [hk, hmem])]
        rw [dget_updIfPresent, if_neg hk]

theorem foldl_present_keys (f : String → String) (ks : List String) :
    ∀ (m : FieldMap),
      ((ks.foldl (fun m k => updIfPresent m k f) m).map Prod.fst) =
        m.map Prod.fst := by
  induction ks with
  | nil => intro m; rfl
  | cons k ks ih =>
    intro m
    rw [List.foldl_cons, ih (updIfPresent m k f), updIfPresent_keys]

theorem dget_none_of_not_mem (m : FieldMap) (k : String)
    (h : k ∉ m.map Prod.fst) : dget m k = none := by
  induction m with
  | nil => rfl
  | cons p rest ih =>
    unfold dget
    rw [if_neg (by
      intro h0
      exact h (by rw [← h0]; simp))]
    exact ih (fun hm => h (by simp [hm]))

theorem fieldmap_ext : ∀ (m1 m2 : FieldMap),
    (m1.map Prod.fst).Nodup →
    m1.map Prod.fst = m2.map Prod.fst →
    (∀ k, dget m1 k = dget m2 k) → m1 = m2 := by
  intro m1
  induction m1 with
  | nil =>
    intro m2 _ hk _
    cases m2 with
    | nil => rfl
    | cons q m2' => simp at hk
  | cons p m1' ih =>
    intro m2 hnd hk hv
    cases m2 with
    | nil => simp at hk
    | cons q m2' =>
      simp only [List.map_cons, List.cons.injEq] at hk
      have hfst : p.1 = q.1 := hk.1
      simp only [List.map_cons, List.nodup_cons] at hnd
      have hval : p.2 = q.2 := by
        have h0 := hv p.1
        unfold dget at h0
        rw [if_pos rfl, if_pos hfst.symm] at h0
        exact Option.some.inj h0
      have htail : m1' = m2' := by
        apply ih m2' hnd.2 hk.2
        intro k
        by_cases hkp : k = p.1
        · subst hkp
          rw [dget_none_of_not_mem m1' p.1 hnd.1,
            dget_none_of_not_mem m2' p.1 (by rw [← hk.2]; exact hnd.1)]
        · have h0 := hv k
          unfold dget at h0
          rw [if_neg (fun h1 => hkp h1.symm),
            if_neg (fun h1 => hkp (hfst.trans h1).symm)] at h0
          exact h0
      have hpq : p = q := by
        cases p
        cases q
        simp only [Prod.mk.injEq]
        exact ⟨hfst, hval⟩
      rw [hpq, htail]

theorem post_ine_out (m : FieldMap) :
    postProcessDocumentFields "ine" m =
      updIfPresent (updIfPresent (updIfPresent (updIfPresent (updIfPresent
        (updIfPresent (updIfPresent (updIfPresent
          (["nombre", "domicilio", "clave_elector", "fecha_nacimiento",
            "vigencia", "seccion"].foldl
            (fun m k => updIfTruthy m k
              (fun v => stripAnyLabel v (labelPrefixes "ine" k))) m)
          "sexo" cleanIneSexo)
          "anio_registro" (pickFirstRegex matchYear))
          "seccion" (pickFirstRegex matchSeccion))
          "vigencia" (pickFirstRegex matchVig))
          "fecha_nacimiento" (pickFirstRegex matchDate))
          "clave_elector" ineClaveClean)
          "curp" (pickFirstRegexAny matchCurp))
          "domicilio" cleanAddressLine := rfl

theorem post_ine_keys (m : FieldMap) :
    (postProcessDocumentFields "ine" m).map Prod.fst = m.map Prod.fst := by
  rw [post_ine_out, updIfPresent_keys, updIfPresent_keys, updIfPresent_keys,
    updIfPresent_keys, updIfPresent_keys, updIfPresent_keys, updIfPresent_keys,
    updIfPresent_keys, foldl_truthy_keys]

theorem post_ine_dget (m : FieldMap) (k : String) :
    dget (postProcessDocumentFields "ine" m) k = (dget m k).map (ineClean k) := by
  rw [post_ine_out, dget_updIfPresent, dget_updIfPresent, dget_updIfPresent,
    dget_updIfPresent, dget_updIfPresent, dget_updIfPresent, dget_updIfPresent,
    dget_updIfPresent,
    dget_foldl_truthy (fun k v => stripAnyLabel v (labelPrefixes "ine" k))
      ["nombre", "domicilio", "clave_elector", "fecha_nacimiento", "vigencia",
        "seccion"] (by decide)]
  by_cases h1 : k = "domicilio"
  · subst h1
    rw [if_pos rfl, if_neg (by decide), if_neg (by decide), if_neg (by decide),
      if_neg (by decide), if_neg (by decide), if_neg (by decide),
      if_neg (by decide), if_pos (by decide), Option.map_map]
    rw [show ineClean "domicilio" =
      stripThen (labelPrefixes "ine" "domicilio") cleanAddressLine from by
        unfold ineClean
        rw [if_neg (by decide), if_neg (by decide), if_neg (by decide),
          if_neg (by decide), if_pos rfl]]
    rfl
  rw [if_neg h1]
  by_cases h2 : k = "curp"
  · subst h2
    rw [if_pos rfl, if_neg (by decide), if_neg (by decide), if_neg (by decide),
      if_neg (by decide), if_neg (by decide), if_neg (by decide),
      if_neg (by decide)]
    rw [show ineClean "curp" = pickFirstRegexAny matchCurp from by
      unfold ineClean
      rw [if_neg (by decide), if_neg (by decide), if_pos rfl]]
  rw [if_neg h2]
  by_cases h3 : k = "clave_elector"
  · subst h3
    rw [if_pos rfl, if_neg (by decide), if_neg (by decide), if_neg (by decide),
      if_neg (by decide), if_neg (by decide), if_pos (by decide),
      Option.map_map]
    rw [show ineClean "clave_elector" =
      stripThen (labelPrefixes "ine" "clave_elector") ineClaveClean from by
        unfold ineClean
        rw [if_neg (by decide), if_neg (by decide), if_neg (by decide),
          if_neg (by decide), if_neg (by decide), if_pos rfl]]
    rfl
  rw [if_neg h3]
  by_cases h4 : k = "fecha_nacimiento"
  · subst h4
    rw [if_pos rfl, if_neg (by decide), if_neg (by decide), if_neg (by decide),
      if_neg (by decide), if_pos (by decide), Option.map_map]
    rw [show ineClean "fecha_nacimiento" =
      stripThen (labelPrefixes "ine" "fecha_nacimiento")
        (pickFirstRegex matchDate) from by
        unfold ineClean
        rw [if_neg (by decide), if_neg (by decide), if_neg (by decide),
          if_neg (by decide), if_neg (by decide), if_neg (by decide),
          if_pos rfl]]
    rfl
  rw [if_neg h4]
  by_cases h5 : k = "vigencia"
  · subst h5
    rw [if_pos rfl, if_neg (by decide), if_neg (by decide), if_neg (by decide),
      if_pos (by decide), Option.map_map]
    rw [show ineClean "vigencia" =
      stripThen (labelPrefixes "ine" "vigencia")
        (pickFirstRegex matchVig) from by
        unfold ineClean
        rw [if_neg (by decide), if_neg (by decide), if_neg (by decide),
          if_neg (by decide), if_neg (by decide), if_neg (by decide),
          if_neg (by decide), if_neg (by decide), if_pos rfl]]
    rfl
  rw [if_neg h5]
  by_cases h6 : k = "seccion"
  · subst h6
    rw [if_pos rfl, if_neg (by decide), if_neg (by decide), if_pos (by decide),
      Option.map_map]
    rw [show ineClean "seccion" =
      stripThen (labelPrefixes "ine" "seccion")
        (pickFirstRegex matchSeccion) from by
        unfold ineClean
        rw [if_neg (by decide), if_neg (by decide), if_neg (by decide),
          if_neg (by decide), if_neg (by decide), if_neg (by decide),
          if_neg (by decide), if_pos rfl]]
    rfl
  rw [if_neg h6]
  by_cases h7 : k = "anio_registro"
  · subst h7
    rw [if_pos rfl, if_neg (by decide), if_neg (by decide)]
    rw [show ineClean "anio_registro" = pickFirstRegex matchYear from by
      unfold ineClean
      rw [if_neg (by decide), if_pos rfl]]
  rw [if_neg h7]
  by_cases h8 : k = "sexo"
  · subst h8
    rw [if_pos rfl, if_neg (by decide)]
    rw [show ineClean "sexo" = cleanIneSexo from by
      unfold ineClean
      rw [if_pos rfl]]
  rw [if_neg h8]
  by_cases h9 : k = "nombre"
  · subst h9
    rw [if_pos (by decide)]
    rw [show ineClean "nombre" =
      stripThen (labelPrefixes "ine" "nombre") id from by
        unfold ineClean
        rw [if_neg (by decide), if_neg (by decide), if_neg (by decide),
          if_pos rfl]]
    rfl
  rw [if_neg (by simp [h9, h1, h3, h4, h5, h6])]
  have hid : ineClean k = id := by
    unfold ineClean
    rw [if_neg h8, if_neg h7, if_neg h2, if_neg h9, if_neg h1, if_neg h3,
      if_neg h4, if_neg h6, if_neg h5]
  rw [hid, Option.map_id]
  rfl

theorem post_curp_out (m : FieldMap) :
    postProcessDocumentFields "curp" m =
      updIfPresent (updIfPresent (updIfPresent m
        "curp" (pickFirstRegexAny matchCurp))
        "nombre" (fun v => onlyLettersSpaces (stripAnyLabel v
          (labelPrefixes "curp" "nombre"))))
        "entidad_registro" curpEntidadClean := by
  unfold postProcessDocumentFields
  rw [if_neg (by decide), if_pos rfl]

theorem post_curp_keys (m : FieldMap) :
    (postProcessDocumentFields "curp" m).map Prod.fst = m.map Prod.fst := by
  rw [post_curp_out, updIfPresent_keys, updIfPresent_keys, updIfPresent_keys]

theorem post_curp_dget (m : FieldMap) (k : String) :
    dget (postProcessDocumentFields "curp" m) k =
      (dget m k).map (curpClean k) := by
  rw [post_curp_out, dget_updIfPresent, dget_updIfPresent, dget_updIfPresent]
  by_cases h1 : k = "entidad_registro"
  · subst h1
    rw [if_pos rfl, if_neg (by decide), if_neg (by decide)]
    rw [show curpClean "entidad_registro" = curpEntidadClean from by
      unfold curpClean
      rw [if_neg (by decide), if_neg (by decide), if_pos rfl]]
  rw [if_neg h1]
  by_cases h2 : k = "nombre"
  · subst h2
    rw [if_pos rfl, if_neg (by decide)]
    rw [show curpClean "nombre" = (fun v => onlyLettersSpaces (stripAnyLabel v
        (labelPrefixes "curp" "nombre"))) from by
      unfold curpClean
      rw [if_neg (by decide), if_pos rfl]]
  rw [if_neg h2]
  by_cases h3 : k = "curp"
  · subst h3
    rw [if_pos rfl]
    rw [show curpClean "curp" = pickFirstRegexAny matchCurp from by
      unfold curpClean
      rw [if_pos rfl]]
  rw [if_neg h3]
  have hid : curpClean k = id := by
    unfold curpClean
    rw [if_neg h3, if_neg h2, if_neg h1]
  rw [hid, Option.map_id]
  rfl

theorem post_acta_out (m : FieldMap) :
    postProcessDocumentFields "acta" m =
      updIfPresent (updIfPresent (updIfPresent
        (["nombres", "primer_apellido", "segundo_apellido",
          "lugar_nacimiento", "municipio_registro"].foldl
          (fun m k => updIfPresent m k onlyLettersSpaces)
          (["nombres", "primer_apellido", "segundo_apellido",
            "entidad_registro", "municipio_registro", "sexo",
            "fecha_nacimiento", "lugar_nacimiento"].foldl
            (fun m k => updIfTruthy m k
              (fun v => stripAnyLabel v (labelPrefixes "acta" k)))
            (updIfPresent m "curp" (pickFirstRegexAny matchCurp))))
        "sexo" actaSexoClean)
        "fecha_nacimiento" (pickFirstRegexAny matchDate))
        "entidad_registro" actaEntidadClean := by
  unfold postProcessDocumentFields
  rw [if_neg (by decide), if_neg (by decide), if_pos rfl]

theorem post_acta_keys (m : FieldMap) :
    (postProcessDocumentFields "acta" m).map Prod.fst = m.map Prod.fst := by
  rw [post_acta_out, updIfPresent_keys, updIfPresent_keys, updIfPresent_keys,
    foldl_present_keys, foldl_truthy_keys, updIfPresent_keys]

theorem post_acta_dget (m : FieldMap) (k : String) :
    dget (postProcessDocumentFields "acta" m) k =
      (dget m k).map (actaClean k) := by
  rw [post_acta_out, dget_updIfPresent, dget_updIfPresent, dget_updIfPresent,
    dget_foldl_present onlyLettersSpaces
      ["nombres", "primer_apellido", "segundo_apellido", "lugar_nacimiento",
        "municipio_registro"] (by decide),
    dget_foldl_truthy (fun k v => stripAnyLabel v (labelPrefixes "acta" k))
      ["nombres", "primer_apellido", "segundo_apellido", "entidad_registro",
        "municipio_registro", "sexo", "fecha_nacimiento", "lugar_nacimiento"]
      (by decide),
    dget_updIfPresent]
  by_cases h1 : k = "entidad_registro"
  · subst h1
    rw [if_pos rfl, if_neg (by decide), if_neg (by decide),
      if_neg (by decide), if_pos (by decide), if_neg (by decide),
      Option.map_map, stripThen_comp]
    rw [show actaClean "entidad_registro" =
      stripThen (labelPrefixes "acta" "entidad_registro")
        actaEntidadClean from by
        unfold actaClean
        rw [if_neg (by decide), if_neg (by decide), if_neg (by decide),
          if_pos rfl]]
  rw [if_neg h1]
  by_cases h2 : k = "fecha_nacimiento"
  · subst h2
    rw [if_pos rfl, if_neg (by decide), if_neg (by decide),
      if_pos (by decide), if_neg (by decide), Option.map_map, stripThen_comp]
    rw [show actaClean "fecha_nacimiento" =
      stripThen (labelPrefixes "acta" "fecha_nacimiento")
        (pickFirstRegexAny matchDate) from by
        unfold actaClean
        rw [if_neg (by decide), if_neg (by decide), if_pos rfl]]
  rw [if_neg h2]
  by_cases h3 : k = "sexo"
  · subst h3
    rw [if_pos rfl, if_neg (by decide), if_pos (by decide),
      if_neg (by decide), Option.map_map, stripThen_comp]
    rw [show actaClean "sexo" =
      stripThen (labelPrefixes "acta" "sexo") actaSexoClean from by
        unfold actaClean
        rw [if_neg (by decide), if_pos rfl]]
  rw [if_neg h3]
  by_cases h4 : k = "nombres"
  · subst h4
    rw [if_pos (by decide), if_pos (by decide), if_neg (by decide),
      Option.map_map, stripThen_comp]
    rw [show actaClean "nombres" =
      stripThen (labelPrefixes "acta" "nombres") onlyLettersSpaces from by
        unfold actaClean
        rw [if_neg (by decide), if_neg (by decide), if_neg (by decide),
          if_neg (by decide), if_pos rfl]]
  by_cases h5 : k = "primer_apellido"
  · subst h5
    rw [if_pos (by decide), if_pos (by decide), if_neg (by decide),
      Option.map_map, stripThen_comp]
    rw [show actaClean "primer_apellido" =
      stripThen (labelPrefixes "acta" "primer_apellido")
        onlyLettersSpaces from by
        unfold actaClean
        rw [if_neg (by decide), if_neg (by decide), if_neg (by decide),
          if_neg (by decide), if_neg (by decide), if_pos rfl]]
  by_cases h6 : k = "segundo_apellido"
  · subst h6
    rw [if_pos (by decide), if_pos (by decide), if_neg (by decide),
      Option.map_map, stripThen_comp]
    rw [show actaClean "segundo_apellido" =
      stripThen (labelPrefixes "acta" "segundo_apellido")
        onlyLettersSpaces from by
        unfold actaClean
        rw [if_neg (by decide), if_neg (by decide), if_neg (by decide),
          if_neg (by decide), if_neg (by decide), if_neg (by decide),
          if_pos rfl]]
  by_cases h7 : k = "lugar_nacimiento"
  · subst h7
    rw [if_pos (by decide), if_pos (by decide), if_neg (by decide),
      Option.map_map, stripThen_comp]
    rw [show actaClean "lugar_nacimiento" =
      stripThen (labelPrefixes "acta" "lugar_nacimiento")
        onlyLettersSpaces from by
        unfold actaClean
        rw [if_neg (by decide), if_neg (by decide), if_neg (by decide),
          if_neg (by decide), if_neg (by decide), if_neg (by decide),
          if_neg (by decide), if_pos rfl]]
  by_cases h8 : k = "municipio_registro"
  · subst h8
    rw [if_pos (by decide), if_pos (by decide), if_neg (by decide),
      Option.map_map, stripThen_comp]
    rw [show actaClean "municipio_registro" =
      stripThen (labelPrefixes "acta" "municipio_registro")
        onlyLettersSpaces from by
        unfold actaClean
        rw [if_neg (by decide), if_neg (by decide), if_neg (by decide),
          if_neg (by decide), if_neg (by decide), if_neg (by decide),
          if_neg (by decide), if_neg (by decide), if_pos rfl]]
  rw [if_neg (by simp [h4, h5, h6, h7, h8])]
  by_cases h9 : k = "curp"
  · subst h9
    rw [if_neg (by decide), if_pos rfl]
    rw [show actaClean "curp" = pickFirstRegexAny matchCurp from by
      unfold actaClean
      rw [if_pos rfl]]
  rw [if_neg (by simp [h1, h2, h3, h4, h5, h6, h7, h8]), if_neg h9]
  have hid : actaClean k = id := by
    unfold actaClean
    rw [if_neg h9, if_neg h3, if_neg h2, if_neg h1, if_neg h4, if_neg h5,
      if_neg h6, if_neg h7, if_neg h8]
  rw [hid, Option.map_id]
  rfl

theorem noResidual_spec (tipo : String) (w : FieldMap)
    (h : noResidualB tipo w = true) :
    ∀ k ∈ stripKeys tipo, ∀ v, dget w k = some v →
      (labelPrefixes tipo k).find?
        (fun p => (pyNorm p).data.isPrefixOf (pyNorm v).data) = none := by
  intro k hk v hv
  unfold noResidualB at h
  rw [List.all_eq_true] at h
  have h2 := h k hk
  rw [hv] at h2
  exact Option.isNone_iff_eq_none.mp h2

theorem labelPrefixes_ine_other (k : String) (h : k ∉ stripKeys "ine") :
    labelPrefixes "ine" k = [] := by
  rw [show stripKeys "ine" = ["nombre", "domicilio", "clave_elector",
    "fecha_nacimiento", "vigencia", "seccion"] from rfl] at h
  simp only [List.mem_cons, List.not_mem_nil, not_or, or_false] at h
  unfold labelPrefixes
  rw [if_neg (by decide), if_neg (by decide), if_pos rfl]
  rw [if_neg h.1, if_neg h.2.1, if_neg h.2.2.1, if_neg h.2.2.2.1,
    if_neg h.2.2.2.2.1, if_neg h.2.2.2.2.2]

theorem labelPrefixes_curp_other (k : String) (h : k ∉ stripKeys "curp") :
    labelPrefixes "curp" k = [] := by
  rw [show stripKeys "curp" = ["nombre", "entidad_registro"] from rfl] at h
  simp only [List.mem_cons, List.not_mem_nil, not_or, or_false] at h
  unfold labelPrefixes
  rw [if_neg (by decide), if_pos rfl]
  rw [if_neg h.1, if_neg h.2]

theorem labelPrefixes_acta_other (k : String) (h : k ∉ stripKeys "acta") :
    labelPrefixes "acta" k = [] := by
  rw [show stripKeys "acta" = ["nombres", "primer_apellido",
    "segundo_apellido", "entidad_registro", "municipio_registro", "sexo",
    "fecha_nacimiento", "lugar_nacimiento"] from rfl] at h
  simp only [List.mem_cons, List.not_mem_nil, not_or, or_false] at h
  unfold labelPrefixes
  rw [if_pos rfl]
  rw [if_neg h.1, if_neg h.2.1, if_neg h.2.2.1, if_neg h.2.2.2.1,
    if_neg h.2.2.2.2.1, if_neg h.2.2.2.2.2.2.2]

theorem ineClean_idem (k v : String)
    (hres : (labelPrefixes "ine" k).find? (fun p => (pyNorm p).data.isPrefixOf
        (pyNorm (ineClean k v)).data) = none) :
    ineClean k (ineClean k v) = ineClean k v := by
  by_cases h1 : k = "sexo"
  · subst h1
    rw [show ineClean "sexo" = cleanIneSexo from by
      unfold ineClean
      rw [if_pos rfl]]
    exact cleanIneSexo_idem v
  by_cases h2 : k = "anio_registro"
  · subst h2
    rw [show ineClean "anio_registro" = pickFirstRegex matchYear from by
      unfold ineClean
      rw [if_neg (by decide), if_pos rfl]]
    exact pickYear_idem v
  by_cases h3 : k = "curp"
  · subst h3
    rw [show ineClean "curp" = pickFirstRegexAny matchCurp from by
      unfold ineClean
      rw [if_neg (by decide), if_neg (by decide), if_pos rfl]]
    simp only [pickFirstRegexAny_eq]
    exact pickCurp_idem v
  by_cases h4 : k = "nombre"
  · subst h4
    have he : ineClean "nombre" = stripThen (labelPrefixes "ine" "nombre") id := by
      unfold ineClean
      rw [if_neg (by decide), if_neg (by decide), if_neg (by decide),
        if_pos rfl]
    rw [he] at hres ⊢
    exact stripThen_idem _ id rfl (fun x hx => hx) (fun x _ => rfl) v hres
  by_cases h5 : k = "domicilio"
  · subst h5
    have he : ineClean "domicilio" =
        stripThen (labelPrefixes "ine" "domicilio") cleanAddressLine := by
      unfold ineClean
      rw [if_neg (by decide), if_neg (by decide), if_neg (by decide),
        if_neg (by decide), if_pos rfl]
    rw [he] at hres ⊢
    exact stripThen_idem _ _ (by decide) (fun x _ => cleanAddressLine_normFixed x)
      (fun x _ => cleanAddressLine_self x) v hres
  by_cases h6 : k = "clave_elector"
  · subst h6
    have he : ineClean "clave_elector" =
        stripThen (labelPrefixes "ine" "clave_elector") ineClaveClean := by
      unfold ineClean
      rw [if_neg (by decide), if_neg (by decide), if_neg (by decide),
        if_neg (by decide), if_neg (by decide), if_pos rfl]
    rw [he] at hres ⊢
    exact stripThen_idem _ _ ineClaveClean_empty
      (fun x _ => ineClaveClean_normFixed x)
      (fun x _ => ineClaveClean_self x) v hres
  by_cases h7 : k = "fecha_nacimiento"
  · subst h7
    have he : ineClean "fecha_nacimiento" =
        stripThen (labelPrefixes "ine" "fecha_nacimiento")
          (pickFirstRegex matchDate) := by
      unfold ineClean
      rw [if_neg (by decide), if_neg (by decide), if_neg (by decide),
        if_neg (by decide), if_neg (by decide), if_neg (by decide),
        if_pos rfl]
    rw [he] at hres ⊢
    exact stripThen_idem _ _ (pickFirstRegex_empty _ matchDate_nil)
      (fun x _ => pickDate_normFixed x) (fun x _ => pickDate_idem x) v hres
  by_cases h8 : k = "seccion"
  · subst h8
    have he : ineClean "seccion" =
        stripThen (labelPrefixes "ine" "seccion")
          (pickFirstRegex matchSeccion) := by
      unfold ineClean
      rw [if_neg (by decide), if_neg (by decide), if_neg (by decide),
        if_neg (by decide), if_neg (by decide), if_neg (by decide),
        if_neg (by decide), if_pos rfl]
    rw [he] at hres ⊢
    exact stripThen_idem _ _ (pickFirstRegex_empty _ matchSeccion_nil)
      (fun x _ => pickSeccion_normFixed x) (fun x _ => pickSeccion_idem x) v hres
  by_cases h9 : k = "vigencia"
  · subst h9
    have he : ineClean "vigencia" =
        stripThen (labelPrefixes "ine" "vigencia") (pickFirstRegex matchVig) := by
      unfold ineClean
      rw [if_neg (by decide), if_neg (by decide), if_neg (by decide),
        if_neg (by decide), if_neg (by decide), if_neg (by decide),
        if_neg (by decide), if_neg (by decide), if_pos rfl]
    rw [he] at hres ⊢
    exact stripThen_idem _ _ (pickFirstRegex_empty _ matchVig_nil)
      (fun x _ => pickVig_normFixed x) (fun x _ => pickVig_idem x) v hres
  have hid : ineClean k = id := by
    unfold ineClean
    rw [if_neg h1, if_neg h2, if_neg h3, if_neg h4, if_neg h5, if_neg h6,
      if_neg h7, if_neg h8, if_neg h9]
  rw [hid]
  rfl

theorem curpClean_idem (k v : String)
    (hres : (labelPrefixes "curp" k).find? (fun p => (pyNorm p).data.isPrefixOf
        (pyNorm (curpClean k v)).data) = none) :
    curpClean k (curpClean k v) = curpClean k v := by
  by_cases h1 : k = "curp"
  · subst h1
    rw [show curpClean "curp" = pickFirstRegexAny matchCurp from by
      unfold curpClean
      rw [if_pos rfl]]
    simp only [pickFirstRegexAny_eq]
    exact pickCurp_idem v
  by_cases h2 : k = "nombre"
  · subst h2
    have he : curpClean "nombre" = fun v => onlyLettersSpaces (stripAnyLabel v
        (labelPrefixes "curp" "nombre")) := by
      unfold curpClean
      rw [if_neg (by decide), if_pos rfl]
    rw [he] at hres ⊢
    exact curpNombre_idem v hres
  by_cases h3 : k = "entidad_registro"
  · subst h3
    have he : curpClean "entidad_registro" = curpEntidadClean := by
      unfold curpClean
      rw [if_neg (by decide), if_neg (by decide), if_pos rfl]
    rw [he] at hres ⊢
    exact curpEntidad_idem v hres
  have hid : curpClean k = id := by
    unfold curpClean
    rw [if_neg h1, if_neg h2, if_neg h3]
  rw [hid]
  rfl

theorem actaClean_idem (k v : String)
    (hres : (labelPrefixes "acta" k).find? (fun p => (pyNorm p).data.isPrefixOf
        (pyNorm (actaClean k v)).data) = none) :
    actaClean k (actaClean k v) = actaClean k v := by
  by_cases h1 : k = "curp"
  · subst h1
    rw [show actaClean "curp" = pickFirstRegexAny matchCurp from by
      unfold actaClean
      rw [if_pos rfl]]
    simp only [pickFirstRegexAny_eq]
    exact pickCurp_idem v
  by_cases h2 : k = "sexo"
  · subst h2
    have he : actaClean "sexo" =
        stripThen (labelPrefixes "acta" "sexo") actaSexoClean := by
      unfold actaClean
      rw [if_neg (by decide), if_pos rfl]
    rw [he] at hres ⊢
    exact stripThen_idem _ _ actaSexoClean_fixed_lit.1
      (fun x _ => actaSexoClean_normFixed x)
      (fun x _ => actaSexoClean_idem x) v hres
  by_cases h3 : k = "fecha_nacimiento"
  · subst h3
    have he : actaClean "fecha_nacimiento" =
        stripThen (labelPrefixes "acta" "fecha_nacimiento")
          (pickFirstRegexAny matchDate) := by
      unfold actaClean
      rw [if_neg (by decide), if_neg (by decide), if_pos rfl]
    rw [he] at hres ⊢
    refine stripThen_idem _ _ ?_ ?_ ?_ v hres
    · rw [pickFirstRegexAny_eq]
      exact pickFirstRegex_empty _ matchDate_nil
    · intro x _
      rw [pickFirstRegexAny_eq]
      exact pickDate_normFixed x
    · intro x _
      simp only [pickFirstRegexAny_eq]
      exact pickDate_idem x
  by_cases h4 : k = "entidad_registro"
  · subst h4
    have he : actaClean "entidad_registro" =
        stripThen (labelPrefixes "acta" "entidad_registro")
          actaEntidadClean := by
      unfold actaClean
      rw [if_neg (by decide), if_neg (by decide), if_neg (by decide),
        if_pos rfl]
    rw [he] at hres ⊢
    exact stripThen_idem _ _ actaEntidad_empty
      (fun x hx => actaEntidad_normFixed x hx)
      (fun x _ => actaEntidad_idem x) v hres
  by_cases h5 : k = "nombres"
  · subst h5
    have he : actaClean "nombres" =
        stripThen (labelPrefixes "acta" "nombres") onlyLettersSpaces := by
      unfold actaClean
      rw [if_neg (by decide), if_neg (by decide), if_neg (by decide),
        if_neg (by decide), if_pos rfl]
    rw [he] at hres ⊢
    exact stripThen_idem _ _ (by decide) (fun x _ => oLS_normFixed x)
      (fun x _ => oLS_idem x) v hres
  by_cases h6 : k = "primer_apellido"
  · subst h6
    have he : actaClean "primer_apellido" =
        stripThen (labelPrefixes "acta" "primer_apellido")
          onlyLettersSpaces := by
      unfold actaClean
      rw [if_neg (by decide), if_neg (by decide), if_neg (by decide),
        if_neg (by decide), if_neg (by decide), if_pos rfl]
    rw [he] at hres ⊢
    exact stripThen_idem _ _ (by decide) (fun x _ => oLS_normFixed x)
      (fun x _ => oLS_idem x) v hres
  by_cases h7 : k = "segundo_apellido"
  · subst h7
    have he : actaClean "segundo_apellido" =
        stripThen (labelPrefixes "acta" "segundo_apellido")
          onlyLettersSpaces := by
      unfold actaClean
      rw [if_neg (by decide), if_neg (by decide), if_neg (by decide),
        if_neg (by decide), if_neg (by decide), if_neg (by decide),
        if_pos rfl]
    rw [he] at hres ⊢
    exact stripThen_idem _ _ (by decide) (fun x _ => oLS_normFixed x)
      (fun x _ => oLS_idem x) v hres
  by_cases h8 : k = "lugar_nacimiento"
  · subst h8
    have he : actaClean "lugar_nacimiento" =
        stripThen (labelPrefixes "acta" "lugar_nacimiento")
          onlyLettersSpaces := by
      unfold actaClean
      rw [if_neg (by decide), if_neg (by decide), if_neg (by decide),
        if_neg (by decide), if_neg (by decide), if_neg (by decide),
        if_neg (by decide), if_pos rfl]
    rw [he] at hres ⊢
    exact stripThen_idem _ _ (by decide) (fun x _ => oLS_normFixed x)
      (fun x _ => oLS_idem x) v hres
  by_cases h9 : k = "municipio_registro"
  · subst h9
    have he : actaClean "municipio_registro" =
        stripThen (labelPrefixes "acta" "municipio_registro")
          onlyLettersSpaces := by
      unfold actaClean
      rw [if_neg (by decide), if_neg (by decide), if_neg (by decide),
        if_neg (by decide), if_neg (by decide), if_neg (by decide),
        if_neg (by decide), if_neg (by decide), if_pos rfl]
    rw [he] at hres ⊢
    exact stripThen_idem _ _ (by decide) (fun x _ => oLS_normFixed x)
      (fun x _ => oLS_idem x) v hres
  have hid : actaClean k = id := by
    unfold actaClean
    rw [if_neg h1, if_neg h2, if_neg h3, if_neg h4, if_neg h5, if_neg h6,
      if_neg h7, if_neg h8, if_neg h9]
  rw [hid]
  rfl

/-- C7: any text whose normalization contains the phrase
`"ACTA DE NACIMIENTO"` (as `\b`-delimited words) classifies as `"acta"` even
when it also contains the token `"CURP"` — the acta rule is checked first
and first match wins; and text matching none of the six keyword rules
yields `"auto"`. -/
theorem claim_C7 (t : String) :
    (containsWordB (pyNorm t) "ACTA DE NACIMIENTO" = true →
      containsWordB (pyNorm t) "CURP" = true →
      detectType t = "acta") ∧
    ((containsWordB (pyNorm t) "ACTA DE NACIMIENTO" = false ∧
      containsWordB (pyNorm t) "OFICIAL DEL REGISTRO" = false ∧
      containsWordB (pyNorm t) "INSTITUTO NACIONAL ELECTORAL" = false ∧
      containsWordB (pyNorm t) "CREDENCIAL PARA VOTAR" = false ∧
      containsWordB (pyNorm t) "CLAVE UNICA DE REGISTRO DE POBLACION" = false ∧
      containsWordB (pyNorm t) "CURP" = false) →
      detectType t = "auto") := by
  constructor
  · intro h1 _
    unfold detectType
    dsimp only
    rw [h1]
    rfl
  · intro ⟨h1, h2, h3, h4, h5, h6⟩
    unfold detectType
    dsimp only
    rw [h1, h2, h3, h4, h5, h6]
    rfl

theorem claim_C7_witness :
    detectType "Acta de Nacimiento ... CURP: ABCD800101HDFRRL09" = "acta" ∧
    detectType "recibo de luz" = "auto" :=
  ⟨(claim_C7 "Acta de Nacimiento ... CURP: ABCD800101HDFRRL09").1
      (by decide) (by decide),
   (claim_C7 "recibo de luz").2
      ⟨by decide, by decide, by decide, by decide, by decide, by decide⟩⟩

theorem claim_C10_witness :
    dget (smartMergeFields pySearch "otros" [] [("folio", "A1")]
        [("folio", "")]).1 "folio" = some "" ∧
    (⟨"folio", "text", ""⟩ : Decision) ∈
        (smartMergeFields pySearch "otros" [] [("folio", "A1")]
          [("folio", "")]).2 :=
  claim_C10 pySearch [] [("folio", "A1")] [("folio", "")] "folio" "A1"
    (by decide) (by decide) (by decide) (by decide)

set_option maxHeartbeats 1000000 in
/-- C4 counterexample to the unamended claim: one pass of the `"ine"` Field
Cleaner over `{nombre: "NOMBRE NOMBRE JUAN"}` strips a single `NOMBRE` label
alias (`_strip_any_prefix` breaks after the first hit), so a second pass
strips another one and the output changes again. -/
theorem claim_C4_counterexample :
    postProcessDocumentFields "ine" (postProcessDocumentFields "ine"
      [("nombre", "NOMBRE NOMBRE JUAN")]) ≠
    postProcessDocumentFields "ine" [("nombre", "NOMBRE NOMBRE JUAN")] := by
  decide

/-- C4 (amended): `_post_process_document_fields` is idempotent on every
field map with distinct keys whose once-cleaned values retain no leading
label alias at the prefix-stripped keys (`noResidualB`): applying the
cleaner to its own output returns that output unchanged.  Without the
residual-label proviso the claim fails, because each run of
`_strip_any_prefix` removes only one alias occurrence per value. -/
theorem claim_C4 (tipo : String) (m : FieldMap)
    (hnd : (m.map Prod.fst).Nodup)
    (hres : noResidualB tipo (postProcessDocumentFields tipo m) = true) :
    postProcessDocumentFields tipo (postProcessDocumentFields tipo m) =
      postProcessDocumentFields tipo m := by
  by_cases ht1 : tipo = "ine"
  · subst ht1
    apply fieldmap_ext
    · rw [post_ine_keys, post_ine_keys]
      exact hnd
    · rw [post_ine_keys (postProcessDocumentFields "ine" m)]
    · intro k
      rw [post_ine_dget (postProcessDocumentFields "ine" m) k,
        post_ine_dget m k]
      cases hv : dget m k with
      | none => rfl
      | some v =>
        rw [Option.map_some', Option.map_some']
        congr 1
        apply ineClean_idem k v
        by_cases hks : k ∈ stripKeys "ine"
        · apply noResidual_spec "ine" _ hres k hks
          rw [post_ine_dget m k, hv]
          rfl
        · rw [labelPrefixes_ine_other k hks]
          rfl
  by_cases ht2 : tipo = "curp"
  · subst ht2
    apply fieldmap_ext
    · rw [post_curp_keys, post_curp_keys]
      exact hnd
    · rw [post_curp_keys (postProcessDocumentFields "curp" m)]
    · intro k
      rw [post_curp_dget (postProcessDocumentFields "curp" m) k,
        post_curp_dget m k]
      cases hv : dget m k with
      | none => rfl
      | some v =>
        rw [Option.map_some', Option.map_some']
        congr 1
        apply curpClean_idem k v
        by_cases hks : k ∈ stripKeys "curp"
        · apply noResidual_spec "curp" _ hres k hks
          rw [post_curp_dget m k, hv]
          rfl
        · rw [labelPrefixes_curp_other k hks]
          rfl
  by_cases ht3 : tipo = "acta"
  · subst ht3
    apply fieldmap_ext
    · rw [post_acta_keys, post_acta_keys]
      exact hnd
    · rw [post_acta_keys (postProcessDocumentFields "acta" m)]
    · intro k
      rw [post_acta_dget (postProcessDocumentFields "acta" m) k,
        post_acta_dget m k]
      cases hv : dget m k with
      | none => rfl
      | some v =>
        rw [Option.map_some', Option.map_some']
        refine congrArg some (actaClean_idem k v ?_)
        by_cases hks : k ∈ stripKeys "acta"
        · apply noResidual_spec "acta" _ hres k hks
          rw [post_acta_dget m k, hv]
          rfl
        · rw [labelPrefixes_acta_other k hks]
          rfl
  have hother : ∀ mm : FieldMap, postProcessDocumentFields tipo mm = mm := by
    intro mm
    unfold postProcessDocumentFields
    rw [if_neg ht1, if_neg ht2, if_neg ht3]
  rw [hother (postProcessDocumentFields tipo m)]

set_option maxHeartbeats 1000000 in
theorem claim_C4_witness :
    ((([("nombre", "JUAN PEREZ"), ("sexo", "H")] : FieldMap).map
      Prod.fst).Nodup ∧
     noResidualB "ine" (postProcessDocumentFields "ine"
       [("nombre", "JUAN PEREZ"), ("sexo", "H")]) = true) ∧
    postProcessDocumentFields "ine" (postProcessDocumentFields "ine"
      [("nombre", "JUAN PEREZ"), ("sexo", "H")]) =
      postProcessDocumentFields "ine" [("nombre", "JUAN PEREZ"), ("sexo", "H")] :=
  ⟨⟨by decide, by decide⟩,
   claim_C4 "ine" [("nombre", "JUAN PEREZ"), ("sexo", "H")] (by decide)
     (by decide)⟩

end OCRSpec
